import Mathlib

/-!
# Verification of the mlive M (MUMPS dialect) interpreter

A shallow embedding, in Lean 4, of the core of the `mlive` repository:
the sparse-array module (`src/language/mValue.ts`), the tree-walking
interpreter (`src/interpreter.ts`), the recursive-descent parser
(`src/parser.ts`) and the pipeline entry point (`src/evaluate.ts`).

JavaScript's in-place object mutation is rendered as explicit state
passing: `MArray` objects live in an explicit object store (a list of
nodes addressed by position), and every function that mutates an object
in the source takes and returns the store.  JavaScript numbers are
modelled as unreduced integer fractions (`MScalar.num n d`, value n / d):
exact for the integer and decimal arithmetic exercised here; IEEE-754
rounding and float formatting are not modelled.
-/

namespace MLive


/-- Lexicographic comparison of character lists by code point, the
embedding of JavaScript's `<` on strings.  (JavaScript compares UTF-16
code units; this order agrees with it on all strings without
astral-plane characters, and every theorem below is order-generic.)
Written as a plain boolean recursion so that the kernel can evaluate it. -/
def charListLt : List Char → List Char → Bool
  | _, [] => false
  | [], _ :: _ => true
  | a :: as, b :: bs =>
    if a.val.toNat < b.val.toNat then true
    else if b.val.toNat < a.val.toNat then false
    else charListLt as bs

/-- JavaScript string comparison `a < b`. -/
def strLt (a b : String) : Bool := charListLt a.data b.data

/-- `a` is strictly below `b` in the key order. -/
def StrLt (a b : String) : Prop := strLt a b = true

/-- `a` is at or below `b` in the key order (`¬ b < a`). -/
def StrLe (a b : String) : Prop := strLt b a = false

theorem uint32_toNat_inj {a b : UInt32} (h : a.toNat = b.toNat) : a = b := by
  cases a; cases b
  simp only [UInt32.toNat] at h
  congr 1
  exact BitVec.toNat_injective h

theorem char_toNat_inj {a b : Char} (h : a.val.toNat = b.val.toNat) : a = b :=
  Char.ext (uint32_toNat_inj h)

theorem charListLt_irrefl (l : List Char) : charListLt l l = false := by
  induction l with
  | nil => rfl
  | cons a as ih => simp [charListLt, ih]

theorem charListLt_trans {l₁ l₂ l₃ : List Char} (h₁ : charListLt l₁ l₂ = true)
    (h₂ : charListLt l₂ l₃ = true) : charListLt l₁ l₃ = true := by
  induction l₁ generalizing l₂ l₃ with
  | nil =>
    cases l₃ with
    | nil => cases l₂ with
      | nil => exact absurd h₁ (by simp [charListLt])
      | cons b bs => exact absurd h₂ (by simp [charListLt])
    | cons c cs => rfl
  | cons a as ih =>
    cases l₂ with
    | nil => exact absurd h₁ (by simp [charListLt])
    | cons b bs =>
      cases l₃ with
      | nil => exact absurd h₂ (by simp [charListLt])
      | cons c cs =>
        simp only [charListLt] at h₁ h₂ ⊢
        by_cases hab : a.val.toNat < b.val.toNat
        · by_cases hbc : b.val.toNat < c.val.toNat
          · rw [if_pos (by omega)]
          · rw [if_neg hbc] at h₂
            by_cases hcb : c.val.toNat < b.val.toNat
            · rw [if_pos hcb] at h₂
              exact absurd h₂ (by simp)
            · rw [if_pos (by omega)]
        · rw [if_neg hab] at h₁
          by_cases hba : b.val.toNat < a.val.toNat
          · rw [if_pos hba] at h₁
            exact absurd h₁ (by simp)
          · rw [if_neg hba] at h₁
            have hab2 : a.val.toNat = b.val.toNat := by omega
            by_cases hbc : b.val.toNat < c.val.toNat
            · rw [if_pos (by omega)]
            · rw [if_neg hbc] at h₂
              by_cases hcb : c.val.toNat < b.val.toNat
              · rw [if_pos hcb] at h₂
                exact absurd h₂ (by simp)
              · rw [if_neg hcb] at h₂
                rw [if_neg (by omega), if_neg (by omega)]
                exact ih h₁ h₂

theorem charListLt_eq_of_not_lt {l₁ l₂ : List Char} (h₁ : charListLt l₁ l₂ = false)
    (h₂ : charListLt l₂ l₁ = false) : l₁ = l₂ := by
  induction l₁ generalizing l₂ with
  | nil =>
    cases l₂ with
    | nil => rfl
    | cons b bs => exact absurd h₁ (by simp [charListLt])
  | cons a as ih =>
    cases l₂ with
    | nil => exact absurd h₂ (by simp [charListLt])
    | cons b bs =>
      simp only [charListLt] at h₁ h₂
      by_cases hab : a.val.toNat < b.val.toNat
      · rw [if_pos hab] at h₁
        exact absurd h₁ (by simp)
      · rw [if_neg hab] at h₁
        by_cases hba : b.val.toNat < a.val.toNat
        · rw [if_pos hba] at h₂
          exact absurd h₂ (by simp)
        · rw [if_neg hba] at h₁
          rw [if_neg hba, if_neg hab] at h₂
          have : a = b := char_toNat_inj (by omega)
          rw [this, ih h₁ h₂]

theorem charListLt_asymm {l₁ l₂ : List Char} (h : charListLt l₁ l₂ = true) :
    charListLt l₂ l₁ = false := by
  cases hrev : charListLt l₂ l₁ with
  | false => rfl
  | true => exact absurd (charListLt_irrefl l₁) (by rw [charListLt_trans h hrev]; simp)

theorem StrLt.trans {a b c : String} (h₁ : StrLt a b) (h₂ : StrLt b c) : StrLt a c :=
  charListLt_trans h₁ h₂

theorem StrLt.ne {a b : String} (h : StrLt a b) : a ≠ b := by
  intro he
  subst he
  have hirr := charListLt_irrefl a.data
  have hlt : charListLt a.data a.data = true := h
  rw [hlt] at hirr
  exact Bool.noConfusion hirr

theorem StrLt.not_lt {a b : String} (h : StrLt a b) : strLt b a = false :=
  charListLt_asymm h

theorem StrLt.le {a b : String} (h : StrLt a b) : StrLe a b := h.not_lt

theorem strEq_of_not_lt {a b : String} (h₁ : strLt a b = false)
    (h₂ : strLt b a = false) : a = b :=
  String.ext (charListLt_eq_of_not_lt h₁ h₂)

theorem strLt_of_le_of_ne {a b : String} (h : StrLe a b) (hne : a ≠ b) : StrLt a b := by
  cases hl : strLt a b with
  | true => exact hl
  | false => exact absurd (strEq_of_not_lt hl h) hne

theorem strLe_refl (a : String) : StrLe a a := charListLt_irrefl a.data

theorem strLe_of_eq {a b : String} (h : a = b) : StrLe a b := h ▸ strLe_refl a

theorem StrLe.trans_lt {a b c : String} (h₁ : StrLe a b) (h₂ : StrLt b c) : StrLt a c := by
  by_cases he : a = b
  · exact he ▸ h₂
  · exact (strLt_of_le_of_ne h₁ he).trans h₂

theorem StrLt.trans_le {a b c : String} (h₁ : StrLt a b) (h₂ : StrLe b c) : StrLt a c := by
  by_cases he : b = c
  · exact he ▸ h₁
  · exact h₁.trans (strLt_of_le_of_ne h₂ he)

/-- Nothing is strictly below the empty string. -/
theorem strLt_empty_right (s : String) : strLt s "" = false := by
  unfold strLt
  cases s.data with
  | nil => rfl
  | cons a as => rfl

/-- Being strictly below the empty string is absurd. -/
theorem strLt_empty_elim {s k : String} (hk : k = "") (h : StrLt s k) : False := by
  subst hk
  have h' : strLt s "" = true := h
  rw [strLt_empty_right] at h'
  exact Bool.noConfusion h'

/-- A scalar value of the interpreted language: a JavaScript string or
number (`type MScalar = string | number` in `mValue.ts`).  Numbers are
modelled by `JsNumber`, an unreduced integer fraction. -/
inductive MScalar where
  | str (s : String)
  | num (n : Int) (d : Int)
deriving DecidableEq, Repr

/-- A runtime value as it appears in environments and in array children:
either a scalar, or a pointer to an array node in the object store.  This
is the explicit-state rendering of `type MValue = MScalar | MArray`, where
an `MArray` value is a JavaScript object reference. -/
inductive MVal where
  | scalar (s : MScalar)
  | ptr (p : Nat)
deriving DecidableEq, Repr

/-- An array node (`interface MArray { value: MScalar; children?: ... }`
in `mValue.ts`): a scalar base value plus an optional sorted list of
key/value children. -/
structure MNode where
  value : MScalar
  children : Option (List (String × MVal))
deriving DecidableEq, Repr

/-- The empty-string value that `mArrayGet` returns for a missing key. -/
def emptyVal : MVal := .scalar (.str "")

/-- The binary-search loop inside `mArrayGetDesiredIndex`
(`mValue.ts` lines 138-153), with an explicit fuel argument standing for
the `while (left < right)` loop; the fuel always suffices because the
span shrinks at every iteration. -/
def mArrayGetDesiredIndexLoop (children : List (String × MVal)) (key : String) :
    Nat → Nat → Nat → Nat
  | 0, left, _ => left
  | fuel + 1, left, right =>
    if left < right then
      let index := (left + right) / 2
      match children[index]? with
      | none => left
      | some pair =>
        if strLt key pair.1 then
          mArrayGetDesiredIndexLoop children key fuel left index
        else if strLt pair.1 key then
          mArrayGetDesiredIndexLoop children key fuel (index + 1) right
        else index
    else left

/-- `mArrayGetDesiredIndex` (`mValue.ts` lines 133-156): binary search for
the position of `key` in the sorted children, or its insertion point. -/
def mArrayGetDesiredIndex (a : MNode) (key : String) : Nat :=
  match a.children with
  | none => 0
  | some ch => mArrayGetDesiredIndexLoop ch key (ch.length + 1) 0 ch.length

/-- `mArraySet` (`mValue.ts` lines 100-113).  `children.splice(index, 0, pair)`
is rendered as `take index ++ pair :: drop index`. -/
def mArraySet (a : MNode) (key : String) (v : MVal) : MNode :=
  match a.children with
  | none => { a with children := some [(key, v)] }
  | some ch =>
    let index := mArrayGetDesiredIndex a key
    match ch[index]? with
    | some pair =>
      if pair.1 = key then
        { a with children := some (ch.set index (key, v)) }
      else
        { a with children := some (ch.take index ++ (key, v) :: ch.drop index) }
    | none =>
      { a with children := some (ch.take index ++ (key, v) :: ch.drop index) }

/-- `mArrayKill` (`mValue.ts` lines 115-121).  `children.splice(index, 1)`
is rendered as `take index ++ drop (index + 1)`. -/
def mArrayKill (a : MNode) (key : String) : MNode :=
  let index := mArrayGetDesiredIndex a key
  match a.children with
  | none => a
  | some ch =>
    match ch[index]? with
    | some pair =>
      if pair.1 = key then
        { a with children := some (ch.take index ++ ch.drop (index + 1)) }
      else a
    | none => a

/-- `mArrayGet` (`mValue.ts` lines 123-131): returns the stored value, or
the empty string when the key is absent. -/
def mArrayGet (a : MNode) (key : String) : MVal :=
  let index := mArrayGetDesiredIndex a key
  match a.children with
  | none => emptyVal
  | some ch =>
    match ch[index]? with
    | some pair => if pair.1 = key then pair.2 else emptyVal
    | none => emptyVal

/-- `mArrayGetPreviousKey` (`mValue.ts` lines 158-172).  The JavaScript
index may be `-1` (then `children[-1]?.key ?? ""` yields `""`), so it is
computed in `Int`. -/
def mArrayGetPreviousKey (a : MNode) (key : String) : String :=
  match a.children with
  | none => ""
  | some ch =>
    let index : Int :=
      if key = "" then max ((ch.length : Int) - 1) 0
      else (mArrayGetDesiredIndex a key : Int) - 1
    match index with
    | .ofNat n =>
      match ch[n]? with
      | some pair => pair.1
      | none => ""
    | .negSucc _ => ""

/-- `mArrayGetNextKey` (`mValue.ts` lines 174-186): smallest key strictly
greater than `key`, or `""` when there is none. -/
def mArrayGetNextKey (a : MNode) (key : String) : String :=
  let index := mArrayGetDesiredIndex a key
  match a.children with
  | none => ""
  | some ch =>
    if ch.length ≤ index then ""
    else
      let index := if (ch[index]?.map Prod.fst) = some key then index + 1 else index
      match ch[index]? with
      | some pair => pair.1
      | none => ""

instance (a b : String) : Decidable (StrLt a b) :=
  inferInstanceAs (Decidable (strLt a b = true))

/-- The sparse-array invariant: children, when present, are strictly
sorted ascending by key under the string order. -/
def NodeSorted (a : MNode) : Prop :=
  ∀ ch, a.children = some ch → ch.Pairwise (fun x y => StrLt x.1 y.1)

/-- The keys stored in a node, in order. -/
def nodeKeys (a : MNode) : List String :=
  (a.children.getD []).map Prod.fst

theorem desiredIndexLoop_succ_of_lt {ch : List (String × MVal)} {key : String}
    {fuel left right : Nat} (h : left < right) (hlen : (left + right) / 2 < ch.length) :
    mArrayGetDesiredIndexLoop ch key (fuel + 1) left right =
      if strLt key (ch[(left + right) / 2]).1 then
        mArrayGetDesiredIndexLoop ch key fuel left ((left + right) / 2)
      else if strLt (ch[(left + right) / 2]).1 key then
        mArrayGetDesiredIndexLoop ch key fuel ((left + right) / 2 + 1) right
      else (left + right) / 2 := by
  rw [mArrayGetDesiredIndexLoop, if_pos h]
  simp only [List.getElem?_eq_getElem hlen]

theorem desiredIndexLoop_succ_of_ge {ch : List (String × MVal)} {key : String}
    {fuel left right : Nat} (h : ¬ left < right) :
    mArrayGetDesiredIndexLoop ch key (fuel + 1) left right = left := by
  rw [mArrayGetDesiredIndexLoop, if_neg h]

/-- Strict key monotonicity along sorted children. -/
theorem sorted_keys_mono {ch : List (String × MVal)}
    (hs : ch.Pairwise (fun x y => StrLt x.1 y.1)) {i j : Nat} (hij : i < j)
    (hj : j < ch.length) : StrLt (ch[i]).1 (ch[j]).1 :=
  List.pairwise_iff_getElem.mp hs i j (by omega) hj hij

/-- The binary-search loop returns the lower bound of `key` among the
sorted children restricted to `[left, right)`, given that everything
before `left` is below `key` and everything from `right` on is above it. -/
theorem desiredIndexLoop_spec {ch : List (String × MVal)} (key : String)
    (hs : ch.Pairwise (fun x y => StrLt x.1 y.1)) :
    ∀ fuel left right, left ≤ right → right ≤ ch.length → right - left < fuel →
      (∀ i (h : i < ch.length), i < left → StrLt (ch[i]).1 key) →
      (∀ i (h : i < ch.length), right ≤ i → StrLt key (ch[i]).1) →
      left ≤ mArrayGetDesiredIndexLoop ch key fuel left right ∧
      mArrayGetDesiredIndexLoop ch key fuel left right ≤ right ∧
      (∀ i (h : i < ch.length),
        i < mArrayGetDesiredIndexLoop ch key fuel left right → StrLt (ch[i]).1 key) ∧
      (∀ i (h : i < ch.length),
        mArrayGetDesiredIndexLoop ch key fuel left right ≤ i → StrLe key (ch[i]).1) := by
  intro fuel
  induction fuel with
  | zero => intro left right h1 h2 h3 _ _; omega
  | succ fuel ih =>
    intro left right hlr hrlen hfuel hlo hhi
    by_cases hlt : left < right
    · have hi_lt : (left + right) / 2 < right := by omega
      have hi_ge : left ≤ (left + right) / 2 := by omega
      have hi_len : (left + right) / 2 < ch.length := by omega
      rw [desiredIndexLoop_succ_of_lt hlt hi_len]
      cases hk1 : strLt key (ch[(left + right) / 2]).1 with
      | true =>
        simp only [hk1, if_true]
        have hnew : ∀ i (h : i < ch.length), (left + right) / 2 ≤ i →
            StrLt key (ch[i]).1 := by
          intro i h hi
          rcases eq_or_lt_of_le hi with heq | hlt2
          · subst heq; exact hk1
          · exact StrLt.trans hk1 (sorted_keys_mono hs hlt2 h)
        obtain ⟨ha, hb, hc, hd⟩ :=
          ih left ((left + right) / 2) hi_ge (by omega) (by omega) hlo hnew
        exact ⟨ha, le_trans hb (le_of_lt hi_lt), hc, hd⟩
      | false =>
        simp only [hk1, Bool.false_eq_true, if_false]
        cases hk2 : strLt (ch[(left + right) / 2]).1 key with
        | true =>
          simp only [hk2, if_true]
          have hnew : ∀ i (h : i < ch.length), i < (left + right) / 2 + 1 →
              StrLt (ch[i]).1 key := by
            intro i h hi
            rcases Nat.lt_succ_iff_lt_or_eq.mp hi with hlt2 | heq
            · exact StrLt.trans (sorted_keys_mono hs hlt2 hi_len) hk2
            · subst heq; exact hk2
          obtain ⟨ha, hb, hc, hd⟩ :=
            ih ((left + right) / 2 + 1) right (by omega) hrlen (by omega) hnew hhi
          exact ⟨le_trans (by omega) ha, hb, hc, hd⟩
        | false =>
          have heqk : (ch[(left + right) / 2]).1 = key :=
            strEq_of_not_lt hk2 hk1
          simp only [hk2, Bool.false_eq_true, if_false]
          refine ⟨hi_ge, le_of_lt hi_lt, ?_, ?_⟩
          · intro i h hi
            have hm := sorted_keys_mono hs hi hi_len
            rw [heqk] at hm
            exact hm
          · intro i h hi
            rcases eq_or_lt_of_le hi with heq | hlt2
            · subst heq; exact strLe_of_eq heqk.symm
            · have hm := sorted_keys_mono hs hlt2 h
              rw [heqk] at hm
              exact hm.le
    · rw [desiredIndexLoop_succ_of_ge hlt]
      refine ⟨le_refl _, hlr, fun i h hi => hlo i h hi, fun i h hi => ?_⟩
      exact (hhi i h (by omega)).le

/-- The insertion-point characterisation of `mArrayGetDesiredIndex`. -/
theorem desiredIndex_spec {a : MNode} {ch : List (String × MVal)} (key : String)
    (hch : a.children = some ch) (hs : ch.Pairwise (fun x y => StrLt x.1 y.1)) :
    mArrayGetDesiredIndex a key ≤ ch.length ∧
    (∀ i (h : i < ch.length), i < mArrayGetDesiredIndex a key → StrLt (ch[i]).1 key) ∧
    (∀ i (h : i < ch.length), mArrayGetDesiredIndex a key ≤ i → StrLe key (ch[i]).1) := by
  have := desiredIndexLoop_spec key hs (ch.length + 1) 0 ch.length (by omega)
    (le_refl _) (by omega) (by omega) (by intro i h hi; omega)
  rw [mArrayGetDesiredIndex, hch]
  exact ⟨this.2.1, this.2.2.1, this.2.2.2⟩

/-- When `key` is present at position `j` of sorted children, the binary
search finds exactly `j`. -/
theorem desiredIndex_of_present {a : MNode} {ch : List (String × MVal)} {key : String}
    (hch : a.children = some ch) (hs : ch.Pairwise (fun x y => StrLt x.1 y.1))
    {j : Nat} (hj : j < ch.length) (hkey : (ch[j]).1 = key) :
    mArrayGetDesiredIndex a key = j := by
  obtain ⟨hle, hlo, hhi⟩ := desiredIndex_spec key hch hs
  rcases Nat.lt_trichotomy (mArrayGetDesiredIndex a key) j with hlt | heq | hgt
  · have h1 := hhi _ (by omega) (le_refl _)
    have h2 := sorted_keys_mono hs hlt hj
    rw [hkey] at h2
    exact absurd rfl (StrLe.trans_lt h1 h2).ne
  · exact heq
  · have h3 := hlo j hj hgt
    rw [hkey] at h3
    exact absurd rfl h3.ne

/-- Members of `l.take p` are elements of `l` at indices below `p`. -/
theorem mem_take_getElem {α : Type} {l : List α} {p : Nat} {a : α}
    (h : a ∈ l.take p) : ∃ i, ∃ hi : i < l.length, i < p ∧ l[i] = a := by
  obtain ⟨i, hi, hget⟩ := List.mem_iff_getElem.mp h
  have hlen : (l.take p).length = min p l.length := by simp
  rw [List.getElem_take l] at hget
  exact ⟨i, by omega, by omega, hget⟩

/-- Members of `l.drop p` are elements of `l` at indices at or above `p`. -/
theorem mem_drop_getElem {α : Type} {l : List α} {p : Nat} {a : α}
    (h : a ∈ l.drop p) : ∃ i, ∃ hi : i < l.length, p ≤ i ∧ l[i] = a := by
  obtain ⟨i, hi, hget⟩ := List.mem_iff_getElem.mp h
  have hlen : (l.drop p).length = l.length - p := by simp
  rw [List.getElem_drop l] at hget
  exact ⟨p + i, by omega, by omega, hget⟩

/-- Overwriting the value at a position whose key equals `key` keeps the
children sorted. -/
theorem sorted_set_same_key {ch : List (String × MVal)} {p : Nat} {key : String}
    {v : MVal} (hs : ch.Pairwise (fun x y => StrLt x.1 y.1)) (hp : p < ch.length)
    (hk : (ch[p]).1 = key) :
    (ch.set p (key, v)).Pairwise (fun x y => StrLt x.1 y.1) := by
  rw [List.pairwise_iff_getElem] at hs ⊢
  intro i j hi hj hij
  simp only [List.length_set] at hi hj
  rw [List.getElem_set, List.getElem_set]
  by_cases hip : p = i
  · subst hip
    rw [if_pos rfl, if_neg (by omega)]
    exact hk ▸ hs p j hi hj hij
  · rw [if_neg hip]
    by_cases hjp : p = j
    · subst hjp
      rw [if_pos rfl]
      exact hk ▸ hs i p hi hj hij
    · rw [if_neg hjp]
      exact hs i j hi hj hij

/-- Inserting `(key, v)` at the binary-search position keeps the children
sorted, provided everything before is strictly below `key` and everything
after strictly above. -/
theorem sorted_insert {ch : List (String × MVal)} {p : Nat} {key : String} {v : MVal}
    (hs : ch.Pairwise (fun x y => StrLt x.1 y.1))
    (hlo : ∀ i (h : i < ch.length), i < p → StrLt (ch[i]).1 key)
    (hhi : ∀ i (h : i < ch.length), p ≤ i → StrLt key (ch[i]).1) :
    (ch.take p ++ (key, v) :: ch.drop p).Pairwise (fun x y => StrLt x.1 y.1) := by
  rw [List.pairwise_append]
  refine ⟨hs.take, ?_, ?_⟩
  · rw [List.pairwise_cons]
    refine ⟨?_, hs.drop⟩
    intro b hb
    obtain ⟨i, hi, hge, rfl⟩ := mem_drop_getElem hb
    exact hhi i hi hge
  · intro x hx b hb
    obtain ⟨i, hi, hlt, rfl⟩ := mem_take_getElem hx
    rcases List.mem_cons.mp hb with rfl | hb'
    · exact hlo i hi hlt
    · obtain ⟨j, hj, hge, rfl⟩ := mem_drop_getElem hb'
      exact StrLt.trans (hlo i hi hlt) (hhi j hj hge)

/-- Removing one child keeps the children sorted. -/
theorem sorted_erase {ch : List (String × MVal)} {p : Nat}
    (hs : ch.Pairwise (fun x y => StrLt x.1 y.1)) :
    (ch.take p ++ ch.drop (p + 1)).Pairwise (fun x y => StrLt x.1 y.1) := by
  rw [List.pairwise_append]
  refine ⟨hs.take, hs.drop, ?_⟩
  intro x hx b hb
  obtain ⟨i, hi, hlt, rfl⟩ := mem_take_getElem hx
  obtain ⟨j, hj, hge, rfl⟩ := mem_drop_getElem hb
  exact sorted_keys_mono hs (by omega) hj

/-- `mArraySet` preserves the sortedness invariant. -/
theorem mArraySet_sorted {a : MNode} {key : String} {v : MVal}
    (hs : NodeSorted a) : NodeSorted (mArraySet a key v) := by
  intro ch' hch'
  unfold mArraySet at hch'
  cases hc : a.children with
  | none =>
    rw [hc] at hch'
    simp only [Option.some.injEq] at hch'
    subst hch'
    exact List.pairwise_singleton _ _
  | some ch =>
    rw [hc] at hch'
    have hsc := hs ch hc
    obtain ⟨hle, hlo, hhi⟩ := desiredIndex_spec key hc hsc
    simp only at hch'
    cases hp : ch[mArrayGetDesiredIndex a key]? with
    | some pair =>
      rw [hp] at hch'
      simp only at hch'
      by_cases hpk : pair.1 = key
      · rw [if_pos hpk] at hch'
        simp only [Option.some.injEq] at hch'
        subst hch'
        have hplen : mArrayGetDesiredIndex a key < ch.length :=
          (List.getElem?_eq_some_iff.mp hp).1
        have hpe : (ch[mArrayGetDesiredIndex a key]) = pair :=
          (List.getElem?_eq_some_iff.mp hp).2
        exact sorted_set_same_key hsc hplen (hpe ▸ hpk)
      · rw [if_neg hpk] at hch'
        simp only [Option.some.injEq] at hch'
        subst hch'
        have hplen : mArrayGetDesiredIndex a key < ch.length :=
          (List.getElem?_eq_some_iff.mp hp).1
        have hpe : (ch[mArrayGetDesiredIndex a key]) = pair :=
          (List.getElem?_eq_some_iff.mp hp).2
        refine sorted_insert hsc hlo ?_
        intro i h hi
        rcases eq_or_lt_of_le hi with heq | hlt2
        · refine strLt_of_le_of_ne (hhi i h hi) ?_
          intro hk
          rw [heq] at hp
          have hie : ch[i] = pair := (List.getElem?_eq_some_iff.mp hp).2
          rw [hie] at hk
          exact hpk hk.symm
        · have h1 : StrLe key (ch[mArrayGetDesiredIndex a key]).1 :=
            hhi _ hplen (le_refl _)
          have h2 : key ≠ (ch[mArrayGetDesiredIndex a key]).1 := by
            rw [hpe]; exact fun hk => hpk hk.symm
          exact (strLt_of_le_of_ne h1 h2).trans (sorted_keys_mono hsc hlt2 h)
    | none =>
      rw [hp] at hch'
      simp only at hch'
      simp only [Option.some.injEq] at hch'
      subst hch'
      have hplen : ch.length ≤ mArrayGetDesiredIndex a key := by
        by_contra hcon
        rw [List.getElem?_eq_getElem (by omega)] at hp
        exact Option.noConfusion hp
      refine sorted_insert hsc hlo ?_
      intro i h hi
      omega

/-- `mArrayKill` preserves the sortedness invariant. -/
theorem mArrayKill_sorted {a : MNode} {key : String}
    (hs : NodeSorted a) : NodeSorted (mArrayKill a key) := by
  intro ch' hch'
  unfold mArrayKill at hch'
  cases hc : a.children with
  | none =>
    rw [hc] at hch'
    change a.children = some ch' at hch'
    exact hs ch' hch'
  | some ch =>
    rw [hc] at hch'
    have hsc := hs ch hc
    simp only at hch'
    cases hp : ch[mArrayGetDesiredIndex a key]? with
    | some pair =>
      rw [hp] at hch'
      simp only at hch'
      by_cases hpk : pair.1 = key
      · rw [if_pos hpk] at hch'
        simp only [Option.some.injEq] at hch'
        subst hch'
        exact sorted_erase hsc
      · rw [if_neg hpk] at hch'
        rw [hc] at hch'
        simp only [Option.some.injEq] at hch'
        subst hch'
        exact hsc
    | none =>
      rw [hp] at hch'
      change a.children = some ch' at hch'
      rw [hc] at hch'
      simp only [Option.some.injEq] at hch'
      subst hch'
      exact hsc

/-- Strictly sorted children have pairwise-distinct keys. -/
theorem sorted_keys_nodup {a : MNode} (hs : NodeSorted a) : (nodeKeys a).Nodup := by
  unfold nodeKeys
  cases hc : a.children with
  | none => simp
  | some ch =>
    have hsc := hs ch hc
    simp only [Option.getD_some]
    have hlt : (ch.map Prod.fst).Pairwise (fun x y => StrLt x y) :=
      List.pairwise_map.mpr hsc
    exact hlt.imp (fun h => StrLt.ne h)

/-- First-match association lookup over a children list (specification
helper used to characterise the array operations). -/
def childFind? : List (String × MVal) → String → Option MVal
  | [], _ => none
  | x :: xs, key => if x.1 = key then some x.2 else childFind? xs key

theorem childFind?_append (l₁ l₂ : List (String × MVal)) (key : String) :
    childFind? (l₁ ++ l₂) key =
      match childFind? l₁ key with
      | some v => some v
      | none => childFind? l₂ key := by
  induction l₁ with
  | nil => rfl
  | cons x xs ih =>
    simp only [List.cons_append, childFind?, List.append_eq]
    by_cases hx : x.1 = key
    · rw [if_pos hx, if_pos hx]
    · rw [if_neg hx, if_neg hx, ih]

theorem childFind?_eq_none_iff (l : List (String × MVal)) (key : String) :
    childFind? l key = none ↔ key ∉ l.map Prod.fst := by
  induction l with
  | nil => simp [childFind?]
  | cons x xs ih =>
    simp only [childFind?, List.map_cons, List.mem_cons]
    by_cases hx : x.1 = key
    · simp [hx]
    · simp only [if_neg hx, ih]
      constructor
      · intro h hk
        rcases hk with hk | hk
        · exact hx hk.symm
        · exact h hk
      · intro h hk
        exact h (Or.inr hk)

theorem childFind?_of_getElem {l : List (String × MVal)} {key : String} {j : Nat}
    (hj : j < l.length) (hk : (l[j]).1 = key)
    (hfirst : ∀ i (h : i < l.length), i < j → (l[i]).1 ≠ key) :
    childFind? l key = some (l[j]).2 := by
  induction l generalizing j with
  | nil => simp at hj
  | cons x xs ih =>
    cases j with
    | zero =>
      simp only [List.getElem_cons_zero] at hk
      simp [childFind?, hk]
    | succ j =>
      have hx : x.1 ≠ key := hfirst 0 (by simp) (by omega)
      simp only [childFind?, if_neg hx]
      simp only [List.getElem_cons_succ] at hk ⊢
      refine ih (by simpa using hj) hk ?_
      intro i h hi
      have := hfirst (i + 1) (by simpa using h) (by omega)
      simpa using this

/-- `mArrayGet` on a sorted node is first-match association lookup. -/
theorem mArrayGet_eq_childFind? (a : MNode) (key : String) (hs : NodeSorted a) :
    mArrayGet a key = (childFind? (a.children.getD []) key).getD emptyVal := by
  unfold mArrayGet
  cases hc : a.children with
  | none => rfl
  | some ch =>
    have hsc := hs ch hc
    simp only [Option.getD_some]
    by_cases hmem : key ∈ ch.map Prod.fst
    · obtain ⟨pair, hpair, hpk⟩ := List.mem_map.mp hmem
      obtain ⟨j, hj, hget⟩ := List.mem_iff_getElem.mp hpair
      have hjk : (ch[j]).1 = key := by rw [hget]; exact hpk
      have hfind := childFind?_of_getElem hj hjk
        (fun i h hij => (hjk ▸ sorted_keys_mono hsc hij hj).ne)
      rw [hfind, Option.getD_some]
      rw [desiredIndex_of_present hc hsc hj hjk]
      rw [List.getElem?_eq_getElem hj]
      simp [hjk]
    · rw [(childFind?_eq_none_iff ch key).mpr hmem]
      cases hp : ch[mArrayGetDesiredIndex a key]? with
      | none => rfl
      | some pair =>
        have hpm : pair ∈ ch := List.getElem?_mem hp
        have hne : pair.1 ≠ key :=
          fun hk => hmem (hk ▸ List.mem_map_of_mem Prod.fst hpm)
        simp [hne]

/-- Keys strictly below `key` cannot match it: the prefix taken before the
binary-search position never contains `key`. -/
theorem childFind?_take_none {ch : List (String × MVal)} {key : String} {p : Nat}
    (hlo : ∀ i (h : i < ch.length), i < p → StrLt (ch[i]).1 key) :
    childFind? (ch.take p) key = none := by
  rw [childFind?_eq_none_iff]
  intro hmem
  obtain ⟨x, hx, hxk⟩ := List.mem_map.mp hmem
  obtain ⟨i, hi, hlt2, rfl⟩ := mem_take_getElem hx
  have hbad := hlo i hi hlt2
  rw [hxk] at hbad
  exact hbad.ne rfl

/-- Splitting an association lookup at a position. -/
theorem childFind?_split {ch : List (String × MVal)} {p : Nat} (hp : p < ch.length)
    (k : String) :
    childFind? ch k =
      match childFind? (ch.take p) k with
      | some w => some w
      | none => childFind? ((ch[p]) :: ch.drop (p + 1)) k := by
  conv_lhs => rw [show ch = ch.take p ++ (ch[p]) :: ch.drop (p + 1) by
    conv_lhs => rw [← List.take_append_drop p ch]
    rw [← List.getElem_cons_drop ch p hp]]
  rw [childFind?_append]

/-- Case analysis for `mArraySet` on a node with sorted children: the new
children list is sorted and looks up as the old one overridden at `key`. -/
theorem mArraySet_find (a : MNode) (key : String) (v : MVal) (hs : NodeSorted a) :
    ∃ ch', (mArraySet a key v).children = some ch' ∧
      ch'.Pairwise (fun x y => StrLt x.1 y.1) ∧
      ∀ k, childFind? ch' k =
        if k = key then some v else childFind? (a.children.getD []) k := by
  unfold mArraySet
  cases hc : a.children with
  | none =>
    refine ⟨[(key, v)], rfl, List.pairwise_singleton _ _, ?_⟩
    intro k
    by_cases hk : k = key
    · simp [childFind?, hk]
    · have hk' : ¬ key = k := fun h => hk h.symm
      simp [childFind?, hk, hk']
  | some ch =>
    have hsc := hs ch hc
    obtain ⟨hle, hlo, hhi⟩ := desiredIndex_spec key hc hsc
    simp only [Option.getD_some]
    cases hp : ch[mArrayGetDesiredIndex a key]? with
    | some pair =>
      simp only
      have hplen : mArrayGetDesiredIndex a key < ch.length :=
        (List.getElem?_eq_some_iff.mp hp).1
      have hpe : ch[mArrayGetDesiredIndex a key] = pair :=
        (List.getElem?_eq_some_iff.mp hp).2
      by_cases hpk : pair.1 = key
      · rw [if_pos hpk]
        refine ⟨_, rfl, sorted_set_same_key hsc hplen (hpe ▸ hpk), ?_⟩
        intro k
        have hset : ch.set (mArrayGetDesiredIndex a key) (key, v) =
            ch.take (mArrayGetDesiredIndex a key) ++ (key, v) ::
              ch.drop (mArrayGetDesiredIndex a key + 1) := by
          rw [List.set_eq_take_append_cons_drop, if_pos hplen]
        rw [hset, childFind?_append, childFind?_split hplen k]
        by_cases hk : k = key
        · subst hk
          rw [childFind?_take_none hlo]
          simp [childFind?]
        · have h1 : ¬ key = k := fun h => hk h.symm
          have h2 : ¬ (ch[mArrayGetDesiredIndex a key]).1 = k := by
            rw [hpe, hpk]; exact h1
          simp only [childFind?, if_neg h1, if_neg h2]
          rw [if_neg hk]
      · rw [if_neg hpk]
        have hkey_hi : ∀ i (h : i < ch.length),
            mArrayGetDesiredIndex a key ≤ i → StrLt key (ch[i]).1 := by
          intro i h hi
          rcases eq_or_lt_of_le hi with heq | hlt2
          · refine strLt_of_le_of_ne (hhi i h hi) ?_
            intro hk
            rw [heq] at hp
            have hie : ch[i] = pair := (List.getElem?_eq_some_iff.mp hp).2
            rw [hie] at hk
            exact hpk hk.symm
          · have h1 : StrLe key (ch[mArrayGetDesiredIndex a key]).1 :=
              hhi _ hplen (le_refl _)
            have h2 : key ≠ (ch[mArrayGetDesiredIndex a key]).1 := by
              rw [hpe]; exact fun hk => hpk hk.symm
            exact (strLt_of_le_of_ne h1 h2).trans (sorted_keys_mono hsc hlt2 h)
        refine ⟨_, rfl, sorted_insert hsc hlo hkey_hi, ?_⟩
        intro k
        rw [childFind?_append]
        conv_rhs => rw [← List.take_append_drop (mArrayGetDesiredIndex a key) ch,
          childFind?_append]
        by_cases hk : k = key
        · subst hk
          rw [childFind?_take_none hlo]
          have hdrop : childFind? (ch.drop (mArrayGetDesiredIndex a k)) k = none := by
            rw [childFind?_eq_none_iff]
            intro hmem
            obtain ⟨x, hx, hxk⟩ := List.mem_map.mp hmem
            obtain ⟨i, hi, hge, rfl⟩ := mem_drop_getElem hx
            have hbad := hkey_hi i hi hge
            rw [hxk] at hbad
            exact hbad.ne rfl
          rw [hdrop]
          simp [childFind?]
        · have h1 : ¬ key = k := fun h => hk h.symm
          simp only [childFind?, if_neg h1]
          rw [if_neg hk]
    | none =>
      simp only
      have hplen : ch.length ≤ mArrayGetDesiredIndex a key := by
        by_contra hcon
        rw [List.getElem?_eq_getElem (by omega)] at hp
        exact Option.noConfusion hp
      refine ⟨_, rfl, sorted_insert hsc hlo (fun i h hi => by omega), ?_⟩
      intro k
      rw [childFind?_append]
      conv_rhs => rw [← List.take_append_drop (mArrayGetDesiredIndex a key) ch,
        childFind?_append]
      by_cases hk : k = key
      · subst hk
        rw [childFind?_take_none hlo]
        have hdrop : childFind? (ch.drop (mArrayGetDesiredIndex a k)) k = none := by
          have hnil : ch.drop (mArrayGetDesiredIndex a k) = [] :=
            List.drop_eq_nil_of_le hplen
          rw [hnil]; rfl
        rw [hdrop]
        simp [childFind?]
      · have h1 : ¬ key = k := fun h => hk h.symm
        simp only [childFind?, if_neg h1]
        rw [if_neg hk]

/-- `mArrayKill` on a sorted node looks up as the old node with `key`
removed. -/
theorem mArrayKill_find (a : MNode) (key : String) (hs : NodeSorted a) :
    ∀ k, childFind? ((mArrayKill a key).children.getD []) k =
      if k = key then none else childFind? (a.children.getD []) k := by
  intro k
  unfold mArrayKill
  cases hc : a.children with
  | none =>
    simp only
    rw [hc]
    by_cases hk : k = key
    · rw [if_pos hk]; rfl
    · rw [if_neg hk]
  | some ch =>
    have hsc := hs ch hc
    obtain ⟨hle, hlo, hhi⟩ := desiredIndex_spec key hc hsc
    simp only [Option.getD_some]
    cases hp : ch[mArrayGetDesiredIndex a key]? with
    | some pair =>
      simp only
      have hplen : mArrayGetDesiredIndex a key < ch.length :=
        (List.getElem?_eq_some_iff.mp hp).1
      have hpe : ch[mArrayGetDesiredIndex a key] = pair :=
        (List.getElem?_eq_some_iff.mp hp).2
      by_cases hpk : pair.1 = key
      · rw [if_pos hpk]
        simp only [Option.getD_some]
        rw [childFind?_append, childFind?_split hplen k]
        by_cases hk : k = key
        · subst hk
          rw [childFind?_take_none hlo]
          have hdrop : childFind? (ch.drop (mArrayGetDesiredIndex a k + 1)) k = none := by
            rw [childFind?_eq_none_iff]
            intro hmem
            obtain ⟨x, hx, hxk⟩ := List.mem_map.mp hmem
            obtain ⟨i, hi, hge, rfl⟩ := mem_drop_getElem hx
            have hmono := sorted_keys_mono hsc
              (show mArrayGetDesiredIndex a k < i by omega) hi
            rw [hpe, hpk, hxk] at hmono
            exact hmono.ne rfl
          have h2 : (ch[mArrayGetDesiredIndex a k]).1 = k := by rw [hpe, hpk]
          rw [hdrop]
          simp [childFind?, h2]
        · have h2 : ¬ (ch[mArrayGetDesiredIndex a key]).1 = k := by
            rw [hpe, hpk]; exact fun h => hk h.symm
          simp only [childFind?, if_neg h2, if_neg hk]
      · rw [if_neg hpk]
        by_cases hk : k = key
        · subst hk
          rw [if_pos rfl, hc]
          simp only [Option.getD_some]
          rw [childFind?_eq_none_iff]
          intro hmem
          obtain ⟨x, hx, hxk⟩ := List.mem_map.mp hmem
          obtain ⟨j, hj, hget⟩ := List.mem_iff_getElem.mp hx
          have hjk : (ch[j]).1 = k := by rw [hget]; exact hxk
          have hdi := desiredIndex_of_present hc hsc hj hjk
          rw [hdi] at hp
          have hpe2 := (List.getElem?_eq_some_iff.mp hp).2
          rw [hpe2] at hjk
          exact hpk hjk
        · rw [if_neg hk, hc, Option.getD_some]
    | none =>
      simp only
      by_cases hk : k = key
      · subst hk
        rw [if_pos rfl, hc]
        simp only [Option.getD_some]
        rw [childFind?_eq_none_iff]
        intro hmem
        obtain ⟨x, hx, hxk⟩ := List.mem_map.mp hmem
        obtain ⟨j, hj, hget⟩ := List.mem_iff_getElem.mp hx
        have hjk : (ch[j]).1 = k := by rw [hget]; exact hxk
        have hdi := desiredIndex_of_present hc hsc hj hjk
        rw [hdi] at hp
        rw [List.getElem?_eq_getElem hj] at hp
        exact Option.noConfusion hp
      · rw [if_neg hk, hc, Option.getD_some]

/-- C7: for every sparse array whose children list is sorted ascending by
string comparison of keys, `mArraySet` (insert or overwrite) and
`mArrayKill` (delete) with any key leave the children list sorted
ascending with no duplicate keys. -/
theorem claim7_set_kill_preserve_sorted (a : MNode) (key : String) (v : MVal)
    (hs : NodeSorted a) :
    NodeSorted (mArraySet a key v) ∧ (nodeKeys (mArraySet a key v)).Nodup ∧
    NodeSorted (mArrayKill a key) ∧ (nodeKeys (mArrayKill a key)).Nodup :=
  ⟨mArraySet_sorted hs, sorted_keys_nodup (mArraySet_sorted hs),
   mArrayKill_sorted hs, sorted_keys_nodup (mArrayKill_sorted hs)⟩

/-- Witness for C7 at a concrete sorted array and key. -/
theorem claim7_witness :
    NodeSorted ⟨.str "", some [("a", emptyVal), ("c", emptyVal)]⟩ ∧
    (NodeSorted (mArraySet ⟨.str "", some [("a", emptyVal), ("c", emptyVal)]⟩ "b" emptyVal) ∧
     (nodeKeys (mArraySet ⟨.str "", some [("a", emptyVal), ("c", emptyVal)]⟩ "b" emptyVal)).Nodup ∧
     NodeSorted (mArrayKill ⟨.str "", some [("a", emptyVal), ("c", emptyVal)]⟩ "b") ∧
     (nodeKeys (mArrayKill ⟨.str "", some [("a", emptyVal), ("c", emptyVal)]⟩ "b")).Nodup) := by
  have hs : NodeSorted ⟨.str "", some [("a", emptyVal), ("c", emptyVal)]⟩ := by
    intro ch hch
    injection hch with h
    subst h
    decide
  exact ⟨hs, claim7_set_kill_preserve_sorted _ "b" emptyVal hs⟩

/-- C8: on a sorted array, `mArrayGet` immediately after `mArraySet` with
the same key returns the set value, and `mArrayGet` immediately after
`mArrayKill` with the same key returns the empty string. -/
theorem claim8_set_get_kill_get (a : MNode) (key : String) (v : MVal)
    (hs : NodeSorted a) :
    mArrayGet (mArraySet a key v) key = v ∧
    mArrayGet (mArrayKill a key) key = emptyVal := by
  constructor
  · obtain ⟨ch', hch', hs', hfind⟩ := mArraySet_find a key v hs
    rw [mArrayGet_eq_childFind? (mArraySet a key v) key (mArraySet_sorted hs), hch']
    simp only [Option.getD_some]
    rw [hfind key, if_pos rfl]
    rfl
  · rw [mArrayGet_eq_childFind? (mArrayKill a key) key (mArrayKill_sorted hs),
      mArrayKill_find a key hs key, if_pos rfl]
    rfl

/-- Witness for C8 at a concrete sorted array, key and value. -/
theorem claim8_witness :
    NodeSorted ⟨.str "", some [("a", emptyVal), ("c", emptyVal)]⟩ ∧
    mArrayGet (mArraySet ⟨.str "", some [("a", emptyVal), ("c", emptyVal)]⟩ "b"
      (.scalar (.num 7 1))) "b" = .scalar (.num 7 1) ∧
    mArrayGet (mArrayKill ⟨.str "", some [("a", emptyVal), ("c", emptyVal)]⟩ "a") "a" =
      emptyVal := by
  have hs : NodeSorted ⟨.str "", some [("a", emptyVal), ("c", emptyVal)]⟩ := by
    intro ch hch
    injection hch with h
    subst h
    decide
  exact ⟨hs, (claim8_set_get_kill_get _ "b" (.scalar (.num 7 1)) hs).1,
    (claim8_set_get_kill_get _ "a" emptyVal hs).2⟩

/-- C2: on a sorted array, for a valid key `k1` (the empty string, which
starts an ordered traversal, or a key present in the array), if
`k2 = mArrayGetNextKey a k1` is not the empty string then
`mArrayGetPreviousKey a k2 = k1`. -/
theorem claim2_next_previous_consistent (a : MNode) (k1 : String)
    (hs : NodeSorted a) (hvalid : k1 = "" ∨ k1 ∈ nodeKeys a)
    (hnext : mArrayGetNextKey a k1 ≠ "") :
    mArrayGetPreviousKey a (mArrayGetNextKey a k1) = k1 := by
  cases hc : a.children with
  | none =>
    exfalso
    apply hnext
    unfold mArrayGetNextKey
    rw [hc]
  | some ch =>
    have hsc := hs ch hc
    obtain ⟨hle, hlo, hhi⟩ := desiredIndex_spec k1 hc hsc
    by_cases hple : ch.length ≤ mArrayGetDesiredIndex a k1
    · exfalso
      apply hnext
      unfold mArrayGetNextKey
      rw [hc]
      simp only [if_pos hple]
    · have hplen : mArrayGetDesiredIndex a k1 < ch.length := by omega
      have hnext_eq : mArrayGetNextKey a k1 =
          (match ch[if (ch[mArrayGetDesiredIndex a k1]?.map Prod.fst) = some k1
            then mArrayGetDesiredIndex a k1 + 1 else mArrayGetDesiredIndex a k1]? with
          | some pair => pair.1
          | none => "") := by
        unfold mArrayGetNextKey
        rw [hc]
        simp only [if_neg hple]
      by_cases heq : (ch[mArrayGetDesiredIndex a k1]).1 = k1
      · -- k1 is present at the search position; the next key is one past it
        have hcond : (ch[mArrayGetDesiredIndex a k1]?.map Prod.fst) = some k1 := by
          rw [List.getElem?_eq_getElem hplen, Option.map_some', heq]
        cases hq : ch[mArrayGetDesiredIndex a k1 + 1]? with
        | none =>
          exfalso
          apply hnext
          rw [hnext_eq, if_pos hcond, hq]
        | some pair2 =>
          have hqlen : mArrayGetDesiredIndex a k1 + 1 < ch.length :=
            (List.getElem?_eq_some_iff.mp hq).1
          have hqe : ch[mArrayGetDesiredIndex a k1 + 1] = pair2 :=
            (List.getElem?_eq_some_iff.mp hq).2
          have hnv : mArrayGetNextKey a k1 = pair2.1 := by
            rw [hnext_eq, if_pos hcond, hq]
          rw [hnv]
          have hk2 : pair2.1 ≠ "" := hnv ▸ hnext
          unfold mArrayGetPreviousKey
          rw [hc]
          simp only [if_neg hk2]
          have hdi : mArrayGetDesiredIndex a pair2.1 = mArrayGetDesiredIndex a k1 + 1 :=
            desiredIndex_of_present hc hsc hqlen (by rw [hqe])
          have hint : ((mArrayGetDesiredIndex a pair2.1 : Int) - 1) =
              Int.ofNat (mArrayGetDesiredIndex a k1) := by
            rw [hdi]
            simp [Int.ofNat_eq_coe]
          rw [hint]
          simp only [List.getElem?_eq_getElem hplen]
          exact heq
      · -- k1 is not present: by validity it must be "", and the search
        -- position must then be 0
        have hk1e : k1 = "" := by
          rcases hvalid with hk1e | hmem
          · exact hk1e
          · exfalso
            unfold nodeKeys at hmem
            rw [hc] at hmem
            simp only [Option.getD_some] at hmem
            obtain ⟨x, hx, hxk⟩ := List.mem_map.mp hmem
            obtain ⟨j, hj, hget⟩ := List.mem_iff_getElem.mp hx
            have hjk : (ch[j]).1 = k1 := by rw [hget]; exact hxk
            have hdi := desiredIndex_of_present hc hsc hj hjk
            apply heq
            have hopt : ch[mArrayGetDesiredIndex a k1]? = some (ch[j]) := by
              rw [hdi, List.getElem?_eq_getElem hj]
            have hee := (List.getElem?_eq_some_iff.mp hopt).2
            rw [hee]
            exact hjk
        have hp0 : mArrayGetDesiredIndex a k1 = 0 := by
          by_contra hppos
          exact strLt_empty_elim hk1e (hlo 0 (by omega) (by omega))
        have hcond : ¬ (ch[mArrayGetDesiredIndex a k1]?.map Prod.fst) = some k1 := by
          rw [List.getElem?_eq_getElem hplen, Option.map_some']
          intro hbad
          injection hbad with hbad
          exact heq hbad
        have hnv : mArrayGetNextKey a k1 = (ch[mArrayGetDesiredIndex a k1]).1 := by
          rw [hnext_eq, if_neg hcond, List.getElem?_eq_getElem hplen]
        rw [hnv]
        have hk2 : (ch[mArrayGetDesiredIndex a k1]).1 ≠ "" := hnv ▸ hnext
        unfold mArrayGetPreviousKey
        rw [hc]
        simp only [if_neg hk2]
        have hdi : mArrayGetDesiredIndex a (ch[mArrayGetDesiredIndex a k1]).1 =
            mArrayGetDesiredIndex a k1 :=
          desiredIndex_of_present hc hsc hplen rfl
        have hint : ((mArrayGetDesiredIndex a (ch[mArrayGetDesiredIndex a k1]).1 : Int)
            - 1) = Int.negSucc 0 := by
          rw [hdi, hp0]
          decide
        rw [hint]
        exact hk1e.symm

/-- Witness for C2 at a concrete sorted array with keys "1", "2". -/
theorem claim2_witness :
    NodeSorted ⟨.str "", some [("1", emptyVal), ("2", emptyVal)]⟩ ∧
    ("1" = "" ∨ "1" ∈ nodeKeys ⟨.str "", some [("1", emptyVal), ("2", emptyVal)]⟩) ∧
    mArrayGetNextKey ⟨.str "", some [("1", emptyVal), ("2", emptyVal)]⟩ "1" ≠ "" ∧
    mArrayGetPreviousKey ⟨.str "", some [("1", emptyVal), ("2", emptyVal)]⟩
      (mArrayGetNextKey ⟨.str "", some [("1", emptyVal), ("2", emptyVal)]⟩ "1") = "1" := by
  have hs : NodeSorted ⟨.str "", some [("1", emptyVal), ("2", emptyVal)]⟩ := by
    intro ch hch
    injection hch with h
    subst h
    decide
  have hvalid : ("1" : String) = "" ∨
      "1" ∈ nodeKeys ⟨.str "", some [("1", emptyVal), ("2", emptyVal)]⟩ :=
    Or.inr (by decide)
  have hnext : mArrayGetNextKey ⟨.str "", some [("1", emptyVal), ("2", emptyVal)]⟩ "1" ≠ "" :=
    by decide
  exact ⟨hs, hvalid, hnext, claim2_next_previous_consistent _ "1" hs hvalid hnext⟩

/-! ## JavaScript scalar primitives

JavaScript numbers are modelled as unreduced integer fractions `(n, d)`
with value `n / d` and positive denominator at every construction site.
This keeps all arithmetic kernel-computable and exact on the integer and
decimal values exercised by the programs considered here; IEEE-754
rounding, `NaN`, infinities and float formatting are not modelled. -/

/-- Numeric addition on fractions. -/
def pairAdd (a b : Int × Int) : Int × Int := (a.1 * b.2 + b.1 * a.2, a.2 * b.2)

/-- Numeric subtraction on fractions. -/
def pairSub (a b : Int × Int) : Int × Int := (a.1 * b.2 - b.1 * a.2, a.2 * b.2)

/-- Numeric multiplication on fractions. -/
def pairMul (a b : Int × Int) : Int × Int := (a.1 * b.1, a.2 * b.2)

/-- Numeric division on fractions, sign-normalised; division by zero
(JavaScript `Infinity`/`NaN`) is not modelled and yields 0. -/
def pairDiv (a b : Int × Int) : Int × Int :=
  if b.1 = 0 then (0, 1)
  else if b.1 < 0 then (-(a.1 * b.2), -(a.2 * b.1))
  else (a.1 * b.2, a.2 * b.1)

/-- Strict numeric comparison `a < b` (denominators positive). -/
def pairLt (a b : Int × Int) : Bool := a.1 * b.2 < b.1 * a.2

/-- Numeric equality (denominators positive). -/
def pairEq (a b : Int × Int) : Bool := a.1 * b.2 == b.1 * a.2

/-- Is the number zero? -/
def pairIsZero (a : Int × Int) : Bool := a.1 == 0

/-- Truncation toward zero (`ToIntegerOrInfinity` on finite values). -/
def pairTrunc (a : Int × Int) : Int := if a.2 = 0 then 0 else Int.tdiv a.1 a.2

/-- Floor (`Math.floor`). -/
def pairFloor (a : Int × Int) : Int := if a.2 = 0 then 0 else Int.fdiv a.1 a.2

/-- JavaScript remainder `a % b`: `a - b * trunc(a / b)`. -/
def pairMod (a b : Int × Int) : Int × Int :=
  if b.1 = 0 then (0, 1)
  else pairSub a (pairMul b (pairTrunc (pairDiv a b), 1))

def isDigitChar (c : Char) : Bool := 48 ≤ c.val.toNat && c.val.toNat ≤ 57

def digitVal (c : Char) : Nat := c.val.toNat - 48

def isSpaceChar (c : Char) : Bool :=
  c = ' ' || c.val.toNat = 9 || c.val.toNat = 10 || c.val.toNat = 13

/-- Accumulate a run of decimal digits, returning the value, the number of
digits consumed and the rest of the input. -/
def takeDigits : List Char → Nat → Nat → Nat × Nat × List Char
  | [], acc, count => (acc, count, [])
  | c :: cs, acc, count =>
    if isDigitChar c then takeDigits cs (acc * 10 + digitVal c) (count + 1)
    else (acc, count, c :: cs)

/-- The numeric prefix parse performed by JavaScript `parseFloat`:
leading whitespace, an optional sign, digits with an optional fractional
part.  (Exponents and special values are not modelled.)  `none` stands
for `NaN`. -/
def jsParseFloat (s : String) : Option (Int × Int) :=
  let rest := s.data.dropWhile isSpaceChar
  let (sign, rest) :=
    match rest with
    | '-' :: cs => ((-1 : Int), cs)
    | '+' :: cs => ((1 : Int), cs)
    | cs => ((1 : Int), cs)
  let (intPart, intCount, rest) := takeDigits rest 0 0
  match rest with
  | '.' :: cs =>
    let (fracPart, fracCount, _) := takeDigits cs 0 0
    if intCount = 0 && fracCount = 0 then none
    else some (sign * (intPart * 10 ^ fracCount + fracPart), (10 : Int) ^ fracCount)
  | _ =>
    if intCount = 0 then none else some (sign * intPart, 1)

/-- The full-string numeric conversion performed by JavaScript `ToNumber`
on strings (used by the relational operators): the whole trimmed string
must be numeric, and the empty string converts to 0.  `none` stands for
`NaN`. -/
def jsToNumberStrict (s : String) : Option (Int × Int) :=
  let trimmed := (s.data.dropWhile isSpaceChar).reverse.dropWhile isSpaceChar |>.reverse
  match trimmed with
  | [] => some (0, 1)
  | cs =>
    let (sign, rest) :=
      match cs with
      | '-' :: cs' => ((-1 : Int), cs')
      | '+' :: cs' => ((1 : Int), cs')
      | cs' => ((1 : Int), cs')
    let (intPart, intCount, rest) := takeDigits rest 0 0
    match rest with
    | [] => if intCount = 0 then none else some (sign * intPart, 1)
    | '.' :: cs' =>
      let (fracPart, fracCount, rest') := takeDigits cs' 0 0
      match rest' with
      | [] =>
        if intCount = 0 && fracCount = 0 then none
        else some (sign * (intPart * 10 ^ fracCount + fracPart), (10 : Int) ^ fracCount)
      | _ => none
    | _ => none

/-- Rendering of a JavaScript number as a string.  Integer values render
exactly as JavaScript does; for non-integer values JavaScript's
shortest-roundtrip float formatting is not modelled and a plain fraction
rendering stands in (no claim exercises it). -/
def numToString (n d : Int) : String :=
  if d ≠ 0 && Int.tmod n d = 0 then toString (Int.tdiv n d)
  else toString n ++ "/" ++ toString d

/-- Is this value falsy in JavaScript (`""`, `0`; objects are truthy)? -/
def jsFalsy (v : MVal) : Bool :=
  match v with
  | .scalar (.str s) => s == ""
  | .scalar (.num n _) => n == 0
  | .ptr _ => false

/-! ## The object store

JavaScript `MArray` objects are mutable heap objects passed by
reference.  The embedding makes the heap explicit: a store is a list of
nodes, and an object reference is an index into it. -/

abbrev Store := List MNode

def storeGet (st : Store) (p : Nat) : Option MNode := st[p]?

def storeSet (st : Store) (p : Nat) (n : MNode) : Store := st.set p n

def storeAlloc (st : Store) (n : MNode) : Store × Nat := (st ++ [n], st.length)

/-- `mArrayGet` applied through an object reference. -/
def storeArrayGet (st : Store) (p : Nat) (key : String) : MVal :=
  match storeGet st p with
  | some nd => mArrayGet nd key
  | none => emptyVal

/-- `mArraySet` applied through an object reference (in-place mutation). -/
def storeArraySet (st : Store) (p : Nat) (key : String) (v : MVal) : Store :=
  match storeGet st p with
  | some nd => storeSet st p (mArraySet nd key v)
  | none => st

/-- `mArrayKill` applied through an object reference (in-place mutation). -/
def storeArrayKill (st : Store) (p : Nat) (key : String) : Store :=
  match storeGet st p with
  | some nd => storeSet st p (mArrayKill nd key)
  | none => st

/-- `mArrayGetNextKey` applied through an object reference. -/
def storeGetNextKey (st : Store) (p : Nat) (key : String) : String :=
  match storeGet st p with
  | some nd => mArrayGetNextKey nd key
  | none => ""

/-- `mValueToNumber` on a scalar (`mValue.ts` lines 36-48): numbers pass
through, strings go through `parseFloat` with `NaN` defaulting to 0. -/
def mScalarToNumber (s : MScalar) : Int × Int :=
  match s with
  | .num n d => (n, d)
  | .str s => (jsParseFloat s).getD (0, 1)

/-- `mValueToNumber` (`mValue.ts` lines 36-48); an object recurses into
its base scalar value. -/
def mValueToNumber (st : Store) (v : MVal) : Int × Int :=
  match v with
  | .scalar s => mScalarToNumber s
  | .ptr p =>
    match storeGet st p with
    | some nd => mScalarToNumber nd.value
    | none => (0, 1)

/-- `mValueToString` on a scalar (`mValue.ts` lines 50-60). -/
def mScalarToString (s : MScalar) : String :=
  match s with
  | .num n d => numToString n d
  | .str s => s

/-- `mValueToString` (`mValue.ts` lines 50-60). -/
def mValueToString (st : Store) (v : MVal) : String :=
  match v with
  | .scalar s => mScalarToString s
  | .ptr p =>
    match storeGet st p with
    | some nd => mScalarToString nd.value
    | none => ""

/-- `mValueToScalar` (`mValue.ts` lines 62-68). -/
def mValueToScalar (st : Store) (v : MVal) : MScalar :=
  match v with
  | .scalar s => s
  | .ptr p =>
    match storeGet st p with
    | some nd => nd.value
    | none => .str ""

mutual

/-- `mValueCopy` (`mValue.ts` lines 81-98): deep copy of a value.  The
fuel bounds the recursion depth (always sufficient on the acyclic stores
interpretation produces; exhaustion yields `none`). -/
def mValueCopy : Nat → Store → MVal → Option (Store × MVal)
  | 0, _, _ => none
  | _ + 1, st, .scalar s => some (st, .scalar s)
  | fuel + 1, st, .ptr p =>
    match storeGet st p with
    | none => some (st, .ptr p)
    | some node =>
      let (st1, q) := storeAlloc st ⟨node.value, none⟩
      match node.children with
      | none => some (st1, .ptr q)
      | some ch => mValueCopyChildren fuel q ch st1

/-- The `for (const pair of value.children)` loop inside `mValueCopy`:
each child is deep-copied and inserted into the fresh copy `q`. -/
def mValueCopyChildren : Nat → Nat → List (String × MVal) → Store →
    Option (Store × MVal)
  | 0, _, _, _ => none
  | _ + 1, q, [], st => some (st, .ptr q)
  | fuel + 1, q, pair :: rest, st =>
    match mValueCopy fuel st pair.2 with
    | none => none
    | some (st', v') => mValueCopyChildren fuel q rest (storeArraySet st' q pair.1 v')

end

/-! ## Syntax trees

Translated from the AST node interfaces of `parser.ts` as consumed by
`interpreter.ts`.  Every node carries its start and end text positions;
`reportError` records the start position. -/

structure TextPos where
  line : Nat
  column : Nat
deriving DecidableEq, Repr

structure MError where
  message : String
  line : Nat
  column : Nat
deriving DecidableEq, Repr

structure IdentifierAst where
  startPos : TextPos
  endPos : TextPos
  text : String
deriving DecidableEq, Repr

inductive UnaryOp where
  | Not
  | Plus
  | Minus
deriving DecidableEq, Repr

inductive BinaryOp where
  | Or
  | And
  | Equals
  | LessThan
  | GreaterThan
  | Add
  | Subtract
  | Multiply
  | Divide
  | IntegerDivide
  | Modulo
  | Concatenate
deriving DecidableEq, Repr

mutual

inductive ExpressionAst where
  | variableNode (v : VariableAst)
  | numberLit (startPos endPos : TextPos) (n d : Int)
  | stringLit (startPos endPos : TextPos) (value : String)
  | call (c : CallAst)
  | unaryOp (startPos endPos : TextPos) (op : UnaryOp) (right : ExpressionAst)
  | binaryOp (startPos endPos : TextPos) (op : BinaryOp) (isNegated : Bool)
      (left right : ExpressionAst)
  | orderBuiltin (startPos endPos : TextPos) (arg : VariableAst)
  | lengthBuiltin (startPos endPos : TextPos) (arg : ExpressionAst)
  | extractBuiltin (e : ExtractAst)
  | selectBuiltin (startPos endPos : TextPos) (args : List SelectArgAst)

inductive ExtractAst where
  | mk (startPos endPos : TextPos) (args : List ExpressionAst)

inductive SelectArgAst where
  | mk (condition : ExpressionAst) (value : ExpressionAst)

inductive VariableAst where
  | mk (startPos endPos : TextPos) (name : IdentifierAst)
      (subscripts : List ExpressionAst)

inductive CallAst where
  | mk (startPos endPos : TextPos) (name : IdentifierAst) (args : List CallArgAst)

inductive CallArgAst where
  | reference (startPos endPos : TextPos) (name : IdentifierAst)
  | expr (e : ExpressionAst)

end

def VariableAst.startPos : VariableAst → TextPos
  | .mk p _ _ _ => p

def VariableAst.name : VariableAst → IdentifierAst
  | .mk _ _ n _ => n

def VariableAst.subscripts : VariableAst → List ExpressionAst
  | .mk _ _ _ s => s

def CallAst.startPos : CallAst → TextPos
  | .mk p _ _ _ => p

def CallAst.name : CallAst → IdentifierAst
  | .mk _ _ n _ => n

def CallAst.args : CallAst → List CallArgAst
  | .mk _ _ _ a => a

def ExtractAst.startPos : ExtractAst → TextPos
  | .mk p _ _ => p

def ExtractAst.args : ExtractAst → List ExpressionAst
  | .mk _ _ a => a

mutual

inductive CommandAst where
  | mk (startPos endPos : TextPos) (condition : Option ExpressionAst)
      (body : CommandBodyAst)

inductive CommandBodyAst where
  | comment (startPos endPos : TextPos)
  | write (startPos endPos : TextPos) (args : List WriteArgAst)
  | quit (startPos endPos : TextPos) (returnValue : Option ExpressionAst)
  | doBlock (startPos endPos : TextPos) (children : List CommandAst)
  | ifCmd (startPos endPos : TextPos) (conditions : List ExpressionAst)
      (children : List CommandAst)
  | elseCmd (startPos endPos : TextPos) (children : List CommandAst)
  | forCmd (startPos endPos : TextPos) (arg : Option ForArgAst)
      (children : List CommandAst)
  | set (startPos endPos : TextPos) (args : List SetArgAst)
  | newCmd (startPos endPos : TextPos) (args : List IdentifierAst)
  | kill (startPos endPos : TextPos) (args : List VariableAst)
  | merge (startPos endPos : TextPos) (left right : VariableAst)
  | halt (startPos endPos : TextPos)
  | callCmd (c : CallAst)

inductive WriteArgAst where
  | hashFormatter (startPos endPos : TextPos)
  | exclamationPointFormatter (startPos endPos : TextPos)
  | expr (e : ExpressionAst)

inductive ForArgAst where
  | mk (startPos endPos : TextPos) (vr : VariableAst)
      (expressions : List ExpressionAst)

inductive SetTargetAst where
  | varTarget (v : VariableAst)
  | extract (e : ExtractAst)

inductive SetArgAst where
  | mk (startPos endPos : TextPos) (target : SetTargetAst) (value : ExpressionAst)

end

def ForArgAst.vr : ForArgAst → VariableAst
  | .mk _ _ v _ => v

def ForArgAst.expressions : ForArgAst → List ExpressionAst
  | .mk _ _ _ e => e

/-- A tag entry of `TopLevelAstNode.tags`: the child index where the tag
body starts and the optional parameter list. -/
structure Tag where
  index : Nat
  params : Option (List String)
deriving DecidableEq, Repr

/-- `TopLevelAstNode`.  The `tags` map (a JavaScript `Map`) becomes an
association list in insertion order, looked up first-match. -/
structure TopLevelAst where
  tags : List (String × Tag)
  children : List CommandAst

/-- `Map.get` on the tags map. -/
def tagsFind : List (String × Tag) → String → Option Tag
  | [], _ => none
  | (k, t) :: rest, name => if k = name then some t else tagsFind rest name

/-! ## Environments and interpreter state

An environment (`Map<string, MValue | MReference>`) becomes an
association list in insertion order.  `environmentStack` and
`valueStack` keep JavaScript array order: index 0 is the bottom, the
last element is the top. -/

/-- A stored binding: a plain value, or a reference to a binding in a
specific environment (`MReference`). -/
inductive EnvEntry where
  | val (v : MVal)
  | ref (environmentIndex : Nat) (name : String)
deriving DecidableEq, Repr

abbrev Environment := List (String × EnvEntry)

/-- `Map.get`. -/
def envGet : Environment → String → Option EnvEntry
  | [], _ => none
  | (k, e) :: rest, name => if k = name then some e else envGet rest name

/-- `Map.set`: overwrite in place, or append preserving insertion order. -/
def envSet : Environment → String → EnvEntry → Environment
  | [], name, entry => [(name, entry)]
  | (k, e) :: rest, name, entry =>
    if k = name then (k, entry) :: rest else (k, e) :: envSet rest name entry

/-- `Map.delete`: remove the binding, reporting whether it was present. -/
def envDelete : Environment → String → Bool × Environment
  | [], _ => (false, [])
  | (k, e) :: rest, name =>
    if k = name then (true, rest)
    else
      let (found, rest') := envDelete rest name
      (found, (k, e) :: rest')

/-- `MReference` (without its kind discriminant). -/
structure MRef where
  environmentIndex : Nat
  name : String
deriving DecidableEq, Repr

inductive CommandResult where
  | Continue
  | Quit
  | Halt
deriving DecidableEq, Repr

structure InterpreterState where
  ast : TopLevelAst
  valueStack : List MScalar
  environmentStack : List Environment
  output : List String
  errors : List MError
  store : Store

/-- `arr.length = n` on the environment stack: truncate, or extend.
JavaScript extension creates holes, whose later access would crash; that
is unreachable here, and extension is modelled as padding with empty
scopes. -/
def envSetLength (n : Nat) (l : List Environment) : List Environment :=
  if l.length ≤ n then l ++ List.replicate (n - l.length) [] else l.take n

/-- `arr.length = n` on the value stack (same caveat about extension,
padding with empty strings). -/
def stackSetLength (n : Nat) (l : List MScalar) : List MScalar :=
  if l.length ≤ n then l ++ List.replicate (n - l.length) (.str "") else l.take n

/-- `arr.pop()!` — popping an empty stack is unreachable (every pop
follows a successful push) and is modelled as yielding `""`. -/
def stackPop (l : List MScalar) : MScalar × List MScalar :=
  match l.getLast? with
  | some v => (v, l.dropLast)
  | none => (.str "", [])

def pushVal (v : MScalar) (st : InterpreterState) : InterpreterState :=
  {st with valueStack := st.valueStack ++ [v]}

def popVal (st : InterpreterState) : MScalar × InterpreterState :=
  let (v, stack) := stackPop st.valueStack
  (v, {st with valueStack := stack})

/-! ## Name resolution and scope helpers (`interpreter.ts` lines 62-104) -/

/-- The scope-walking loop of `getVariableReference` from index `i`
downward: the first scope binding `name` resolves it (following a stored
reference), otherwise the name defaults to a fresh global binding. -/
def getVariableReferenceGo (stack : List Environment) (name : String) : Nat → MRef
  | 0 =>
    match stack[0]? with
    | some env =>
      match envGet env name with
      | some (.ref j n) => ⟨j, n⟩
      | some (.val _) => ⟨0, name⟩
      | none => ⟨0, name⟩
    | none => ⟨0, name⟩
  | i + 1 =>
    match stack[i + 1]? with
    | some env =>
      match envGet env name with
      | some (.ref j n) => ⟨j, n⟩
      | some (.val _) => ⟨i + 1, name⟩
      | none => getVariableReferenceGo stack name i
    | none => getVariableReferenceGo stack name i

/-- `getVariableReference` (`interpreter.ts` lines 62-86). -/
def getVariableReference (name : String) (st : InterpreterState) : MRef :=
  match st.environmentStack.length with
  | 0 => ⟨0, name⟩
  | n + 1 => getVariableReferenceGo st.environmentStack name n

/-- `getReferenceValue` (`interpreter.ts` lines 88-92).  The JavaScript
cast `as MValue | undefined` could in principle surface a stored
reference entry; that is unreachable (references are only stored in
callee scopes resolved through `getVariableReference`) and is modelled
as undefined. -/
def getReferenceValue (ref : MRef) (st : InterpreterState) : Option MVal :=
  match st.environmentStack[ref.environmentIndex]? with
  | some env =>
    match envGet env ref.name with
    | some (.val v) => some v
    | _ => none
  | none => none

/-- `setReferenceValue` (`interpreter.ts` lines 94-96).  An out-of-range
environment index would crash in JavaScript; it is unreachable and
modelled as a no-op. -/
def setReferenceValue (ref : MRef) (v : MVal) (st : InterpreterState) :
    InterpreterState :=
  match st.environmentStack[ref.environmentIndex]? with
  | some env =>
    {st with environmentStack :=
      st.environmentStack.set ref.environmentIndex (envSet env ref.name (.val v))}
  | none => st

/-- `getSpecialVariable` (`interpreter.ts` lines 98-100). -/
def getSpecialVariable (name : String) (st : InterpreterState) : Option MVal :=
  match st.environmentStack[0]? with
  | some env =>
    match envGet env name with
    | some (.val v) => some v
    | _ => none
  | none => none

/-- `setSpecialVariable` (`interpreter.ts` lines 102-104). -/
def setSpecialVariable (name : String) (v : MVal) (st : InterpreterState) :
    InterpreterState :=
  match st.environmentStack[0]? with
  | some env =>
    {st with environmentStack := st.environmentStack.set 0 (envSet env name (.val v))}
  | none => st

/-- `reportError` (`interpreter.ts` lines 242-248); call sites pass the
node's start position. -/
def reportError (message : String) (pos : TextPos) (st : InterpreterState) :
    InterpreterState :=
  {st with errors := st.errors ++ [⟨message, pos.line, pos.column⟩]}

/-- `state.environmentStack[state.environmentStack.length - 1].set(...)`
(an empty stack would crash in JavaScript; unreachable, no-op here). -/
def envSetTop (name : String) (entry : EnvEntry) (st : InterpreterState) :
    InterpreterState :=
  match st.environmentStack.getLast? with
  | some env =>
    {st with environmentStack := st.environmentStack.dropLast ++ [envSet env name entry]}
  | none => st

/-- The second binding loop of `interpretCall` (`interpreter.ts` lines
303-305): parameters beyond the supplied arguments are bound to `""` in
whatever environment is on top of the stack. -/
def bindMissingParamsGo : List String → InterpreterState → InterpreterState
  | [], st => st
  | p :: ps, st => bindMissingParamsGo ps (envSetTop p (.val (.scalar (.str ""))) st)

def bindMissingParams (params : List String) (argCount : Nat)
    (st : InterpreterState) : InterpreterState :=
  bindMissingParamsGo (params.drop argCount) st

/-- `interpretNew` (`interpreter.ts` lines 935-949): with no arguments a
no-op, otherwise pushes a fresh scope binding each argument to `""`. -/
def interpretNew (args : List IdentifierAst) (st : InterpreterState) :
    CommandResult × InterpreterState :=
  if args.length = 0 then (.Continue, st)
  else
    let environment := args.foldl (fun env a => envSet env a.text (.val (.scalar (.str "")))) []
    (.Continue, {st with environmentStack := st.environmentStack ++ [environment]})

/-- The unsubscripted-kill loop (`interpreter.ts` lines 980-984): delete
the name from the topmost scope that has it. -/
def envDeleteDownwardGo (stack : List Environment) (name : String) :
    Nat → List Environment
  | 0 =>
    match stack[0]? with
    | some env =>
      let (found, env') := envDelete env name
      if found then stack.set 0 env' else stack
    | none => stack
  | i + 1 =>
    match stack[i + 1]? with
    | some env =>
      let (found, env') := envDelete env name
      if found then stack.set (i + 1) env' else envDeleteDownwardGo stack name i
    | none => envDeleteDownwardGo stack name i

def envDeleteDownward (name : String) (stack : List Environment) :
    List Environment :=
  match stack.length with
  | 0 => stack
  | n + 1 => envDeleteDownwardGo stack name n

/-- The overlapping-subscript scan of `interpretMerge` (`interpreter.ts`
lines 1022-1034): true when the two evaluated subscript lists agree on
their common prefix. -/
def commonAgree : List String → List String → Bool
  | [], _ => true
  | _, [] => true
  | a :: as_, b :: bs => a == b && commonAgree as_ bs

/-- JavaScript strict equality `===` on `MScalar` operands.  Two numbers
compare by numeric value (IEEE-754 rounding quirks are not modelled);
mixed types are unequal. -/
def scalarStrictEq (l r : MScalar) : Bool :=
  match l, r with
  | .str a, .str b => a == b
  | .num n1 d1, .num n2 d2 => pairEq (n1, d1) (n2, d2)
  | _, _ => false

def scalarToNumStrict (s : MScalar) : Option (Int × Int) :=
  match s with
  | .num n d => some (n, d)
  | .str s => jsToNumberStrict s

/-- JavaScript abstract relational comparison `l < r` on scalars: two
strings compare lexicographically, otherwise both sides convert via
`ToNumber` and `NaN` makes the comparison false. -/
def jsLtScalar (l r : MScalar) : Bool :=
  match l, r with
  | .str a, .str b => strLt a b
  | l, r =>
    match scalarToNumStrict l, scalarToNumStrict r with
    | some x, some y => pairLt x y
    | _, _ => false

/-- JavaScript `String.prototype.slice` with integer arguments (indices
count code points here versus UTF-16 units in JavaScript; they agree
outside astral characters). -/
def jsSliceStr (s : String) (a b : Int) : String :=
  let len : Int := s.length
  let lo := if a < 0 then max (len + a) 0 else min a len
  let hi := if b < 0 then max (len + b) 0 else min b len
  if lo < hi then String.mk ((s.data.drop lo.toNat).take (hi - lo).toNat) else ""

/-- `value.slice(start, end)` where the bounds arrive as JavaScript
numbers (truncated toward zero by `slice`). -/
def jsSlicePair (s : String) (a b : Int × Int) : String :=
  jsSliceStr s (pairTrunc a) (pairTrunc b)

/-- `replaceStringRange` (`interpreter.ts` lines 837-842). -/
def replaceStringRange (destination source : String) (start stop : Int) :
    String :=
  jsSliceStr destination 0 start ++ source ++ jsSliceStr destination stop destination.length

/-- The three-way result of `getVariable`: `undef` is the JavaScript
`undefined` (an unrecoverable failure), `nullv` is `null` (variable
absent or falsy), `found` carries the value. -/
inductive GetVarResult where
  | undef
  | nullv
  | found (v : MVal)

/-! ## The interpreter (`interpreter.ts` lines 106-1128)

JavaScript mutation of `state` becomes explicit state passing.  The
mutually recursive interpreter functions are indexed by a fuel bound:
`interpAt fuel` is the family of interpreter functions allowed `fuel`
further nested calls — every call steps to the family at one unit less,
and exhausted fuel yields `none` (which never happens when the source
program terminates and the fuel is large enough).  Each wrapper
definition below (`interpretExpression`, …) is the translation of the
identically named source function. -/

/-- The family of interpreter functions at a fixed fuel level.  Each
field corresponds to one function of `interpreter.ts`. -/
structure InterpFns where
  interpretExpressionF : ExpressionAst → InterpreterState →
    Option (Bool × InterpreterState)
  getSubscriptKeyF : VariableAst → Nat → Option (List String) →
    InterpreterState → Option (Option String × InterpreterState)
  getVariableLoopF : VariableAst → Nat → Option (List String) → Nat → MVal →
    InterpreterState → Option (GetVarResult × InterpreterState)
  getVariableF : VariableAst → Nat → Option (List String) →
    InterpreterState → Option (GetVarResult × InterpreterState)
  getOrCreateLoopF : VariableAst → Nat → Option (List String) → Nat → Nat →
    InterpreterState → Option (Option Nat × InterpreterState)
  getOrCreateArrayAtSubscriptF : VariableAst → Nat → Option (List String) →
    InterpreterState → Option (Option Nat × InterpreterState)
  setVariableF : VariableAst → MVal → InterpreterState →
    Option (Bool × InterpreterState)
  interpretVariableF : VariableAst → InterpreterState →
    Option (Bool × InterpreterState)
  bindCallArgsF : List String → List CallArgAst → Nat → Bool →
    InterpreterState → Option (Option Unit × InterpreterState)
  finishCallF : Nat → Nat → Bool → InterpreterState →
    Option (Bool × InterpreterState)
  interpretCallF : CallAst → Bool → InterpreterState →
    Option (Bool × InterpreterState)
  interpretUnaryOpF : UnaryOp → ExpressionAst → InterpreterState →
    Option (Bool × InterpreterState)
  interpretBinaryOpF : BinaryOp → Bool → ExpressionAst → ExpressionAst →
    InterpreterState → Option (Bool × InterpreterState)
  interpretOrderBuiltinF : VariableAst → InterpreterState →
    Option (Bool × InterpreterState)
  interpretLengthBuiltinF : ExpressionAst → InterpreterState →
    Option (Bool × InterpreterState)
  getExtractionStartF : ExtractAst → InterpreterState →
    Option (Option (Int × Int) × InterpreterState)
  getExtractionEndF : ExtractAst → (Int × Int) → InterpreterState →
    Option (Option (Int × Int) × InterpreterState)
  interpretExtractBuiltinF : ExtractAst → InterpreterState →
    Option (Bool × InterpreterState)
  interpretSelectBuiltinF : TextPos → List SelectArgAst → InterpreterState →
    Option (Bool × InterpreterState)
  interpretWriteF : List WriteArgAst → InterpreterState →
    Option (CommandResult × InterpreterState)
  interpretQuitF : Option ExpressionAst → InterpreterState →
    Option (CommandResult × InterpreterState)
  interpretDoBlockLoopF : Nat → List CommandAst → InterpreterState →
    Option (CommandResult × InterpreterState)
  interpretDoBlockF : List CommandAst → InterpreterState →
    Option (CommandResult × InterpreterState)
  interpretIfF : List ExpressionAst → List CommandAst → InterpreterState →
    Option (CommandResult × InterpreterState)
  interpretElseF : List CommandAst → InterpreterState →
    Option (CommandResult × InterpreterState)
  interpretChildCommandsF : List CommandAst → InterpreterState →
    Option (CommandResult × InterpreterState)
  interpretForWithNoArgF : List CommandAst → InterpreterState →
    Option (CommandResult × InterpreterState)
  interpretForWithStartF : VariableAst → ExpressionAst → List CommandAst →
    InterpreterState → Option (CommandResult × InterpreterState)
  interpretForWithStartIncrementLoopF : VariableAst → (Int × Int) →
    List CommandAst → InterpreterState →
    Option (CommandResult × InterpreterState)
  interpretForWithStartIncrementF : VariableAst → ExpressionAst →
    ExpressionAst → List CommandAst → InterpreterState →
    Option (CommandResult × InterpreterState)
  interpretForWithStartIncrementEndLoopF : VariableAst → (Int × Int) →
    (Int × Int) → (Int × Int) → List CommandAst → InterpreterState →
    Option (CommandResult × InterpreterState)
  interpretForWithStartIncrementEndF : VariableAst → ExpressionAst →
    ExpressionAst → ExpressionAst → List CommandAst → InterpreterState →
    Option (CommandResult × InterpreterState)
  interpretForF : TextPos → Option ForArgAst → List CommandAst →
    InterpreterState → Option (CommandResult × InterpreterState)
  interpretSetExtractF : ExtractAst → String → InterpreterState →
    Option (CommandResult × InterpreterState)
  interpretVariableSetArgumentF : SetArgAst → InterpreterState →
    Option (CommandResult × InterpreterState)
  interpretSetF : List SetArgAst → InterpreterState →
    Option (CommandResult × InterpreterState)
  interpretKillLoopF : List VariableAst → InterpreterState →
    Option (CommandResult × InterpreterState)
  interpretKillF : List VariableAst → InterpreterState →
    Option (CommandResult × InterpreterState)
  interpretSubscriptsF : List ExpressionAst → List String →
    InterpreterState → Option (Option (List String) × InterpreterState)
  interpretMergeLoopF : Nat → Nat → Nat → InterpreterState →
    Option (CommandResult × InterpreterState)
  interpretMergeF : TextPos → VariableAst → VariableAst →
    InterpreterState → Option (CommandResult × InterpreterState)
  interpretCommandBodyF : CommandBodyAst → InterpreterState →
    Option (CommandResult × InterpreterState)
  interpretCommandF : CommandAst → InterpreterState →
    Option (CommandResult × InterpreterState)
  interpretTopLevelF : Nat → InterpreterState → Option InterpreterState

/-- The exhausted-fuel family: every function answers `none`. -/
def interpNone : InterpFns where
  interpretExpressionF := fun _ _ => none
  getSubscriptKeyF := fun _ _ _ _ => none
  getVariableLoopF := fun _ _ _ _ _ _ => none
  getVariableF := fun _ _ _ _ => none
  getOrCreateLoopF := fun _ _ _ _ _ _ => none
  getOrCreateArrayAtSubscriptF := fun _ _ _ _ => none
  setVariableF := fun _ _ _ => none
  interpretVariableF := fun _ _ => none
  bindCallArgsF := fun _ _ _ _ _ => none
  finishCallF := fun _ _ _ _ => none
  interpretCallF := fun _ _ _ => none
  interpretUnaryOpF := fun _ _ _ => none
  interpretBinaryOpF := fun _ _ _ _ _ => none
  interpretOrderBuiltinF := fun _ _ => none
  interpretLengthBuiltinF := fun _ _ => none
  getExtractionStartF := fun _ _ => none
  getExtractionEndF := fun _ _ _ => none
  interpretExtractBuiltinF := fun _ _ => none
  interpretSelectBuiltinF := fun _ _ _ => none
  interpretWriteF := fun _ _ => none
  interpretQuitF := fun _ _ => none
  interpretDoBlockLoopF := fun _ _ _ => none
  interpretDoBlockF := fun _ _ => none
  interpretIfF := fun _ _ _ => none
  interpretElseF := fun _ _ => none
  interpretChildCommandsF := fun _ _ => none
  interpretForWithNoArgF := fun _ _ => none
  interpretForWithStartF := fun _ _ _ _ => none
  interpretForWithStartIncrementLoopF := fun _ _ _ _ => none
  interpretForWithStartIncrementF := fun _ _ _ _ _ => none
  interpretForWithStartIncrementEndLoopF := fun _ _ _ _ _ _ => none
  interpretForWithStartIncrementEndF := fun _ _ _ _ _ _ => none
  interpretForF := fun _ _ _ _ => none
  interpretSetExtractF := fun _ _ _ => none
  interpretVariableSetArgumentF := fun _ _ => none
  interpretSetF := fun _ _ => none
  interpretKillLoopF := fun _ _ => none
  interpretKillF := fun _ _ => none
  interpretSubscriptsF := fun _ _ _ => none
  interpretMergeLoopF := fun _ _ _ _ => none
  interpretMergeF := fun _ _ _ _ => none
  interpretCommandBodyF := fun _ _ => none
  interpretCommandF := fun _ _ => none
  interpretTopLevelF := fun _ _ => none

/-- One fuel level of the interpreter: each field is the body of the
corresponding `interpreter.ts` function, with every call made through
the next-lower family `I`.  The line references in the wrapper doc
comments below locate each body in the source. -/
def interpStep (fuel : Nat) (I : InterpFns) : InterpFns where
  interpretExpressionF := fun e st =>
    match e with
    | .variableNode v => I.interpretVariableF v st
    | .numberLit _ _ n d => some (true, pushVal (.num n d) st)
    | .stringLit _ _ s => some (true, pushVal (.str s) st)
    | .call c => I.interpretCallF c true st
    | .unaryOp _ _ op right => I.interpretUnaryOpF op right st
    | .binaryOp _ _ op neg l r => I.interpretBinaryOpF op neg l r st
    | .orderBuiltin _ _ arg => I.interpretOrderBuiltinF arg st
    | .lengthBuiltin _ _ arg => I.interpretLengthBuiltinF arg st
    | .extractBuiltin ex => I.interpretExtractBuiltinF ex st
    | .selectBuiltin p _ args => I.interpretSelectBuiltinF p args st
  getSubscriptKeyF := fun vr i subscriptValues st =>
    match subscriptValues with
    | some values => some (values[i]?, st)
    | none =>
      match vr.subscripts[i]? with
      | none => some (none, st)
      | some subExpr =>
        match I.interpretExpressionF subExpr st with
        | none => none
        | some (false, st1) => some (none, st1)
        | some (true, st1) =>
          let (v, st2) := popVal st1
          some (some (mScalarToString v), st2)
  getVariableLoopF := fun vr count subscriptValues i value st =>
    if i < count then
      match value with
      | .scalar _ => some (.nullv, st)
      | .ptr p =>
        match I.getSubscriptKeyF vr i subscriptValues st with
        | none => none
        | some (none, st1) => some (.undef, st1)
        | some (some key, st1) =>
          if key = "" then some (.undef, st1)
          else
            let v' := storeArrayGet st1.store p key
            if jsFalsy v' then some (.nullv, st1)
            else I.getVariableLoopF vr count subscriptValues (i + 1) v' st1
    else some (.found value, st)
  getVariableF := fun vr subscriptCount subscriptValues st =>
    let reference := getVariableReference vr.name.text st
    match getReferenceValue reference st with
    | none => some (.nullv, st)
    | some v =>
      if jsFalsy v then some (.nullv, st)
      else I.getVariableLoopF vr subscriptCount subscriptValues 0 v st
  getOrCreateLoopF := fun vr count subscriptValues i p st =>
    if i < count then
      match I.getSubscriptKeyF vr i subscriptValues st with
      | none => none
      | some (none, st1) => some (none, st1)
      | some (some key, st1) =>
        if key = "" then some (none, st1)
        else
          match storeArrayGet st1.store p key with
          | .ptr p' => I.getOrCreateLoopF vr count subscriptValues (i + 1) p' st1
          | .scalar s =>
            let (store1, q) := storeAlloc st1.store ⟨s, none⟩
            let store2 := storeArraySet store1 p key (.ptr q)
            I.getOrCreateLoopF vr count subscriptValues (i + 1) q
              {st1 with store := store2}
    else some (some p, st)
  getOrCreateArrayAtSubscriptF := fun vr count subscriptValues st =>
    let reference := getVariableReference vr.name.text st
    match getReferenceValue reference st with
    | some (.ptr p) => I.getOrCreateLoopF vr count subscriptValues 0 p st
    | some (.scalar s) =>
      if jsFalsy (.scalar s) then
        let (store1, q) := storeAlloc st.store ⟨.str "", none⟩
        let st1 := setReferenceValue reference (.ptr q) {st with store := store1}
        I.getOrCreateLoopF vr count subscriptValues 0 q st1
      else
        let (store1, q) := storeAlloc st.store ⟨s, none⟩
        let st1 := setReferenceValue reference (.ptr q) {st with store := store1}
        I.getOrCreateLoopF vr count subscriptValues 0 q st1
    | none =>
      let (store1, q) := storeAlloc st.store ⟨.str "", none⟩
      let st1 := setReferenceValue reference (.ptr q) {st with store := store1}
      I.getOrCreateLoopF vr count subscriptValues 0 q st1
  setVariableF := fun vr value st =>
    if vr.subscripts.length = 0 then
      let reference := getVariableReference vr.name.text st
      some (true, setReferenceValue reference value st)
    else
      let lastSubscript := vr.subscripts.length - 1
      match I.getOrCreateArrayAtSubscriptF vr lastSubscript none st with
      | none => none
      | some (none, st1) => some (false, st1)
      | some (some p, st1) =>
        match vr.subscripts[lastSubscript]? with
        | none => some (false, st1)
        | some e =>
          match I.interpretExpressionF e st1 with
          | none => none
          | some (false, st2) => some (false, st2)
          | some (true, st2) =>
            let (v, st3) := popVal st2
            some (true,
              {st3 with store := storeArraySet st3.store p (mScalarToString v) value})
  interpretVariableF := fun v st =>
    match I.getVariableF v v.subscripts.length none st with
    | none => none
    | some (.undef, st1) => some (false, st1)
    | some (.nullv, st1) => some (true, pushVal (.str "") st1)
    | some (.found w, st1) => some (true, pushVal (mValueToScalar st1.store w) st1)
  bindCallArgsF := fun params args i didPushEnvironment st =>
    if i < min params.length args.length then
      match args[i]? with
      | none => some (some (), st)
      | some arg =>
        match arg with
        | .reference _ _ name =>
          let r := getVariableReference name.text st
          let entry := EnvEntry.ref r.environmentIndex r.name
          let st1 :=
            if didPushEnvironment then st
            else {st with environmentStack := st.environmentStack ++ [[]]}
          let st2 :=
            match params[i]? with
            | some pname => envSetTop pname entry st1
            | none => st1
          I.bindCallArgsF params args (i + 1) true st2
        | .expr e =>
          match I.interpretExpressionF e st with
          | none => none
          | some (false, st1) => some (none, st1)
          | some (true, st1) =>
            let (v, st2) := popVal st1
            let entry := EnvEntry.val (.scalar v)
            let st3 :=
              if didPushEnvironment then st2
              else {st2 with environmentStack := st2.environmentStack ++ [[]]}
            let st4 :=
              match params[i]? with
              | some pname => envSetTop pname entry st3
              | none => st3
            I.bindCallArgsF params args (i + 1) true st4
    else some (some (), st)
  finishCallF := fun tagIndex callEnvironmentStackLength hasReturnValue st =>
    let callValueStackLength := st.valueStack.length
    match I.interpretTopLevelF tagIndex st with
    | none => none
    | some st1 =>
      let st2 :=
        if hasReturnValue then
          if st1.valueStack.length = callValueStackLength then pushVal (.str "") st1
          else st1
        else {st1 with valueStack := stackSetLength callValueStackLength st1.valueStack}
      some (true,
        {st2 with environmentStack :=
          envSetLength callEnvironmentStackLength st2.environmentStack})
  interpretCallF := fun c hasReturnValue st =>
    match tagsFind st.ast.tags c.name.text with
    | none =>
      some (false,
        reportError ("Tag \"" ++ c.name.text ++ "\" not found") c.startPos st)
    | some tag =>
      let callEnvironmentStackLength := st.environmentStack.length
      match tag.params with
      | none => I.finishCallF tag.index callEnvironmentStackLength hasReturnValue st
      | some params =>
        match I.bindCallArgsF params c.args 0 false st with
        | none => none
        | some (none, st1) => some (false, st1)
        | some (some _, st1) =>
          I.finishCallF tag.index callEnvironmentStackLength hasReturnValue
            (bindMissingParams params c.args.length st1)
  interpretUnaryOpF := fun op right st =>
    match I.interpretExpressionF right st with
    | none => none
    | some (false, st1) => some (false, st1)
    | some (true, st1) =>
      let (r, st2) := popVal st1
      let rv := mScalarToNumber r
      let value : MScalar :=
        match op with
        | .Not => if pairIsZero rv then .num 1 1 else .num 0 1
        | .Plus => .num rv.1 rv.2
        | .Minus => .num (-rv.1) rv.2
      some (true, pushVal value st2)
  interpretBinaryOpF := fun op isNegated leftE rightE st =>
    match I.interpretExpressionF leftE st with
    | none => none
    | some (false, st1) => some (false, st1)
    | some (true, st1) =>
      match I.interpretExpressionF rightE st1 with
      | none => none
      | some (false, st2) => some (false, st2)
      | some (true, st2) =>
        let (right, st3) := popVal st2
        let (left, st4) := popVal st3
        let lv := mScalarToNumber left
        let rv := mScalarToNumber right
        let value : MScalar :=
          match op with
          | .Or => if !(pairIsZero lv) || !(pairIsZero rv) then .num 1 1 else .num 0 1
          | .And => if !(pairIsZero lv) && !(pairIsZero rv) then .num 1 1 else .num 0 1
          | .Equals => if scalarStrictEq left right then .num 1 1 else .num 0 1
          | .LessThan => if jsLtScalar left right then .num 1 1 else .num 0 1
          | .GreaterThan => if jsLtScalar right left then .num 1 1 else .num 0 1
          | .Add => let x := pairAdd lv rv; .num x.1 x.2
          | .Subtract => let x := pairSub lv rv; .num x.1 x.2
          | .Multiply => let x := pairMul lv rv; .num x.1 x.2
          | .Divide => let x := pairDiv lv rv; .num x.1 x.2
          | .IntegerDivide => .num (pairFloor (pairDiv lv rv)) 1
          | .Modulo => let x := pairMod lv rv; .num x.1 x.2
          | .Concatenate => .str (mScalarToString left ++ mScalarToString right)
        let value :=
          if isNegated then
            if pairIsZero (mScalarToNumber value) then MScalar.num 1 1 else .num 0 1
          else value
        some (true, pushVal value st4)
  interpretOrderBuiltinF := fun vr st =>
    if vr.subscripts.length = 0 then some (true, pushVal (.str "") st)
    else
      let lastSubscript := vr.subscripts.length - 1
      match I.getVariableF vr lastSubscript none st with
      | none => none
      | some (.undef, st1) => some (false, st1)
      | some (res, st1) =>
        match vr.subscripts[lastSubscript]? with
        | none => some (false, st1)
        | some e =>
          match I.interpretExpressionF e st1 with
          | none => none
          | some (false, st2) => some (false, st2)
          | some (true, st2) =>
            let (k, st3) := popVal st2
            let finalSubscriptKey := mScalarToString k
            match res with
            | .found (.ptr p) =>
              some (true,
                pushVal (.str (storeGetNextKey st3.store p finalSubscriptKey)) st3)
            | _ => some (true, pushVal (.str "") st3)
  interpretLengthBuiltinF := fun arg st =>
    match I.interpretExpressionF arg st with
    | none => none
    | some (false, st1) => some (false, st1)
    | some (true, st1) =>
      let (v, st2) := popVal st1
      some (true, pushVal (.num (mScalarToString v).length 1) st2)
  getExtractionStartF := fun ex st =>
    if ex.args.length ≥ 2 then
      match ex.args[1]? with
      | none => some (none, st)
      | some e =>
        match I.interpretExpressionF e st with
        | none => none
        | some (false, st1) => some (none, st1)
        | some (true, st1) =>
          let (v, st2) := popVal st1
          some (some (pairSub (mScalarToNumber v) (1, 1)), st2)
    else some (some (0, 1), st)
  getExtractionEndF := fun ex start st =>
    if ex.args.length ≥ 3 then
      match ex.args[2]? with
      | none => some (none, st)
      | some e =>
        match I.interpretExpressionF e st with
        | none => none
        | some (false, st1) => some (none, st1)
        | some (true, st1) =>
          let (v, st2) := popVal st1
          some (some (mScalarToNumber v), st2)
    else some (some (pairAdd start (1, 1)), st)
  interpretExtractBuiltinF := fun ex st =>
    match ex.args[0]? with
    | none => some (false, st)
    | some a0 =>
      match I.interpretExpressionF a0 st with
      | none => none
      | some (false, st1) => some (false, st1)
      | some (true, st1) =>
        let (v, st2) := popVal st1
        let value := mScalarToString v
        match I.getExtractionStartF ex st2 with
        | none => none
        | some (none, st3) => some (false, st3)
        | some (some start, st3) =>
          match I.getExtractionEndF ex start st3 with
          | none => none
          | some (none, st4) => some (false, st4)
          | some (some stop, st4) =>
            some (true, pushVal (.str (jsSlicePair value start stop)) st4)
  interpretSelectBuiltinF := fun pos args st =>
    match args with
    | [] => some (false, reportError "All select conditions were false" pos st)
    | .mk condition value :: rest =>
      match I.interpretExpressionF condition st with
      | none => none
      | some (false, st1) => some (false, st1)
      | some (true, st1) =>
        let (c, st2) := popVal st1
        if pairIsZero (mScalarToNumber c) then
          I.interpretSelectBuiltinF pos rest st2
        else I.interpretExpressionF value st2
  interpretWriteF := fun args st =>
    match args with
    | [] => some (.Continue, st)
    | arg :: rest =>
      match arg with
      | .hashFormatter _ _ => I.interpretWriteF rest {st with output := []}
      | .exclamationPointFormatter _ _ =>
        I.interpretWriteF rest {st with output := st.output ++ ["\n"]}
      | .expr e =>
        match I.interpretExpressionF e st with
        | none => none
        | some (false, st1) => some (.Halt, st1)
        | some (true, st1) =>
          let (v, st2) := popVal st1
          I.interpretWriteF rest {st2 with output := st2.output ++ [mScalarToString v]}
  interpretQuitF := fun returnValue st =>
    match returnValue with
    | none => some (.Quit, st)
    | some e =>
      match I.interpretExpressionF e st with
      | none => none
      | some (false, st1) => some (.Halt, st1)
      | some (true, st1) => some (.Quit, st1)
  interpretDoBlockLoopF := fun startLen children st =>
    match children with
    | [] =>
      some (.Continue,
        {st with environmentStack := envSetLength startLen st.environmentStack})
    | c :: cs =>
      match I.interpretCommandF c st with
      | none => none
      | some (.Quit, st1) =>
        some (.Continue,
          {st1 with environmentStack := envSetLength startLen st1.environmentStack})
      | some (.Halt, st1) => some (.Halt, st1)
      | some (.Continue, st1) => I.interpretDoBlockLoopF startLen cs st1
  interpretDoBlockF := fun children st =>
    I.interpretDoBlockLoopF st.environmentStack.length children st
  interpretIfF := fun conditions children st =>
    match conditions with
    | [] =>
      I.interpretChildCommandsF children
        (setSpecialVariable "$TEST" (.scalar (.num 1 1)) st)
    | c :: cs =>
      match I.interpretExpressionF c st with
      | none => none
      | some (false, st1) => some (.Halt, st1)
      | some (true, st1) =>
        let (v, st2) := popVal st1
        if pairIsZero (mScalarToNumber v) then
          some (.Continue, setSpecialVariable "$TEST" (.scalar (.num 0 1)) st2)
        else I.interpretIfF cs children st2
  interpretElseF := fun children st =>
    match getSpecialVariable "$TEST" st with
    | some v =>
      if !(jsFalsy v) && !(pairIsZero (mValueToNumber st.store v)) then
        some (.Continue, st)
      else I.interpretChildCommandsF children st
    | none => I.interpretChildCommandsF children st
  interpretChildCommandsF := fun children st =>
    match children with
    | [] => some (.Continue, st)
    | c :: cs =>
      match I.interpretCommandF c st with
      | none => none
      | some (.Continue, st1) => I.interpretChildCommandsF cs st1
      | some (r, st1) => some (r, st1)
  interpretForWithNoArgF := fun children st =>
    match I.interpretChildCommandsF children st with
    | none => none
    | some (.Halt, st1) => some (.Halt, st1)
    | some (.Quit, st1) => some (.Continue, st1)
    | some (.Continue, st1) => I.interpretForWithNoArgF children st1
  interpretForWithStartF := fun vr start children st =>
    match I.interpretExpressionF start st with
    | none => none
    | some (false, st1) => some (.Halt, st1)
    | some (true, st1) =>
      let (sv, st2) := popVal st1
      let startValue := mScalarToNumber sv
      match I.setVariableF vr (.scalar (.num startValue.1 startValue.2)) st2 with
      | none => none
      | some (false, st3) => some (.Halt, st3)
      | some (true, st3) =>
        match I.interpretChildCommandsF children st3 with
        | none => none
        | some (.Halt, st4) => some (.Halt, st4)
        | some (_, st4) => some (.Continue, st4)
  interpretForWithStartIncrementLoopF := fun vr incrementValue children st =>
    match I.interpretChildCommandsF children st with
    | none => none
    | some (.Halt, st1) => some (.Halt, st1)
    | some (.Quit, st1) => some (.Continue, st1)
    | some (.Continue, st1) =>
      match I.interpretVariableF vr st1 with
      | none => none
      | some (false, st2) => some (.Halt, st2)
      | some (true, st2) =>
        let (v, st3) := popVal st2
        let next := pairAdd (mScalarToNumber v) incrementValue
        match I.setVariableF vr (.scalar (.num next.1 next.2)) st3 with
        | none => none
        | some (false, st4) => some (.Halt, st4)
        | some (true, st4) =>
          I.interpretForWithStartIncrementLoopF vr incrementValue children st4
  interpretForWithStartIncrementF := fun vr start increment children st =>
    match I.interpretExpressionF start st with
    | none => none
    | some (false, st1) => some (.Halt, st1)
    | some (true, st1) =>
      match I.interpretExpressionF increment st1 with
      | none => none
      | some (false, st2) => some (.Halt, st2)
      | some (true, st2) =>
        let (iv, st3) := popVal st2
        let (sv, st4) := popVal st3
        let incrementValue := mScalarToNumber iv
        let startValue := mScalarToNumber sv
        match I.setVariableF vr (.scalar (.num startValue.1 startValue.2)) st4 with
        | none => none
        | some (false, st5) => some (.Halt, st5)
        | some (true, st5) =>
          I.interpretForWithStartIncrementLoopF vr incrementValue children st5
  interpretForWithStartIncrementEndLoopF :=
    fun vr incrementValue startValue endValue children st =>
    match I.interpretVariableF vr st with
    | none => none
    | some (false, st1) => some (.Halt, st1)
    | some (true, st1) =>
      let (v, st2) := popVal st1
      let variableValue := mScalarToNumber v
      if (pairLt incrementValue (0, 1) && pairLt variableValue startValue) ||
          (pairLt (0, 1) incrementValue && pairLt endValue variableValue) then
        some (.Continue, st2)
      else
        match I.interpretChildCommandsF children st2 with
        | none => none
        | some (.Halt, st3) => some (.Halt, st3)
        | some (.Quit, st3) => some (.Continue, st3)
        | some (.Continue, st3) =>
          match I.interpretVariableF vr st3 with
          | none => none
          | some (false, st4) => some (.Halt, st4)
          | some (true, st4) =>
            let (w, st5) := popVal st4
            let next := pairAdd (mScalarToNumber w) incrementValue
            match I.setVariableF vr (.scalar (.num next.1 next.2)) st5 with
            | none => none
            | some (false, st6) => some (.Halt, st6)
            | some (true, st6) =>
              I.interpretForWithStartIncrementEndLoopF vr incrementValue
                startValue endValue children st6
  interpretForWithStartIncrementEndF := fun vr start increment stop children st =>
    match I.interpretExpressionF start st with
    | none => none
    | some (false, st1) => some (.Halt, st1)
    | some (true, st1) =>
      match I.interpretExpressionF increment st1 with
      | none => none
      | some (false, st2) => some (.Halt, st2)
      | some (true, st2) =>
        match I.interpretExpressionF stop st2 with
        | none => none
        | some (false, st3) => some (.Halt, st3)
        | some (true, st3) =>
          let (ev, st4) := popVal st3
          let (iv, st5) := popVal st4
          let (sv, st6) := popVal st5
          let endValue := mScalarToNumber ev
          let incrementValue := mScalarToNumber iv
          let startValue := mScalarToNumber sv
          match I.setVariableF vr (.scalar (.num startValue.1 startValue.2)) st6 with
          | none => none
          | some (false, st7) => some (.Halt, st7)
          | some (true, st7) =>
            I.interpretForWithStartIncrementEndLoopF vr incrementValue
              startValue endValue children st7
  interpretForF := fun pos arg children st =>
    match arg with
    | none => I.interpretForWithNoArgF children st
    | some fa =>
      match fa.expressions with
      | [e1] => I.interpretForWithStartF fa.vr e1 children st
      | [e1, e2] => I.interpretForWithStartIncrementF fa.vr e1 e2 children st
      | [e1, e2, e3] =>
        I.interpretForWithStartIncrementEndF fa.vr e1 e2 e3 children st
      | _ =>
        some (.Halt,
          reportError "Invalid number of expressions in for argument" pos st)
  interpretSetExtractF := fun ex value st =>
    match (ex.args[0]? : Option ExpressionAst) with
    | some (.variableNode vr) =>
      match I.getExtractionStartF ex st with
      | none => none
      | some (none, st1) => some (.Halt, st1)
      | some (some start, st1) =>
        match I.getExtractionEndF ex start st1 with
        | none => none
        | some (none, st2) => some (.Halt, st2)
        | some (some stop, st2) =>
          if vr.subscripts.length = 0 then
            let reference := getVariableReference vr.name.text st2
            let destination :=
              mValueToString st2.store
                ((getReferenceValue reference st2).getD (.scalar (.str "")))
            let newValue :=
              replaceStringRange destination value (pairTrunc start) (pairTrunc stop)
            some (.Continue,
              setReferenceValue reference (.scalar (.str newValue)) st2)
          else
            let lastSubscript := vr.subscripts.length - 1
            match I.getVariableF vr lastSubscript none st2 with
            | none => none
            | some (.undef, st3) => some (.Halt, st3)
            | some (res, st3) =>
              match vr.subscripts[lastSubscript]? with
              | none => some (.Halt, st3)
              | some e =>
                match I.interpretExpressionF e st3 with
                | none => none
                | some (false, st4) => some (.Halt, st4)
                | some (true, st4) =>
                  let (k, st5) := popVal st4
                  let finalSubscriptKey := mScalarToString k
                  match res with
                  | .found (.ptr p) =>
                    let destination :=
                      mValueToString st5.store
                        (storeArrayGet st5.store p finalSubscriptKey)
                    let newValue :=
                      replaceStringRange destination value
                        (pairTrunc start) (pairTrunc stop)
                    some (.Continue,
                      {st5 with store :=
                        storeArraySet st5.store p finalSubscriptKey (.scalar (.str newValue))})
                  | _ => some (.Continue, st5)
    | _ => some (.Continue, st)
  interpretVariableSetArgumentF := fun sa st =>
    match sa with
    | .mk _ _ target valueE =>
      match I.interpretExpressionF valueE st with
      | none => none
      | some (false, st1) => some (.Halt, st1)
      | some (true, st1) =>
        let (v, st2) := popVal st1
        match target with
        | .extract ex => I.interpretSetExtractF ex (mScalarToString v) st2
        | .varTarget vr =>
          match I.setVariableF vr (.scalar v) st2 with
          | none => none
          | some (true, st3) => some (.Continue, st3)
          | some (false, st3) => some (.Halt, st3)
  interpretSetF := fun args st =>
    match args with
    | [] => some (.Continue, st)
    | arg :: rest =>
      match I.interpretVariableSetArgumentF arg st with
      | none => none
      | some (.Continue, st1) => I.interpretSetF rest st1
      | some (r, st1) => some (r, st1)
  interpretKillLoopF := fun args st =>
    match args with
    | [] => some (.Continue, st)
    | arg :: rest =>
      if arg.subscripts.length > 0 then
        let lastSubscript := arg.subscripts.length - 1
        match I.getVariableF arg lastSubscript none st with
        | none => none
        | some (.undef, st1) => some (.Halt, st1)
        | some (res, st1) =>
          match arg.subscripts[lastSubscript]? with
          | none => some (.Halt, st1)
          | some e =>
            match I.interpretExpressionF e st1 with
            | none => none
            | some (false, st2) => some (.Halt, st2)
            | some (true, st2) =>
              let (k, st3) := popVal st2
              let key := mScalarToString k
              match res with
              | .found (.ptr p) =>
                I.interpretKillLoopF rest
                  {st3 with store := storeArrayKill st3.store p key}
              | _ => some (.Continue, st3)
      else
        I.interpretKillLoopF rest
          {st with environmentStack := envDeleteDownward arg.name.text st.environmentStack}
  interpretKillF := fun args st =>
    if args.length = 0 then some (.Continue, {st with environmentStack := [[]]})
    else I.interpretKillLoopF args st
  interpretSubscriptsF := fun exprs acc st =>
    match exprs with
    | [] => some (some acc, st)
    | e :: rest =>
      match I.interpretExpressionF e st with
      | none => none
      | some (false, st1) => some (none, st1)
      | some (true, st1) =>
        let (v, st2) := popVal st1
        I.interpretSubscriptsF rest (acc ++ [mScalarToString v]) st2
  interpretMergeLoopF := fun dst src i st =>
    match storeGet st.store src with
    | none => some (.Continue, st)
    | some node =>
      match node.children with
      | none => some (.Continue, st)
      | some ch =>
        match ch[i]? with
        | none => some (.Continue, st)
        | some pair =>
          match mValueCopy fuel st.store pair.2 with
          | none => none
          | some (store1, v') =>
            I.interpretMergeLoopF dst src (i + 1)
              {st with store := storeArraySet store1 dst pair.1 v'}
  interpretMergeF := fun pos left right st =>
    match I.interpretSubscriptsF left.subscripts [] st with
    | none => none
    | some (none, st1) => some (.Halt, st1)
    | some (some leftSubscriptValues, st1) =>
      match I.interpretSubscriptsF right.subscripts [] st1 with
      | none => none
      | some (none, st2) => some (.Halt, st2)
      | some (some rightSubscriptValues, st2) =>
        let doVariablesOverlap :=
          left.name.text == right.name.text &&
            commonAgree leftSubscriptValues rightSubscriptValues
        if doVariablesOverlap then
          some (.Halt, reportError "Cannot merge overlapping variables" pos st2)
        else
          match I.getOrCreateArrayAtSubscriptF left leftSubscriptValues.length
              (some leftSubscriptValues) st2 with
          | none => none
          | some (none, st3) => some (.Halt, st3)
          | some (some dst, st3) =>
            match I.getVariableF right rightSubscriptValues.length
                (some rightSubscriptValues) st3 with
            | none => none
            | some (.undef, st4) => some (.Halt, st4)
            | some (.nullv, st4) => some (.Continue, st4)
            | some (.found (.scalar _), st4) => some (.Continue, st4)
            | some (.found (.ptr src), st4) =>
              match storeGet st4.store src with
              | none => some (.Continue, st4)
              | some node =>
                match node.children with
                | none => some (.Continue, st4)
                | some _ => I.interpretMergeLoopF dst src 0 st4
  interpretCommandBodyF := fun body st =>
    match body with
    | .comment _ _ => some (.Continue, st)
    | .write _ _ args => I.interpretWriteF args st
    | .quit _ _ r => I.interpretQuitF r st
    | .doBlock _ _ children => I.interpretDoBlockF children st
    | .ifCmd _ _ conds children => I.interpretIfF conds children st
    | .elseCmd _ _ children => I.interpretElseF children st
    | .forCmd p _ arg children => I.interpretForF p arg children st
    | .set _ _ args => I.interpretSetF args st
    | .newCmd _ _ args => some (interpretNew args st)
    | .kill _ _ args => I.interpretKillF args st
    | .merge p _ l r => I.interpretMergeF p l r st
    | .halt _ _ => some (.Halt, st)
    | .callCmd c =>
      match I.interpretCallF c false st with
      | none => none
      | some (true, st1) => some (.Continue, st1)
      | some (false, st1) => some (.Halt, st1)
  interpretCommandF := fun c st =>
    match c with
    | .mk _ _ condition body =>
      match condition with
      | some e =>
        match I.interpretExpressionF e st with
        | none => none
        | some (false, st1) => some (.Halt, st1)
        | some (true, st1) =>
          let (v, st2) := popVal st1
          if pairIsZero (mScalarToNumber v) then some (.Continue, st2)
          else I.interpretCommandBodyF body st2
      | none => I.interpretCommandBodyF body st
  interpretTopLevelF := fun i st =>
    match st.ast.children[i]? with
    | none => some st
    | some c =>
      match I.interpretCommandF c st with
      | none => none
      | some (.Continue, st1) => I.interpretTopLevelF (i + 1) st1
      | some (_, st1) => some st1

/-- The interpreter family at each fuel level. -/
def interpAt : Nat → InterpFns
  | 0 => interpNone
  | fuel + 1 => interpStep fuel (interpAt fuel)

/-- `interpretExpression` (`interpreter.ts` lines 537-569). -/
def interpretExpression (fuel : Nat) (e : ExpressionAst)
    (st : InterpreterState) : Option (Bool × InterpreterState) :=
  (interpAt fuel).interpretExpressionF e st

/-- `getSubscriptKey` (`interpreter.ts` lines 106-123); the inner `none`
is JavaScript `undefined`. -/
def getSubscriptKey (fuel : Nat) (vr : VariableAst) (i : Nat)
    (subscriptValues : Option (List String)) (st : InterpreterState) :
    Option (Option String × InterpreterState) :=
  (interpAt fuel).getSubscriptKeyF vr i subscriptValues st

/-- The subscript-walking loop of `getVariable` (`interpreter.ts` lines
140-156).  Note the falsy test `if (!subscriptKey) return;`: an *empty
string* key aborts exactly like an undefined one. -/
def getVariableLoop (fuel : Nat) (vr : VariableAst) (count : Nat)
    (subscriptValues : Option (List String)) (i : Nat) (value : MVal)
    (st : InterpreterState) : Option (GetVarResult × InterpreterState) :=
  (interpAt fuel).getVariableLoopF vr count subscriptValues i value st

/-- `getVariable` (`interpreter.ts` lines 125-159). -/
def getVariable (fuel : Nat) (vr : VariableAst) (subscriptCount : Nat)
    (subscriptValues : Option (List String)) (st : InterpreterState) :
    Option (GetVarResult × InterpreterState) :=
  (interpAt fuel).getVariableF vr subscriptCount subscriptValues st

/-- The subscript-walking loop of `getOrCreateArrayAtSubscript`
(`interpreter.ts` lines 188-207). -/
def getOrCreateLoop (fuel : Nat) (vr : VariableAst) (count : Nat)
    (subscriptValues : Option (List String)) (i p : Nat)
    (st : InterpreterState) : Option (Option Nat × InterpreterState) :=
  (interpAt fuel).getOrCreateLoopF vr count subscriptValues i p st

/-- `getOrCreateArrayAtSubscript` (`interpreter.ts` lines 161-210). -/
def getOrCreateArrayAtSubscript (fuel : Nat) (vr : VariableAst) (count : Nat)
    (subscriptValues : Option (List String)) (st : InterpreterState) :
    Option (Option Nat × InterpreterState) :=
  (interpAt fuel).getOrCreateArrayAtSubscriptF vr count subscriptValues st

/-- `setVariable` (`interpreter.ts` lines 212-240). -/
def setVariable (fuel : Nat) (vr : VariableAst) (value : MVal)
    (st : InterpreterState) : Option (Bool × InterpreterState) :=
  (interpAt fuel).setVariableF vr value st

/-- `interpretVariable` (`interpreter.ts` lines 250-262). -/
def interpretVariable (fuel : Nat) (v : VariableAst) (st : InterpreterState) :
    Option (Bool × InterpreterState) :=
  (interpAt fuel).interpretVariableF v st

/-- The argument-binding loop of `interpretCall` (`interpreter.ts` lines
281-301): each bound argument pushes a fresh scope the first time and
sets the parameter in the top scope; `some none` reports a failed
argument expression. -/
def bindCallArgs (fuel : Nat) (params : List String) (args : List CallArgAst)
    (i : Nat) (didPushEnvironment : Bool) (st : InterpreterState) :
    Option (Option Unit × InterpreterState) :=
  (interpAt fuel).bindCallArgsF params args i didPushEnvironment st

/-- The tail of `interpretCall` after parameter binding (`interpreter.ts`
lines 308-322): run the tag body, then normalise the value stack (a
return value is materialised as `""` when the body pushed nothing) and
restore the environment stack length. -/
def finishCall (fuel : Nat) (tagIndex callEnvironmentStackLength : Nat)
    (hasReturnValue : Bool) (st : InterpreterState) :
    Option (Bool × InterpreterState) :=
  (interpAt fuel).finishCallF tagIndex callEnvironmentStackLength hasReturnValue st

/-- `interpretCall` (`interpreter.ts` lines 264-323). -/
def interpretCall (fuel : Nat) (c : CallAst) (hasReturnValue : Bool)
    (st : InterpreterState) : Option (Bool × InterpreterState) :=
  (interpAt fuel).interpretCallF c hasReturnValue st

/-- `interpretUnaryOp` (`interpreter.ts` lines 325-352). -/
def interpretUnaryOp (fuel : Nat) (op : UnaryOp) (right : ExpressionAst)
    (st : InterpreterState) : Option (Bool × InterpreterState) :=
  (interpAt fuel).interpretUnaryOpF op right st

/-- `interpretBinaryOp` (`interpreter.ts` lines 354-417). -/
def interpretBinaryOp (fuel : Nat) (op : BinaryOp) (isNegated : Bool)
    (leftE rightE : ExpressionAst) (st : InterpreterState) :
    Option (Bool × InterpreterState) :=
  (interpAt fuel).interpretBinaryOpF op isNegated leftE rightE st

/-- `interpretOrderBuiltin` (`interpreter.ts` lines 419-449). -/
def interpretOrderBuiltin (fuel : Nat) (vr : VariableAst)
    (st : InterpreterState) : Option (Bool × InterpreterState) :=
  (interpAt fuel).interpretOrderBuiltinF vr st

/-- `interpretLengthBuiltin` (`interpreter.ts` lines 451-460); the
JavaScript `length` counts UTF-16 units, code points here (they agree
outside astral characters). -/
def interpretLengthBuiltin (fuel : Nat) (arg : ExpressionAst)
    (st : InterpreterState) : Option (Bool × InterpreterState) :=
  (interpAt fuel).interpretLengthBuiltinF arg st

/-- `getExtractionStart` (`interpreter.ts` lines 462-475). -/
def getExtractionStart (fuel : Nat) (ex : ExtractAst) (st : InterpreterState) :
    Option (Option (Int × Int) × InterpreterState) :=
  (interpAt fuel).getExtractionStartF ex st

/-- `getExtractionEnd` (`interpreter.ts` lines 477-491). -/
def getExtractionEnd (fuel : Nat) (ex : ExtractAst) (start : Int × Int)
    (st : InterpreterState) : Option (Option (Int × Int) × InterpreterState) :=
  (interpAt fuel).getExtractionEndF ex start st

/-- `interpretExtractBuiltin` (`interpreter.ts` lines 493-514). -/
def interpretExtractBuiltin (fuel : Nat) (ex : ExtractAst)
    (st : InterpreterState) : Option (Bool × InterpreterState) :=
  (interpAt fuel).interpretExtractBuiltinF ex st

/-- `interpretSelectBuiltin` (`interpreter.ts` lines 516-535). -/
def interpretSelectBuiltin (fuel : Nat) (pos : TextPos)
    (args : List SelectArgAst) (st : InterpreterState) :
    Option (Bool × InterpreterState) :=
  (interpAt fuel).interpretSelectBuiltinF pos args st

/-- `interpretWrite` (`interpreter.ts` lines 571-593). -/
def interpretWrite (fuel : Nat) (args : List WriteArgAst)
    (st : InterpreterState) : Option (CommandResult × InterpreterState) :=
  (interpAt fuel).interpretWriteF args st

/-- `interpretQuit` (`interpreter.ts` lines 595-605); a return value
stays on the value stack. -/
def interpretQuit (fuel : Nat) (returnValue : Option ExpressionAst)
    (st : InterpreterState) : Option (CommandResult × InterpreterState) :=
  (interpAt fuel).interpretQuitF returnValue st

/-- The child loop of `interpretDoBlock` (`interpreter.ts` lines
610-624): Quit breaks out and the environment stack length is restored,
Halt returns immediately *without* restoring it. -/
def interpretDoBlockLoop (fuel : Nat) (startLen : Nat)
    (children : List CommandAst) (st : InterpreterState) :
    Option (CommandResult × InterpreterState) :=
  (interpAt fuel).interpretDoBlockLoopF startLen children st

/-- `interpretDoBlock` (`interpreter.ts` lines 607-625). -/
def interpretDoBlock (fuel : Nat) (children : List CommandAst)
    (st : InterpreterState) : Option (CommandResult × InterpreterState) :=
  (interpAt fuel).interpretDoBlockF children st

/-- `interpretIf` (`interpreter.ts` lines 627-642). -/
def interpretIf (fuel : Nat) (conditions : List ExpressionAst)
    (children : List CommandAst) (st : InterpreterState) :
    Option (CommandResult × InterpreterState) :=
  (interpAt fuel).interpretIfF conditions children st

/-- `interpretElse` (`interpreter.ts` lines 644-652). -/
def interpretElse (fuel : Nat) (children : List CommandAst)
    (st : InterpreterState) : Option (CommandResult × InterpreterState) :=
  (interpAt fuel).interpretElseF children st

/-- `interpretChildCommands` (`interpreter.ts` lines 654-667). -/
def interpretChildCommands (fuel : Nat) (children : List CommandAst)
    (st : InterpreterState) : Option (CommandResult × InterpreterState) :=
  (interpAt fuel).interpretChildCommandsF children st

/-- `interpretForWithNoArg` (`interpreter.ts` lines 669-681). -/
def interpretForWithNoArg (fuel : Nat) (children : List CommandAst)
    (st : InterpreterState) : Option (CommandResult × InterpreterState) :=
  (interpAt fuel).interpretForWithNoArgF children st

/-- `interpretForWithStart` (`interpreter.ts` lines 683-704). -/
def interpretForWithStart (fuel : Nat) (vr : VariableAst)
    (start : ExpressionAst) (children : List CommandAst)
    (st : InterpreterState) : Option (CommandResult × InterpreterState) :=
  (interpAt fuel).interpretForWithStartF vr start children st

/-- The body loop of `interpretForWithStartIncrement` (`interpreter.ts`
lines 724-741). -/
def interpretForWithStartIncrementLoop (fuel : Nat) (vr : VariableAst)
    (incrementValue : Int × Int) (children : List CommandAst)
    (st : InterpreterState) : Option (CommandResult × InterpreterState) :=
  (interpAt fuel).interpretForWithStartIncrementLoopF vr incrementValue children st

/-- `interpretForWithStartIncrement` (`interpreter.ts` lines 706-742). -/
def interpretForWithStartIncrement (fuel : Nat) (vr : VariableAst)
    (start increment : ExpressionAst) (children : List CommandAst)
    (st : InterpreterState) : Option (CommandResult × InterpreterState) :=
  (interpAt fuel).interpretForWithStartIncrementF vr start increment children st

/-- The body loop of `interpretForWithStartIncrementEnd`
(`interpreter.ts` lines 768-798).  Note the termination test of line
776: for a negative increment the variable is compared against the
*start* value, not the end value. -/
def interpretForWithStartIncrementEndLoop (fuel : Nat) (vr : VariableAst)
    (incrementValue startValue endValue : Int × Int)
    (children : List CommandAst) (st : InterpreterState) :
    Option (CommandResult × InterpreterState) :=
  (interpAt fuel).interpretForWithStartIncrementEndLoopF vr incrementValue
    startValue endValue children st

/-- `interpretForWithStartIncrementEnd` (`interpreter.ts` lines
744-799). -/
def interpretForWithStartIncrementEnd (fuel : Nat) (vr : VariableAst)
    (start increment stop : ExpressionAst) (children : List CommandAst)
    (st : InterpreterState) : Option (CommandResult × InterpreterState) :=
  (interpAt fuel).interpretForWithStartIncrementEndF vr start increment stop
    children st

/-- `interpretFor` (`interpreter.ts` lines 801-835). -/
def interpretFor (fuel : Nat) (pos : TextPos) (arg : Option ForArgAst)
    (children : List CommandAst) (st : InterpreterState) :
    Option (CommandResult × InterpreterState) :=
  (interpAt fuel).interpretForF pos arg children st

/-- `interpretSetExtract` (`interpreter.ts` lines 844-904). -/
def interpretSetExtract (fuel : Nat) (ex : ExtractAst) (value : String)
    (st : InterpreterState) : Option (CommandResult × InterpreterState) :=
  (interpAt fuel).interpretSetExtractF ex value st

/-- `interpretVariableSetArgument` (`interpreter.ts` lines 906-921). -/
def interpretVariableSetArgument (fuel : Nat) (sa : SetArgAst)
    (st : InterpreterState) : Option (CommandResult × InterpreterState) :=
  (interpAt fuel).interpretVariableSetArgumentF sa st

/-- `interpretSet` (`interpreter.ts` lines 923-933). -/
def interpretSet (fuel : Nat) (args : List SetArgAst) (st : InterpreterState) :
    Option (CommandResult × InterpreterState) :=
  (interpAt fuel).interpretSetF args st

/-- The argument loop of `interpretKill` (`interpreter.ts` lines
957-985).  When the walked value is null or a scalar, the *whole
command* returns Continue, skipping the remaining arguments. -/
def interpretKillLoop (fuel : Nat) (args : List VariableAst)
    (st : InterpreterState) : Option (CommandResult × InterpreterState) :=
  (interpAt fuel).interpretKillLoopF args st

/-- `interpretKill` (`interpreter.ts` lines 951-988): with no arguments
the whole environment stack is replaced by a single empty scope. -/
def interpretKill (fuel : Nat) (args : List VariableAst)
    (st : InterpreterState) : Option (CommandResult × InterpreterState) :=
  (interpAt fuel).interpretKillF args st

/-- `interpretSubscripts` (`interpreter.ts` lines 990-1005); the inner
`none` is the undefined returned on a failed expression. -/
def interpretSubscripts (fuel : Nat) (exprs : List ExpressionAst)
    (acc : List String) (st : InterpreterState) :
    Option (Option (List String) × InterpreterState) :=
  (interpAt fuel).interpretSubscriptsF exprs acc st

/-- The copy loop of `interpretMerge` (`interpreter.ts` lines 1067-1069),
iterating the source's children by index. -/
def interpretMergeLoop (fuel : Nat) (dst src i : Nat)
    (st : InterpreterState) : Option (CommandResult × InterpreterState) :=
  (interpAt fuel).interpretMergeLoopF dst src i st

/-- `interpretMerge` (`interpreter.ts` lines 1007-1072). -/
def interpretMerge (fuel : Nat) (pos : TextPos) (left right : VariableAst)
    (st : InterpreterState) : Option (CommandResult × InterpreterState) :=
  (interpAt fuel).interpretMergeF pos left right st

/-- The command-body dispatch of `interpretCommand` (`interpreter.ts`
lines 1085-1117); the default branch of the source switch is unreachable
for the typed AST. -/
def interpretCommandBody (fuel : Nat) (body : CommandBodyAst)
    (st : InterpreterState) : Option (CommandResult × InterpreterState) :=
  (interpAt fuel).interpretCommandBodyF body st

/-- `interpretCommand` (`interpreter.ts` lines 1074-1118). -/
def interpretCommand (fuel : Nat) (c : CommandAst) (st : InterpreterState) :
    Option (CommandResult × InterpreterState) :=
  (interpAt fuel).interpretCommandF c st

/-- `interpretTopLevel` (`interpreter.ts` lines 1120-1128). -/
def interpretTopLevel (fuel : Nat) (i : Nat) (st : InterpreterState) :
    Option InterpreterState :=
  (interpAt fuel).interpretTopLevelF i st

/-- `interpret` (`interpreter.ts` lines 1130-1145). -/
def interpret (fuel : Nat) (ast : TopLevelAst) : Option (String × List MError) :=
  let st : InterpreterState := ⟨ast, [], [[]], [], [], []⟩
  let start :=
    match tagsFind ast.tags "main" with
    | some t => t.index
    | none => 0
  match interpretTopLevel fuel start st with
  | none => none
  | some st1 => some (String.join st1.output, st1.errors)

/-! ## Concrete programs exercising the interpreter -/

/-- A throwaway text position for hand-built syntax trees. -/
def tp0 : TextPos := ⟨0, 0⟩

/-- The loop variable `i` of the C1 program. -/
def c1Var : VariableAst := .mk tp0 tp0 ⟨tp0, tp0, "i"⟩ []

/-- The program ` f i=5:-1:1 w i`: a For loop from 5 by -1 down to 1
writing the loop variable each iteration. -/
def c1Prog : TopLevelAst :=
  { tags := [],
    children := [
      .mk tp0 tp0 none (.forCmd tp0 tp0
        (some (.mk tp0 tp0 c1Var
          [.numberLit tp0 tp0 5 1, .numberLit tp0 tp0 (-1) 1,
            .numberLit tp0 tp0 1 1]))
        [.mk tp0 tp0 none (.write tp0 tp0 [.expr (.variableNode c1Var)])])] }

/-- The variable `x(1)` with a literal subscript. -/
def c3VarX1 : VariableAst :=
  .mk tp0 tp0 ⟨tp0, tp0, "x"⟩ [.numberLit tp0 tp0 1 1]

/-- The variable `x("")` with an empty-string subscript. -/
def c3VarXEmpty : VariableAst :=
  .mk tp0 tp0 ⟨tp0, tp0, "x"⟩ [.stringLit tp0 tp0 ""]

/-- ` s x(1)=2`. -/
def c3SetCmd : CommandAst :=
  .mk tp0 tp0 none (.set tp0 tp0
    [.mk tp0 tp0 (.varTarget c3VarX1) (.numberLit tp0 tp0 2 1)])

/-- ` w x("")`. -/
def c3WriteCmd : CommandAst :=
  .mk tp0 tp0 none (.write tp0 tp0 [.expr (.variableNode c3VarXEmpty)])

/-- ` w "RING"` — a marker whose output would prove execution reached
past the empty-subscript read. -/
def c3MarkerCmd : CommandAst :=
  .mk tp0 tp0 none (.write tp0 tp0 [.expr (.stringLit tp0 tp0 "RING")])

/-- The program ` s x(1)=2` / ` w x("")` / ` w "RING"`. -/
def c3Prog : TopLevelAst :=
  { tags := [], children := [c3SetCmd, c3WriteCmd, c3MarkerCmd] }

/-- The interpreter's initial state on `c3Prog`. -/
def c3InitState : InterpreterState := ⟨c3Prog, [], [[]], [], [], []⟩

/-- The state after ` s x(1)=2`. -/
def c3MidState : InterpreterState :=
  match interpretCommand 64 c3SetCmd c3InitState with
  | some (_, s) => s
  | none => c3InitState

theorem interpretForWithStartIncrementEndLoop_succ (f : Nat)
    (vr : VariableAst) (incrementValue startValue endValue : Int × Int)
    (children : List CommandAst) (st : InterpreterState) :
    interpretForWithStartIncrementEndLoop (f + 1) vr incrementValue
        startValue endValue children st =
      match interpretVariable f vr st with
      | none => none
      | some (false, st1) => some (.Halt, st1)
      | some (true, st1) =>
        let p := popVal st1
        let variableValue := mScalarToNumber p.1
        if (pairLt incrementValue (0, 1) && pairLt variableValue startValue) ||
            (pairLt (0, 1) incrementValue && pairLt endValue variableValue) then
          some (.Continue, p.2)
        else
          match interpretChildCommands f children p.2 with
          | none => none
          | some (.Halt, st3) => some (.Halt, st3)
          | some (.Quit, st3) => some (.Continue, st3)
          | some (.Continue, st3) =>
            match interpretVariable f vr st3 with
            | none => none
            | some (false, st4) => some (.Halt, st4)
            | some (true, st4) =>
              let q := popVal st4
              let next := pairAdd (mScalarToNumber q.1) incrementValue
              match setVariable f vr (.scalar (.num next.1 next.2)) q.2 with
              | none => none
              | some (false, st6) => some (.Halt, st6)
              | some (true, st6) =>
                interpretForWithStartIncrementEndLoop f vr incrementValue
                  startValue endValue children st6 := rfl

/-- C1: the spec says a For loop of the form start:increment:end with a
negative increment runs the body for each value from start down to end,
terminating only when the variable crosses past `end` — so ` f i=5:-1:1 w i`
should write `54321`.  The interpreter instead writes only `5` (with no
error), first conjunct; the second conjunct shows the mechanism: the
termination test of `interpretForWithStartIncrementEnd`
(`interpreter.ts` line 776) compares the variable against the *start*
value for negative increments, so whenever the variable is below the
start value the loop exits with Continue without running the body — the
end bound `endValue` is arbitrary and unused in the conclusion. -/
theorem claim1_negative_for_stops_after_first_iteration :
    interpret 64 c1Prog = some ("5", []) ∧
    (∀ (f : Nat) (vr : VariableAst) (incrementValue startValue endValue : Int × Int)
      (children : List CommandAst) (st st1 : InterpreterState) (v : MScalar)
      (st2 : InterpreterState),
      interpretVariable f vr st = some (true, st1) →
      popVal st1 = (v, st2) →
      pairLt incrementValue (0, 1) = true →
      pairLt (mScalarToNumber v) startValue = true →
      interpretForWithStartIncrementEndLoop (f + 1) vr incrementValue
          startValue endValue children st = some (.Continue, st2)) := by
  refine ⟨by rfl, ?_⟩
  intro f vr incrementValue startValue endValue children st st1 v st2
    hvar hpop hneg hlt
  rw [interpretForWithStartIncrementEndLoop_succ, hvar]
  simp only [hpop, hneg, hlt, Bool.true_and, Bool.true_or, if_true]

def w1St : InterpreterState :=
  ⟨⟨[], []⟩, [], [[("i", .val (.scalar (.num 4 1)))]], [], [], []⟩

theorem claim1_witness :
    interpretForWithStartIncrementEndLoop 9 c1Var (-1, 1) (5, 1) (1, 1) []
      w1St = some (.Continue, w1St) :=
  claim1_negative_for_stops_after_first_iteration.2 8 c1Var (-1, 1) (5, 1)
    (1, 1) [] w1St {w1St with valueStack := [.num 4 1]} (.num 4 1) w1St
    (by rfl) (by rfl) (by rfl) (by rfl)

/-- C3: the spec says every unrecoverable condition that aborts the
remaining program adds an error record — no failure path halts silently.
But reading a variable with an evaluated empty-string subscript trips
the falsy test `if (!subscriptKey) return;` in `getVariable`
(`interpreter.ts` line 147): the read fails, `interpretWrite` turns the
failure into Halt, the rest of the program (the `RING` marker write) is
aborted, and the error list stays empty.  The second conjunct shows the
aborting Halt itself with its empty error list. -/
theorem claim3_empty_subscript_halts_silently :
    interpret 64 c3Prog = some ("", []) ∧
      (interpretCommand 64 c3WriteCmd c3MidState).map
          (fun r => (r.1, r.2.errors)) = some (.Halt, []) := by
  exact ⟨rfl, rfl⟩

/-! ## Unfolding equations for the fuel-indexed interpreter -/

theorem interpretDoBlockLoop_nil (f startLen : Nat) (st : InterpreterState) :
    interpretDoBlockLoop (f + 1) startLen [] st =
      some (.Continue,
        {st with environmentStack := envSetLength startLen st.environmentStack}) := rfl

theorem interpretDoBlockLoop_cons (f startLen : Nat) (c : CommandAst)
    (cs : List CommandAst) (st : InterpreterState) :
    interpretDoBlockLoop (f + 1) startLen (c :: cs) st =
      match interpretCommand f c st with
      | none => none
      | some (.Quit, st1) =>
        some (.Continue,
          {st1 with environmentStack := envSetLength startLen st1.environmentStack})
      | some (.Halt, st1) => some (.Halt, st1)
      | some (.Continue, st1) => interpretDoBlockLoop f startLen cs st1 := rfl

theorem interpretDoBlock_succ (f : Nat) (children : List CommandAst)
    (st : InterpreterState) :
    interpretDoBlock (f + 1) children st =
      interpretDoBlockLoop f st.environmentStack.length children st := rfl

theorem finishCall_succ (f idx cel : Nat) (hrv : Bool) (st : InterpreterState) :
    finishCall (f + 1) idx cel hrv st =
      match interpretTopLevel f idx st with
      | none => none
      | some st1 =>
        some (true,
          {(if hrv then
              if st1.valueStack.length = st.valueStack.length then
                pushVal (.str "") st1
              else st1
            else
              {st1 with valueStack := stackSetLength st.valueStack.length st1.valueStack}) with
            environmentStack := envSetLength cel
              (if hrv then
                if st1.valueStack.length = st.valueStack.length then
                  pushVal (.str "") st1
                else st1
              else
                {st1 with
                  valueStack :=
                    stackSetLength st.valueStack.length st1.valueStack}).environmentStack}) := rfl

theorem interpretCall_succ (f : Nat) (c : CallAst) (hrv : Bool)
    (st : InterpreterState) :
    interpretCall (f + 1) c hrv st =
      match tagsFind st.ast.tags c.name.text with
      | none =>
        some (false,
          reportError ("Tag \"" ++ c.name.text ++ "\" not found") c.startPos st)
      | some tag =>
        match tag.params with
        | none => finishCall f tag.index st.environmentStack.length hrv st
        | some params =>
          match bindCallArgs f params c.args 0 false st with
          | none => none
          | some (none, st1) => some (false, st1)
          | some (some _, st1) =>
            finishCall f tag.index st.environmentStack.length hrv
              (bindMissingParams params c.args.length st1) := rfl

/-! ## Do-block control flow and environment-stack restoration -/

/-- `envSetLength` always produces the requested length. -/
theorem envSetLength_length (n : Nat) (l : List Environment) :
    (envSetLength n l).length = n := by
  unfold envSetLength
  by_cases h : l.length ≤ n
  · simp only [if_pos h, List.length_append, List.length_replicate]
    omega
  · simp only [if_neg h, List.length_take]
    omega

/-- The do-block loop has executed a prefix of the block's children, all
of them yielding Continue: from family level `f` and state `st` it is
ready to process the remaining children at level `f2` in state `st2`. -/
inductive RunCont : Nat → List CommandAst → InterpreterState → Nat →
    InterpreterState → Prop where
  | nil (f : Nat) (st : InterpreterState) : RunCont f [] st f st
  | cons {f : Nat} {c : CommandAst} {cs : List CommandAst}
      {st st1 st2 : InterpreterState} {f2 : Nat}
      (h : interpretCommand f c st = some (.Continue, st1))
      (hrest : RunCont f cs st1 f2 st2) : RunCont (f + 1) (c :: cs) st f2 st2

/-- Processing an all-Continue prefix leaves the loop running the rest. -/
theorem runCont_doBlockLoop {f : Nat} {cs0 : List CommandAst}
    {st : InterpreterState} {f2 : Nat} {st2 : InterpreterState}
    (h : RunCont f cs0 st f2 st2) (startLen : Nat) (rest : List CommandAst) :
    interpretDoBlockLoop f startLen (cs0 ++ rest) st =
      interpretDoBlockLoop f2 startLen rest st2 := by
  induction h with
  | nil f st => rfl
  | cons hc hrest ih =>
    rw [List.cons_append, interpretDoBlockLoop_cons, hc]
    exact ih

/-- A do-block loop that finishes with Continue has set the environment
stack length back to `startLen`. -/
theorem doBlockLoop_continue_length :
    ∀ (f startLen : Nat) (children : List CommandAst)
      (st st' : InterpreterState),
      interpretDoBlockLoop f startLen children st = some (.Continue, st') →
      st'.environmentStack.length = startLen := by
  intro f
  induction f with
  | zero =>
    intro startLen children st st' h
    simp [interpretDoBlockLoop, interpAt, interpNone] at h
  | succ f ih =>
    intro startLen children st st' h
    cases children with
    | nil =>
      rw [interpretDoBlockLoop_nil] at h
      cases h
      exact envSetLength_length _ _
    | cons c cs =>
      rw [interpretDoBlockLoop_cons] at h
      cases hcmd : interpretCommand f c st with
      | none => rw [hcmd] at h; cases h
      | some r =>
        obtain ⟨res, st1⟩ := r
        rw [hcmd] at h
        cases res with
        | Continue => exact ih startLen cs st1 st' h
        | Quit =>
          simp only [Option.some.injEq, Prod.mk.injEq] at h
          rw [← h.2]
          exact envSetLength_length _ _
        | Halt => simp at h

/-- A successful `finishCall` reports success and has set the
environment stack length to the saved `cel`. -/
theorem finishCall_spec {f idx cel : Nat} {hrv b : Bool}
    {st st' : InterpreterState}
    (h : finishCall f idx cel hrv st = some (b, st')) :
    b = true ∧ st'.environmentStack.length = cel := by
  cases f with
  | zero => simp [finishCall, interpAt, interpNone] at h
  | succ f =>
    rw [finishCall_succ] at h
    cases htl : interpretTopLevel f idx st with
    | none => rw [htl] at h; cases h
    | some st1 =>
      rw [htl] at h
      simp only [Option.some.injEq, Prod.mk.injEq] at h
      refine ⟨h.1.symm, ?_⟩
      rw [← h.2]
      exact envSetLength_length _ _

/-- C5: inside a Do-block, after any all-Continue prefix, a child
yielding Quit makes the block skip its remaining children and yield
Continue (restoring the saved environment-stack length), while a child
yielding Halt makes the whole block yield Halt immediately. -/
theorem claim5_doblock_quit_swallowed_halt_propagates
    (f fc : Nat) (cs0 cs : List CommandAst) (c : CommandAst)
    (st st0 st1 : InterpreterState)
    (hrun : RunCont f cs0 st (fc + 1) st0) :
    (interpretCommand fc c st0 = some (.Quit, st1) →
      interpretDoBlock (f + 1) (cs0 ++ c :: cs) st =
        some (.Continue,
          {st1 with environmentStack :=
            envSetLength st.environmentStack.length st1.environmentStack})) ∧
    (interpretCommand fc c st0 = some (.Halt, st1) →
      interpretDoBlock (f + 1) (cs0 ++ c :: cs) st = some (.Halt, st1)) := by
  constructor
  · intro h
    rw [interpretDoBlock_succ, runCont_doBlockLoop hrun,
      interpretDoBlockLoop_cons, h]
  · intro h
    rw [interpretDoBlock_succ, runCont_doBlockLoop hrun,
      interpretDoBlockLoop_cons, h]

def w5Ast : TopLevelAst := ⟨[], []⟩

def w5St : InterpreterState := ⟨w5Ast, [], [[]], [], [], []⟩

def w5Quit : CommandAst := .mk tp0 tp0 none (.quit tp0 tp0 none)

def w5Halt : CommandAst := .mk tp0 tp0 none (.halt tp0 tp0)

def w5Mark : CommandAst :=
  .mk tp0 tp0 none (.write tp0 tp0 [.expr (.stringLit tp0 tp0 "M")])

theorem claim5_witness :
    interpretDoBlock 5 ([] ++ w5Quit :: [w5Mark]) w5St =
      some (.Continue,
        {w5St with environmentStack :=
          envSetLength w5St.environmentStack.length w5St.environmentStack}) ∧
    interpretDoBlock 5 ([] ++ w5Halt :: [w5Mark]) w5St = some (.Halt, w5St) :=
  ⟨(claim5_doblock_quit_swallowed_halt_propagates 4 3 [] [w5Mark] w5Quit
      w5St w5St w5St (RunCont.nil 4 w5St)).1 (by rfl),
    (claim5_doblock_quit_swallowed_halt_propagates 4 3 [] [w5Mark] w5Halt
      w5St w5St w5St (RunCont.nil 4 w5St)).2 (by rfl)⟩

/-! ## C6: environment-stack restoration on block and call exit -/

/-- The do-block ` n x` / ` h`: New pushes a scope, Halt exits the block. -/
def c6Children : List CommandAst :=
  [.mk tp0 tp0 none (.newCmd tp0 tp0 [⟨tp0, tp0, "x"⟩]),
    .mk tp0 tp0 none (.halt tp0 tp0)]

def c6St : InterpreterState := ⟨⟨[], []⟩, [], [[]], [], [], []⟩

/-- The tag `t(a,b)` for the argument-binding failure: two parameters. -/
def c6BadAst : TopLevelAst := ⟨[("t", ⟨0, some ["a", "b"]⟩)], []⟩

def c6CallSt : InterpreterState := ⟨c6BadAst, [], [[]], [], [], []⟩

/-- `t(1, nope())`: the first argument binds (pushing the parameter
scope), the second argument's expression fails (unknown tag). -/
def c6BadCall : CallAst :=
  .mk tp0 tp0 ⟨tp0, tp0, "t"⟩
    [.expr (.numberLit tp0 tp0 1 1),
      .expr (.call (.mk tp0 tp0 ⟨tp0, tp0, "nope"⟩ []))]

/-- C6 counterexample, both failing paths of the original claim.
First, a Do-block entered with environment stack length 1 whose body
pushes a scope (`New x`) and then Halts exits with length 2 — the Halt
path of `interpretDoBlock` (`interpreter.ts` lines 617-619) returns
before the restoring assignment of line 622.  Second, a call `t(1,
nope())` whose first argument binds (pushing the parameter scope) and
whose second argument's expression fails returns failure from
`interpretCall` (line 289) before the restore of line 320, ending at
stack length 2 from 1: the pushed scope leaks. -/
theorem claim6_counterexample_halt_skips_restore :
    ((interpretDoBlock 8 c6Children c6St).map
        (fun r => (r.1, r.2.environmentStack.length)) = some (.Halt, 2) ∧
      c6St.environmentStack.length = 1) ∧
    ((interpretCall 12 c6BadCall false c6CallSt).map
        (fun r => (r.1, r.2.environmentStack.length)) = some (false, 2) ∧
      c6CallSt.environmentStack.length = 1) := ⟨⟨rfl, rfl⟩, ⟨rfl, rfl⟩⟩

/-- C6 (amended): a Do-block that *yields Continue* restores the
environment stack to its prior length; a call that reports success
restores it; and a call whose argument binding completes always reports
success with the stack restored, whatever the body did — including a
Halt inside the body, which still reaches the restore of
`interpreter.ts` line 320.  The Halt path of a Do-block and a call whose
argument binding fails after pushing the parameter scope do not
restore. -/
theorem claim6_env_restore_on_normal_exit
    (f : Nat) (children : List CommandAst) (c : CallAst) (hrv b2 : Bool)
    (st st1 st2 st3 stb : InterpreterState) (tag : Tag)
    (params : List String) :
    (interpretDoBlock f children st = some (.Continue, st1) →
      st1.environmentStack.length = st.environmentStack.length) ∧
    (interpretCall f c hrv st = some (true, st2) →
      st2.environmentStack.length = st.environmentStack.length) ∧
    (tagsFind st.ast.tags c.name.text = some tag →
      tag.params = some params →
      bindCallArgs f params c.args 0 false st = some (some (), stb) →
      interpretCall (f + 1) c hrv st = some (b2, st3) →
      b2 = true ∧ st3.environmentStack.length = st.environmentStack.length) := by
  refine ⟨?_, ?_, ?_⟩
  · intro h
    cases f with
    | zero => simp [interpretDoBlock, interpAt, interpNone] at h
    | succ f =>
      rw [interpretDoBlock_succ] at h
      exact doBlockLoop_continue_length f _ children st st1 h
  · intro h
    cases f with
    | zero => simp [interpretCall, interpAt, interpNone] at h
    | succ f =>
      rw [interpretCall_succ] at h
      cases htag : tagsFind st.ast.tags c.name.text with
      | none => simp [htag] at h
      | some tag =>
        simp only [htag] at h
        cases hp : tag.params with
        | none => rw [hp] at h; exact (finishCall_spec h).2
        | some params =>
          rw [hp] at h
          cases hb : bindCallArgs f params c.args 0 false st with
          | none => simp [hb] at h
          | some r =>
            obtain ⟨u, stb⟩ := r
            simp only [hb] at h
            cases u with
            | none => simp at h
            | some u => exact (finishCall_spec h).2
  · intro htag hp hb h
    rw [interpretCall_succ] at h
    simp only [htag, hp, hb] at h
    obtain ⟨h1, h2⟩ := finishCall_spec h
    exact ⟨h1, h2⟩

def w6Ast : TopLevelAst := ⟨[("t", ⟨0, some ["p"]⟩)], []⟩

def w6Tag : Tag := ⟨0, some ["p"]⟩

def w6St : InterpreterState := ⟨w6Ast, [], [[]], [], [], []⟩

def w6Call : CallAst := .mk tp0 tp0 ⟨tp0, tp0, "t"⟩ []

/-- The state after `do t` succeeds: the missing parameter was bound to
`""` in the caller's top scope, and the return value was pushed. -/
def w6StF : InterpreterState :=
  {w6St with
    environmentStack := [[("p", EnvEntry.val (.scalar (.str "")))]],
    valueStack := [.str ""]}

theorem claim6_witness :
    (w6St.environmentStack.length = w6St.environmentStack.length) ∧
    (w6StF.environmentStack.length = w6St.environmentStack.length) ∧
    (true = true ∧
      w6StF.environmentStack.length = w6St.environmentStack.length) :=
  have h := claim6_env_restore_on_normal_exit 8 [] w6Call true true
    w6St w6St w6StF w6StF w6St w6Tag ["p"]
  ⟨h.1 (by rfl), h.2.1 (by rfl),
    h.2.2 (by rfl) (by rfl) (by rfl) (by rfl)⟩

/-! ## C10: a call with zero arguments binds parameters in the caller's scope -/

theorem bindCallArgs_succ_empty (f : Nat) (params : List String)
    (st : InterpreterState) :
    bindCallArgs (f + 1) params [] 0 false st = some (some (), st) := by
  have h : ¬ (0 < min params.length ([] : List CallArgAst).length) := by simp
  show (if 0 < min params.length ([] : List CallArgAst).length then _ else
    some (some (), st)) = some (some (), st)
  rw [if_neg h]

/-- `envSetTop` never changes the number of scopes. -/
theorem envSetTop_length (name : String) (entry : EnvEntry)
    (st : InterpreterState) :
    (envSetTop name entry st).environmentStack.length =
      st.environmentStack.length := by
  unfold envSetTop
  cases hl : st.environmentStack.getLast? with
  | none => rfl
  | some env =>
    have hne : st.environmentStack ≠ [] := by
      intro he
      rw [he] at hl
      cases hl
    simp only [List.length_append, List.length_dropLast, List.length_cons,
      List.length_nil]
    have := List.length_pos.mpr hne
    omega

/-- `envSetTop` rewrites exactly the top scope. -/
theorem envSetTop_getLast (name : String) (entry : EnvEntry)
    (st : InterpreterState) (env : Environment)
    (h : st.environmentStack.getLast? = some env) :
    (envSetTop name entry st).environmentStack.getLast? =
      some (envSet env name entry) := by
  unfold envSetTop
  rw [h]
  simp

/-- Looking up the key just set. -/
theorem envGet_envSet_same (env : Environment) (name : String)
    (entry : EnvEntry) : envGet (envSet env name entry) name = some entry := by
  induction env with
  | nil => simp [envSet, envGet]
  | cons kv rest ih =>
    obtain ⟨k, e⟩ := kv
    by_cases hk : k = name
    · simp [envSet, envGet, hk]
    · simp [envSet, envGet, hk, ih]

/-- Setting one key leaves every other key's lookup unchanged. -/
theorem envGet_envSet_other (env : Environment) (name q : String)
    (entry : EnvEntry) (h : q ≠ name) :
    envGet (envSet env name entry) q = envGet env q := by
  induction env with
  | nil =>
    simp only [envSet, envGet]
    rw [if_neg (fun hq => h hq.symm)]
  | cons kv rest ih =>
    obtain ⟨k, e⟩ := kv
    by_cases hk : k = name
    · simp only [envSet, if_pos hk, envGet]
      have hkq : ¬ k = q := by rw [hk]; exact fun hq => h hq.symm
      rw [if_neg hkq, if_neg hkq]
    · simp only [envSet, if_neg hk, envGet]
      by_cases hq : k = q
      · rw [if_pos hq, if_pos hq]
      · rw [if_neg hq, if_neg hq, ih]

/-- The missing-parameter loop: the environment stack keeps its length,
the top scope binds every listed parameter to `""`, and every key not
listed keeps its binding. -/
theorem bindMissingParamsGo_spec (rest : List String) :
    ∀ (st : InterpreterState) (env : Environment),
      st.environmentStack.getLast? = some env →
      (bindMissingParamsGo rest st).environmentStack.length =
          st.environmentStack.length ∧
        ∃ env', (bindMissingParamsGo rest st).environmentStack.getLast? =
            some env' ∧
          (∀ q, q ∉ rest → envGet env' q = envGet env q) ∧
          (∀ p ∈ rest, envGet env' p = some (.val (.scalar (.str "")))) := by
  induction rest with
  | nil =>
    intro st env h
    exact ⟨rfl, env, h, fun q _ => rfl, by simp⟩
  | cons p ps ih =>
    intro st env h
    have htop := envSetTop_getLast p (.val (.scalar (.str ""))) st env h
    obtain ⟨hlen, env', hlast, hother, hset⟩ :=
      ih (envSetTop p (.val (.scalar (.str ""))) st) (envSet env p (.val (.scalar (.str "")))) htop
    refine ⟨?_, env', hlast, ?_, ?_⟩
    · rw [show bindMissingParamsGo (p :: ps) st =
        bindMissingParamsGo ps (envSetTop p (.val (.scalar (.str ""))) st) from rfl,
        hlen, envSetTop_length]
    · intro q hq
      have hq1 : q ≠ p := fun he => hq (by rw [he]; exact List.mem_cons_self p ps)
      have hq2 : q ∉ ps := fun hm => hq (List.mem_cons_of_mem p hm)
      rw [hother q hq2, envGet_envSet_other env p q _ hq1]
    · intro x hx
      rcases List.mem_cons.mp hx with hxe | hxm
      · subst hxe
        by_cases hxp : x ∈ ps
        · exact hset x hxp
        · rw [hother x hxp, envGet_envSet_same]
      · exact hset x hxm

/-- C10: a tag declared with parameters, called with zero arguments,
pushes no new scope: `interpretCall` proceeds straight to the call tail
on `bindMissingParams params 0`, which keeps the environment-stack
length and binds every parameter to `""` in whatever scope was on top at
the call site (overwriting the caller's own bindings of those names;
other names in that scope are untouched). -/
theorem claim10_zero_arg_call_binds_in_caller_scope
    (fuel : Nat) (c : CallAst) (hrv : Bool) (st : InterpreterState)
    (tag : Tag) (params : List String) (env : Environment)
    (htag : tagsFind st.ast.tags c.name.text = some tag)
    (hparams : tag.params = some params)
    (hargs : c.args = [])
    (henv : st.environmentStack.getLast? = some env) :
    interpretCall (fuel + 2) c hrv st =
      finishCall (fuel + 1) tag.index st.environmentStack.length hrv
        (bindMissingParams params 0 st) ∧
    (bindMissingParams params 0 st).environmentStack.length =
      st.environmentStack.length ∧
    ∃ env', (bindMissingParams params 0 st).environmentStack.getLast? =
        some env' ∧
      (∀ q, q ∉ params → envGet env' q = envGet env q) ∧
      (∀ p ∈ params, envGet env' p = some (.val (.scalar (.str "")))) := by
  obtain ⟨hlen, env', hlast, hother, hset⟩ :=
    bindMissingParamsGo_spec params st env henv
  refine ⟨?_, hlen, env', hlast, hother, hset⟩
  rw [show (fuel + 2) = (fuel + 1) + 1 from rfl, interpretCall_succ]
  simp only [htag, hparams, hargs]
  rw [bindCallArgs_succ_empty]
  rfl

def w10Ast : TopLevelAst := ⟨[("t", ⟨0, some ["a", "b"]⟩)], []⟩

def w10St : InterpreterState := ⟨w10Ast, [], [[("z", .val (.scalar (.num 7 1)))]], [], [], []⟩

def w10Call : CallAst := .mk tp0 tp0 ⟨tp0, tp0, "t"⟩ []

theorem claim10_witness :
    interpretCall 8 w10Call false w10St =
      finishCall 7 0 w10St.environmentStack.length false
        (bindMissingParams ["a", "b"] 0 w10St) ∧
    (bindMissingParams ["a", "b"] 0 w10St).environmentStack.length =
      w10St.environmentStack.length ∧
    ∃ env', (bindMissingParams ["a", "b"] 0 w10St).environmentStack.getLast? =
        some env' ∧
      (∀ q, q ∉ ["a", "b"] →
        envGet env' q = envGet [("z", .val (.scalar (.num 7 1)))] q) ∧
      (∀ p ∈ ["a", "b"], envGet env' p = some (.val (.scalar (.str "")))) :=
  claim10_zero_arg_call_binds_in_caller_scope 6 w10Call false w10St
    ⟨0, some ["a", "b"]⟩ ["a", "b"] [("z", .val (.scalar (.num 7 1)))]
    (by rfl) (by rfl) (by rfl) (by rfl)

/-! ## C4: Merge — store framing and deep-copy properties -/

theorem storeGet_lt {st : Store} {p : Nat} {nd : MNode}
    (h : storeGet st p = some nd) : p < st.length :=
  (List.getElem?_eq_some_iff.mp h).1

theorem storeArraySet_length (st : Store) (p : Nat) (k : String) (v : MVal) :
    (storeArraySet st p k v).length = st.length := by
  unfold storeArraySet
  cases storeGet st p with
  | none => rfl
  | some nd => simp [storeSet]

theorem storeArraySet_get_ne (st : Store) (p : Nat) (k : String) (v : MVal)
    (i : Nat) (h : i ≠ p) :
    storeGet (storeArraySet st p k v) i = storeGet st i := by
  unfold storeArraySet
  cases storeGet st p with
  | none => rfl
  | some nd =>
    unfold storeSet storeGet
    rw [List.getElem?_set_ne (fun he => h he.symm)]

theorem storeArraySet_get_same {st : Store} {p : Nat} (k : String) (v : MVal)
    {nd : MNode} (h : storeGet st p = some nd) :
    storeGet (storeArraySet st p k v) p = some (mArraySet nd k v) := by
  unfold storeArraySet
  rw [h]
  unfold storeSet storeGet
  rw [List.getElem?_set_self (storeGet_lt h)]

/-- `mValueCopy` only appends fresh nodes: every index of the original
store keeps its node (the children loop additionally writes the fresh
copy index `q`). -/
theorem mValueCopy_extends :
    ∀ f : Nat,
      (∀ (st : Store) (v : MVal) (st1 : Store) (v' : MVal),
        mValueCopy f st v = some (st1, v') →
        st.length ≤ st1.length ∧ ∀ i, i < st.length → st1[i]? = st[i]?) ∧
      (∀ (q : Nat) (l : List (String × MVal)) (st st1 : Store) (v' : MVal),
        mValueCopyChildren f q l st = some (st1, v') →
        st.length ≤ st1.length ∧
          ∀ i, i < st.length → i ≠ q → st1[i]? = st[i]?) := by
  intro f
  induction f with
  | zero =>
    constructor
    · intro st v st1 v' h
      cases h
    · intro q l st st1 v' h
      cases h
  | succ f ih =>
    obtain ⟨ihc, ihl⟩ := ih
    constructor
    · intro st v st1 v' h
      cases v with
      | scalar s =>
        cases h
        exact ⟨le_refl _, fun i _ => rfl⟩
      | ptr p =>
        rw [show mValueCopy (f + 1) st (.ptr p) =
          (match storeGet st p with
          | none => some (st, .ptr p)
          | some node =>
            match node.children with
            | none => some (st ++ [⟨node.value, none⟩], .ptr st.length)
            | some ch =>
              mValueCopyChildren f st.length ch (st ++ [⟨node.value, none⟩]))
          from rfl] at h
        cases hg : storeGet st p with
        | none =>
          rw [hg] at h
          cases h
          exact ⟨le_refl _, fun i _ => rfl⟩
        | some node =>
          simp only [hg] at h
          cases hch : node.children with
          | none =>
            simp only [hch] at h
            cases h
            constructor
            · simp
            · intro i hi
              rw [List.getElem?_append_left hi]
          | some ch =>
            simp only [hch] at h
            obtain ⟨hlen, hpres⟩ := ihl st.length ch _ _ _ h
            constructor
            · calc st.length ≤ (st ++ [(⟨node.value, none⟩ : MNode)]).length := by simp
                _ ≤ st1.length := hlen
            · intro i hi
              rw [hpres i (by simp; omega) (by omega), List.getElem?_append_left hi]
    · intro q l st st1 v' h
      cases l with
      | nil =>
        cases h
        exact ⟨le_refl _, fun i _ _ => rfl⟩
      | cons pair rest =>
        rw [show mValueCopyChildren (f + 1) q (pair :: rest) st =
          (match mValueCopy f st pair.2 with
          | none => none
          | some (st', v') =>
            mValueCopyChildren f q rest (storeArraySet st' q pair.1 v'))
          from rfl] at h
        cases hc : mValueCopy f st pair.2 with
        | none => rw [hc] at h; cases h
        | some r =>
          obtain ⟨st', w⟩ := r
          rw [hc] at h
          obtain ⟨hlen1, hpres1⟩ := ihc st pair.2 st' w hc
          obtain ⟨hlen2, hpres2⟩ := ihl q rest _ _ _ h
          rw [storeArraySet_length] at hlen2
          constructor
          · omega
          · intro i hi hne
            rw [hpres2 i (by rw [storeArraySet_length]; omega) hne]
            show storeGet (storeArraySet st' q pair.1 w) i = st[i]?
            rw [storeArraySet_get_ne _ _ _ _ _ hne]
            exact hpres1 i hi

/-! ## Value trees: what a value denotes once pointers are followed -/

/-- The abstract tree a value denotes in a store: a scalar leaf, or a
node with a base scalar and child trees.  A node with an absent children
list and one with an empty children list read alike, matching the array
operations (which treat the two the same way). -/
inductive MTree where
  | leaf (s : MScalar)
  | node (value : MScalar) (kids : List (String × MTree))
deriving Repr

/-- Strict ascending key order, the Boolean mirror of `NodeSorted`. -/
def keysSortedB : List String → Bool
  | [] => true
  | [_] => true
  | a :: b :: rest => strLt a b && keysSortedB (b :: rest)

theorem keysSortedB_iff :
    ∀ l : List String, keysSortedB l = true ↔ l.Pairwise (fun x y => StrLt x y)
  | [] => by simp [keysSortedB]
  | [a] => by simp [keysSortedB]
  | a :: b :: rest => by
    show (strLt a b && keysSortedB (b :: rest)) = true ↔ _
    rw [Bool.and_eq_true, keysSortedB_iff (b :: rest)]
    constructor
    · rintro ⟨hab, hrest⟩
      rw [List.pairwise_cons]
      refine ⟨?_, hrest⟩
      intro x hx
      rcases List.mem_cons.mp hx with rfl | hx2
      · exact hab
      · exact StrLt.trans hab ((List.pairwise_cons.mp hrest).1 x hx2)
    · intro h
      obtain ⟨hall, hrest⟩ := List.pairwise_cons.mp h
      exact ⟨hall b (by simp), hrest⟩

theorem keysSortedB_of_pairwise {ch : List (String × MVal)}
    (hs : ch.Pairwise (fun x y => StrLt x.1 y.1)) :
    keysSortedB (ch.map Prod.fst) = true :=
  (keysSortedB_iff _).mpr (List.pairwise_map.mpr hs)

theorem pairwise_of_keysSortedB {ch : List (String × MVal)}
    (h : keysSortedB (ch.map Prod.fst) = true) :
    ch.Pairwise (fun x y => StrLt x.1 y.1) :=
  List.pairwise_map.mp ((keysSortedB_iff _).mp h)

mutual

/-- Fueled pointer-chasing reader: the tree `v` denotes in `st`,
restricted to pointers satisfying `ok` and to nodes with strictly sorted
children keys; `none` on fuel exhaustion, a dangling or excluded
pointer, or unsorted children. -/
def readValP (ok : Nat → Bool) : Nat → Store → MVal → Option MTree
  | 0, _, _ => none
  | _ + 1, _, .scalar s => some (.leaf s)
  | g + 1, st, .ptr p =>
    match ok p with
    | false => none
    | true =>
      match storeGet st p with
      | none => none
      | some nd =>
        match keysSortedB ((nd.children.getD []).map Prod.fst) with
        | false => none
        | true =>
          match readKidsP ok g st (nd.children.getD []) with
          | none => none
          | some ts => some (.node nd.value ts)

/-- The children of a node, read elementwise. -/
def readKidsP (ok : Nat → Bool) : Nat → Store → List (String × MVal) →
    Option (List (String × MTree))
  | 0, _, _ => none
  | _ + 1, _, [] => some []
  | g + 1, st, pair :: rest =>
    match readValP ok g st pair.2 with
    | none => none
    | some t =>
      match readKidsP ok g st rest with
      | none => none
      | some ts => some ((pair.1, t) :: ts)

end

theorem readValP_succ_ptr (ok : Nat → Bool) (g : Nat) (st : Store) (p : Nat) :
    readValP ok (g + 1) st (.ptr p) =
      match ok p with
      | false => none
      | true =>
        match storeGet st p with
        | none => none
        | some nd =>
          match keysSortedB ((nd.children.getD []).map Prod.fst) with
          | false => none
          | true =>
            match readKidsP ok g st (nd.children.getD []) with
            | none => none
            | some ts => some (.node nd.value ts) := rfl

theorem readKidsP_succ_cons (ok : Nat → Bool) (g : Nat) (st : Store)
    (pair : String × MVal) (rest : List (String × MVal)) :
    readKidsP ok (g + 1) st (pair :: rest) =
      match readValP ok g st pair.2 with
      | none => none
      | some t =>
        match readKidsP ok g st rest with
        | none => none
        | some ts => some ((pair.1, t) :: ts) := rfl

/-- A successful read stays successful with more fuel. -/
theorem readP_fuel_mono :
    ∀ g : Nat,
      (∀ (g2 : Nat) (ok : Nat → Bool) (st : Store) (v : MVal) (t : MTree),
        readValP ok g st v = some t → g ≤ g2 → readValP ok g2 st v = some t) ∧
      (∀ (g2 : Nat) (ok : Nat → Bool) (st : Store) (l : List (String × MVal))
        (ts : List (String × MTree)),
        readKidsP ok g st l = some ts → g ≤ g2 →
          readKidsP ok g2 st l = some ts) := by
  intro g
  induction g with
  | zero =>
    constructor
    · intro g2 ok st v t h; cases h
    · intro g2 ok st l ts h; cases h
  | succ g ih =>
    obtain ⟨ihv, ihk⟩ := ih
    constructor
    · intro g2 ok st v t h hle
      cases g2 with
      | zero => omega
      | succ g2 =>
        cases v with
        | scalar s => exact h
        | ptr p =>
          rw [readValP_succ_ptr] at h ⊢
          cases hok : ok p with
          | false => rw [hok] at h; cases h
          | true =>
            rw [hok] at h
            simp only at h ⊢
            cases hg : storeGet st p with
            | none => rw [hg] at h; cases h
            | some nd =>
              rw [hg] at h
              simp only at h ⊢
              cases hsrt : keysSortedB ((nd.children.getD []).map Prod.fst) with
              | false => rw [hsrt] at h; cases h
              | true =>
                rw [hsrt] at h
                simp only at h ⊢
                cases hk : readKidsP ok g st (nd.children.getD []) with
                | none => rw [hk] at h; cases h
                | some ts2 =>
                  rw [hk] at h
                  rw [ihk g2 ok st _ ts2 hk (by omega)]
                  exact h
    · intro g2 ok st l ts h hle
      cases g2 with
      | zero => omega
      | succ g2 =>
        cases l with
        | nil => cases h; rfl
        | cons pair rest =>
          rw [readKidsP_succ_cons] at h ⊢
          cases hv : readValP ok g st pair.2 with
          | none => rw [hv] at h; cases h
          | some t2 =>
            rw [hv] at h
            rw [ihv g2 ok st _ t2 hv (by omega)]
            cases hk : readKidsP ok g st rest with
            | none => rw [hk] at h; cases h
            | some ts2 =>
              rw [hk] at h
              rw [ihk g2 ok st _ ts2 hk (by omega)]
              exact h

/-- A read touches only pointers that satisfy `ok` and exist in the
store, so any predicate/store pair agreeing there reads the same tree. -/
theorem readP_transport :
    ∀ g : Nat,
      (∀ (ok ok2 : Nat → Bool) (st st2 : Store) (v : MVal) (t : MTree),
        (∀ p, ok p = true → p < st.length → ok2 p = true ∧ st2[p]? = st[p]?) →
        readValP ok g st v = some t → readValP ok2 g st2 v = some t) ∧
      (∀ (ok ok2 : Nat → Bool) (st st2 : Store) (l : List (String × MVal))
        (ts : List (String × MTree)),
        (∀ p, ok p = true → p < st.length → ok2 p = true ∧ st2[p]? = st[p]?) →
        readKidsP ok g st l = some ts → readKidsP ok2 g st2 l = some ts) := by
  intro g
  induction g with
  | zero =>
    constructor
    · intro ok ok2 st st2 v t _ h; cases h
    · intro ok ok2 st st2 l ts _ h; cases h
  | succ g ih =>
    obtain ⟨ihv, ihk⟩ := ih
    constructor
    · intro ok ok2 st st2 v t hagree h
      cases v with
      | scalar s => exact h
      | ptr p =>
        rw [readValP_succ_ptr] at h ⊢
        cases hok : ok p with
        | false => rw [hok] at h; cases h
        | true =>
          rw [hok] at h
          simp only at h
          cases hg : storeGet st p with
          | none => rw [hg] at h; cases h
          | some nd =>
            rw [hg] at h
            simp only at h
            obtain ⟨hok2, heq⟩ := hagree p hok (storeGet_lt hg)
            have hg2 : storeGet st2 p = some nd := by
              show st2[p]? = some nd
              rw [heq]
              exact hg
            rw [hok2, hg2]
            simp only
            cases hsrt : keysSortedB ((nd.children.getD []).map Prod.fst) with
            | false => rw [hsrt] at h; cases h
            | true =>
              rw [hsrt] at h
              simp only at h ⊢
              cases hk : readKidsP ok g st (nd.children.getD []) with
              | none => rw [hk] at h; cases h
              | some ts2 =>
                rw [hk] at h
                rw [ihk ok ok2 st st2 _ ts2 hagree hk]
                exact h
    · intro ok ok2 st st2 l ts hagree h
      cases l with
      | nil => exact h
      | cons pair rest =>
        rw [readKidsP_succ_cons] at h ⊢
        cases hv : readValP ok g st pair.2 with
        | none => rw [hv] at h; cases h
        | some t2 =>
          rw [hv] at h
          rw [ihv ok ok2 st st2 _ t2 hagree hv]
          cases hk : readKidsP ok g st rest with
          | none => rw [hk] at h; cases h
          | some ts2 =>
            rw [hk] at h
            rw [ihk ok ok2 st st2 _ ts2 hagree hk]
            exact h

/-- Two children reads concatenate (at some larger fuel). -/
theorem readKidsP_append {ok : Nat → Bool} {st : Store} :
    ∀ (xs bs : List (String × MVal)) (g1 g2 : Nat)
      (ts1 ts2 : List (String × MTree)),
      readKidsP ok g1 st xs = some ts1 → readKidsP ok g2 st bs = some ts2 →
      ∃ G, readKidsP ok G st (xs ++ bs) = some (ts1 ++ ts2) := by
  intro xs
  induction xs with
  | nil =>
    intro bs g1 g2 ts1 ts2 h1 h2
    cases g1 with
    | zero => cases h1
    | succ g1 =>
      cases h1
      exact ⟨g2, by simpa using h2⟩
  | cons pair rest ih =>
    intro bs g1 g2 ts1 ts2 h1 h2
    cases g1 with
    | zero => cases h1
    | succ g1 =>
      rw [readKidsP_succ_cons] at h1
      cases hv : readValP ok g1 st pair.2 with
      | none => rw [hv] at h1; cases h1
      | some t =>
        rw [hv] at h1
        cases hk : readKidsP ok g1 st rest with
        | none => rw [hk] at h1; cases h1
        | some ts1r =>
          rw [hk] at h1
          simp only [Option.some.injEq] at h1
          obtain ⟨G2, hG2⟩ := ih bs g1 g2 ts1r ts2 hk h2
          refine ⟨max g1 G2 + 1, ?_⟩
          rw [List.cons_append, readKidsP_succ_cons]
          rw [(readP_fuel_mono g1).1 (max g1 G2) ok st _ t hv (le_max_left _ _)]
          rw [(readP_fuel_mono G2).2 (max g1 G2) ok st _ (ts1r ++ ts2) hG2
            (le_max_right _ _)]
          rw [← h1]
          rfl

/-- `mArraySet` at a key already present at index `j` of sorted children
replaces that entry in place. -/
theorem mArraySet_existing {a : MNode} {ch : List (String × MVal)} {j : Nat}
    {key : String} (v : MVal) (hch : a.children = some ch)
    (hs : ch.Pairwise (fun x y => StrLt x.1 y.1)) (hj : j < ch.length)
    (hkey : (ch[j]).1 = key) :
    mArraySet a key v = ⟨a.value, some (ch.set j (key, v))⟩ := by
  unfold mArraySet
  rw [hch]
  simp only
  rw [desiredIndex_of_present hch hs hj hkey]
  rw [List.getElem?_eq_getElem hj]
  simp only
  rw [if_pos hkey]

/-- `mArraySet` with a key strictly above every current key appends the
new pair at the end. -/
theorem mArraySet_append_gt {a : MNode} {key : String} (v : MVal)
    (hs : NodeSorted a)
    (hgt : ∀ k ∈ (a.children.getD []).map Prod.fst, StrLt k key) :
    mArraySet a key v =
      ⟨a.value, some ((a.children.getD []) ++ [(key, v)])⟩ := by
  unfold mArraySet
  cases hch : a.children with
  | none => simp
  | some ch =>
    have hsc := hs ch hch
    obtain ⟨hle, hlo, hhi⟩ := desiredIndex_spec key hch hsc
    have hidx : mArrayGetDesiredIndex a key = ch.length := by
      rcases eq_or_lt_of_le hle with h | h
      · exact h
      · exfalso
        have h1 := hhi _ h (le_refl _)
        have h2 := hgt (ch[mArrayGetDesiredIndex a key]).1 (by
          rw [hch]
          simp only [Option.getD_some]
          exact List.mem_map_of_mem Prod.fst (List.getElem_mem h))
        exact absurd rfl (StrLe.trans_lt h1 h2).ne
    simp only [Option.getD_some]
    rw [hidx]
    rw [List.getElem?_eq_none_iff.mpr (le_refl _)]
    simp only
    rw [List.take_length, List.drop_length]

/-- `mValueCopy` produces a value denoting the same tree as the source,
and the copy reads entirely inside the freshly allocated region.  The
children clause tracks the loop: node `q` accumulates the copied pairs
after its current (strictly smaller-keyed) children. -/
theorem mValueCopy_reads :
    ∀ f : Nat,
      (∀ (st : Store) (v : MVal) (st1 : Store) (v' : MVal),
        mValueCopy f st v = some (st1, v') →
        ∀ (g : Nat) (t : MTree),
          readValP (fun _ => true) g st v = some t →
          ∃ G, readValP (fun p => decide (st.length ≤ p)) G st1 v' = some t) ∧
      (∀ (q : Nat) (l : List (String × MVal)) (stA st1 : Store) (v' : MVal),
        mValueCopyChildren f q l stA = some (st1, v') →
        ∀ (N : Nat) (val : MScalar) (curo : Option (List (String × MVal))),
          N ≤ stA.length →
          storeGet stA q = some ⟨val, curo⟩ →
          keysSortedB ((curo.getD []).map Prod.fst ++ l.map Prod.fst) = true →
          v' = .ptr q ∧
          ∃ chF : Option (List (String × MVal)),
            storeGet st1 q = some ⟨val, chF⟩ ∧
            keysSortedB ((chF.getD []).map Prod.fst) = true ∧
            ∀ (g1 g2 : Nat) (ts curts : List (String × MTree)),
              readKidsP (fun p => !(p == q)) g1 stA l = some ts →
              readKidsP (fun p => decide (N ≤ p) && !(p == q)) g2 stA
                (curo.getD []) = some curts →
              ∃ G, readKidsP (fun p => decide (N ≤ p)) G st1 (chF.getD [])
                = some (curts ++ ts)) := by
  intro f
  induction f with
  | zero =>
    constructor
    · intro st v st1 v' h; cases h
    · intro q l stA st1 v' h; cases h
  | succ f ih =>
    obtain ⟨ihc, ihl⟩ := ih
    constructor
    · intro st v st1 v' h g t hread
      cases v with
      | scalar s =>
        rw [show mValueCopy (f + 1) st (.scalar s) = some (st, .scalar s)
          from rfl] at h
        cases h
        cases g with
        | zero => cases hread
        | succ g =>
          cases hread
          exact ⟨g + 1, rfl⟩
      | ptr p =>
        rw [show mValueCopy (f + 1) st (.ptr p) =
          (match storeGet st p with
          | none => some (st, .ptr p)
          | some node =>
            match node.children with
            | none => some (st ++ [⟨node.value, none⟩], .ptr st.length)
            | some ch =>
              mValueCopyChildren f st.length ch (st ++ [⟨node.value, none⟩]))
          from rfl] at h
        cases g with
        | zero => cases hread
        | succ g =>
          rw [readValP_succ_ptr] at hread
          simp only at hread
          cases hg : storeGet st p with
          | none => rw [hg] at hread; cases hread
          | some node =>
            rw [hg] at h hread
            simp only at h hread
            cases hsrt : keysSortedB ((node.children.getD []).map Prod.fst) with
            | false => rw [hsrt] at hread; cases hread
            | true =>
              rw [hsrt] at hread
              simp only at hread
              cases hk : readKidsP (fun _ => true) g st
                  (node.children.getD []) with
              | none => rw [hk] at hread; cases hread
              | some ts =>
                rw [hk] at hread
                simp only [Option.some.injEq] at hread
                cases hread
                have hfreshget : storeGet (st ++ [(⟨node.value, none⟩ : MNode)])
                    st.length = some ⟨node.value, none⟩ := by
                  show (st ++ [(⟨node.value, none⟩ : MNode)])[st.length]? = _
                  simp
                cases hch : node.children with
                | none =>
                  rw [hch] at h
                  cases h
                  rw [hch] at hk
                  simp only [Option.getD_none] at hk
                  cases g with
                  | zero => cases hk
                  | succ g =>
                    have hk2 : (some ([] : List (String × MTree))) = some ts :=
                      hk
                    cases hk2
                    refine ⟨g + 2, ?_⟩
                    rw [readValP_succ_ptr]
                    rw [show (decide (st.length ≤ st.length))
                      = true from by simp]
                    simp only [hfreshget]
                    rfl
                | some ch =>
                  rw [hch] at h
                  rw [hch] at hk hsrt
                  simp only [Option.getD_some] at hk hsrt
                  obtain ⟨hv', chF, hqF, hsortF, hreads⟩ :=
                    ihl st.length ch (st ++ [⟨node.value, none⟩]) st1 v' h
                      st.length node.value none (by simp) hfreshget
                      (by simpa using hsrt)
                  have hchread : readKidsP (fun p2 => !(p2 == st.length)) g
                      (st ++ [⟨node.value, none⟩]) ch = some ts := by
                    refine (readP_transport g).2 _ _ st _ _ ts ?_ hk
                    intro p2 _ hlt
                    constructor
                    · simp
                      omega
                    · rw [List.getElem?_append_left hlt]
                  have hnilread : readKidsP
                      (fun p2 => decide (st.length ≤ p2) && !(p2 == st.length))
                      1 (st ++ [⟨node.value, none⟩])
                      ((none : Option (List (String × MVal))).getD [])
                      = some [] := rfl
                  obtain ⟨G, hG⟩ := hreads g 1 ts [] hchread hnilread
                  rw [List.nil_append] at hG
                  subst hv'
                  refine ⟨G + 1, ?_⟩
                  rw [readValP_succ_ptr]
                  rw [show (decide (st.length ≤ st.length))
                    = true from by simp]
                  simp only [hqF, hsortF, hG]
    · intro q l stA st1 v' h N val curo hN hq hsorted
      cases l with
      | nil =>
        rw [show mValueCopyChildren (f + 1) q [] stA = some (stA, .ptr q)
          from rfl] at h
        cases h
        refine ⟨rfl, curo, hq, ?_, ?_⟩
        · rw [List.map_nil, List.append_nil] at hsorted
          exact hsorted
        · intro g1 g2 ts curts hts hcur
          cases g1 with
          | zero => cases hts
          | succ g1 =>
            have hts2 : (some ([] : List (String × MTree))) = some ts := hts
            cases hts2
            refine ⟨g2, ?_⟩
            rw [List.append_nil]
            refine (readP_transport g2).2 _ _ stA stA _ curts ?_ hcur
            intro p hp _
            rw [Bool.and_eq_true] at hp
            exact ⟨hp.1, rfl⟩
      | cons pair rest =>
        rw [show mValueCopyChildren (f + 1) q (pair :: rest) stA =
          (match mValueCopy f stA pair.2 with
          | none => none
          | some (st', w) =>
            mValueCopyChildren f q rest (storeArraySet st' q pair.1 w))
          from rfl] at h
        cases hc : mValueCopy f stA pair.2 with
        | none => rw [hc] at h; cases h
        | some res =>
          obtain ⟨st', w⟩ := res
          rw [hc] at h
          have hqlt : q < stA.length := storeGet_lt hq
          obtain ⟨hlen1, hpres1⟩ := (mValueCopy_extends f).1 _ _ _ _ hc
          have hq' : storeGet st' q = some ⟨val, curo⟩ := by
            show st'[q]? = some ⟨val, curo⟩
            rw [hpres1 q hqlt]
            exact hq
          rw [List.map_cons] at hsorted
          have hsp := (keysSortedB_iff _).mp hsorted
          obtain ⟨hspc, hspl, hcross⟩ := List.pairwise_append.mp hsp
          have hgt : ∀ k ∈ ((⟨val, curo⟩ : MNode).children.getD []).map
              Prod.fst, StrLt k pair.1 := by
            intro k hkmem
            exact hcross k hkmem pair.1 (by simp)
          have hnsorted : NodeSorted ⟨val, curo⟩ := by
            intro ch0 hch0
            have hcuro : curo = some ch0 := hch0
            have hgd : curo.getD [] = ch0 := by rw [hcuro]; rfl
            rw [← hgd]
            exact List.pairwise_map.mp hspc
          have hset : mArraySet ⟨val, curo⟩ pair.1 w =
              ⟨val, some ((curo.getD []) ++ [(pair.1, w)])⟩ :=
            mArraySet_append_gt w hnsorted hgt
          have hq'' : storeGet (storeArraySet st' q pair.1 w) q =
              some ⟨val, some ((curo.getD []) ++ [(pair.1, w)])⟩ := by
            rw [storeArraySet_get_same pair.1 w hq', hset]
          have hN'' : N ≤ (storeArraySet st' q pair.1 w).length := by
            rw [storeArraySet_length]
            omega
          have hsorted'' : keysSortedB
              ((((curo.getD []) ++ [(pair.1, w)]).map Prod.fst)
                ++ rest.map Prod.fst) = true := by
            rw [List.map_append]
            rw [List.append_assoc]
            simpa using hsorted
          obtain ⟨hv', chF, hqF, hsortF, hreads⟩ :=
            ihl q rest (storeArraySet st' q pair.1 w) st1 v' h N val
              (some ((curo.getD []) ++ [(pair.1, w)])) hN''
              (by simpa using hq'') (by simpa using hsorted'')
          refine ⟨hv', chF, hqF, hsortF, ?_⟩
          intro g1 g2 ts curts hts hcur
          cases g1 with
          | zero => cases hts
          | succ g1 =>
            rw [readKidsP_succ_cons] at hts
            cases hv : readValP (fun p => !(p == q)) g1 stA pair.2 with
            | none => rw [hv] at hts; cases hts
            | some t0 =>
              rw [hv] at hts
              cases hkrest : readKidsP (fun p => !(p == q)) g1 stA rest with
              | none => rw [hkrest] at hts; cases hts
              | some tsr =>
                rw [hkrest] at hts
                simp only [Option.some.injEq] at hts
                cases hts
                have hagreeA : ∀ p, (!(p == q)) = true → p < stA.length →
                    (!(p == q)) = true ∧
                      (storeArraySet st' q pair.1 w)[p]? = stA[p]? := by
                  intro p hp hlt
                  have hpq : p ≠ q := by simpa using hp
                  refine ⟨hp, ?_⟩
                  show storeGet (storeArraySet st' q pair.1 w) p = stA[p]?
                  rw [storeArraySet_get_ne st' q pair.1 w p hpq]
                  exact hpres1 p hlt
                have hkrest'' : readKidsP (fun p => !(p == q)) g1
                    (storeArraySet st' q pair.1 w) rest = some tsr :=
                  (readP_transport g1).2 _ _ stA _ _ tsr hagreeA hkrest
                have hvtrue : readValP (fun _ => true) g1 stA pair.2 =
                    some t0 :=
                  (readP_transport g1).1 _ _ stA stA _ t0
                    (fun p _ _ => ⟨rfl, rfl⟩) hv
                obtain ⟨Ga, hGa⟩ := ihc stA pair.2 st' w hc g1 t0 hvtrue
                have hw'' : readValP
                    (fun p => decide (N ≤ p) && !(p == q)) Ga
                    (storeArraySet st' q pair.1 w) w = some t0 := by
                  refine (readP_transport Ga).1 _ _ st' _ _ t0 ?_ hGa
                  intro p hdp hlt
                  have hple : stA.length ≤ p := by simpa using hdp
                  have hpq : p ≠ q := by omega
                  constructor
                  · rw [Bool.and_eq_true]
                    constructor
                    · simp
                      omega
                    · simpa using hpq
                  · show storeGet (storeArraySet st' q pair.1 w) p = st'[p]?
                    rw [storeArraySet_get_ne st' q pair.1 w p hpq]
                    rfl
                have hsing : readKidsP
                    (fun p => decide (N ≤ p) && !(p == q)) (Ga + 2)
                    (storeArraySet st' q pair.1 w) [(pair.1, w)]
                    = some [(pair.1, t0)] := by
                  rw [readKidsP_succ_cons]
                  simp only
                  rw [(readP_fuel_mono Ga).1 (Ga + 1) _ _ _ t0 hw''
                    (by omega)]
                  rfl
                have hcur'' : readKidsP
                    (fun p => decide (N ≤ p) && !(p == q)) g2
                    (storeArraySet st' q pair.1 w) (curo.getD [])
                    = some curts := by
                  refine (readP_transport g2).2 _ _ stA _ _ curts ?_ hcur
                  intro p hp hlt
                  rw [Bool.and_eq_true] at hp
                  have hpq : p ≠ q := by simpa using hp.2
                  refine ⟨by rw [Bool.and_eq_true]; exact hp, ?_⟩
                  show storeGet (storeArraySet st' q pair.1 w) p = stA[p]?
                  rw [storeArraySet_get_ne st' q pair.1 w p hpq]
                  exact hpres1 p hlt
                obtain ⟨Gc, hGc⟩ := readKidsP_append (curo.getD [])
                  [(pair.1, w)] g2 (Ga + 2) curts [(pair.1, t0)] hcur'' hsing
                obtain ⟨G3, h3⟩ := hreads g1 Gc tsr (curts ++ [(pair.1, t0)])
                  hkrest'' (by simpa using hGc)
                rw [List.append_assoc, List.singleton_append] at h3
                exact ⟨G3, h3⟩

theorem interpretMergeLoop_succ (f dst src i : Nat) (st : InterpreterState) :
    interpretMergeLoop (f + 1) dst src i st =
      match storeGet st.store src with
      | none => some (.Continue, st)
      | some node =>
        match node.children with
        | none => some (.Continue, st)
        | some ch =>
          match ch[i]? with
          | none => some (.Continue, st)
          | some pair =>
            match mValueCopy f st.store pair.2 with
            | none => none
            | some (store1, v') =>
              interpretMergeLoop f dst src (i + 1)
                {st with store := storeArraySet store1 dst pair.1 v'} := rfl

/-- The merge copy loop, with no aliasing restriction on the source and
destination nodes: it yields Continue, touches no errors, only grows the
store, and only rewrites the destination index among the pre-existing
ones.  The destination ends up binding, for every source child from
index `i` on, the child's key to a copied value: a scalar child copies
to the same scalar, and a child whose value-tree avoids the destination
node copies to a value denoting the same tree.  Keys outside the
remaining children keep their prior binding. -/
theorem mergeLoop_spec (dst src : Nat) :
    ∀ (f i : Nat) (st : InterpreterState) (node nodeD : MNode)
      (ch : List (String × MVal)) (r : CommandResult)
      (stF : InterpreterState),
      storeGet st.store src = some node →
      node.children = some ch →
      NodeSorted node →
      storeGet st.store dst = some nodeD →
      NodeSorted nodeD →
      interpretMergeLoop f dst src i st = some (r, stF) →
      r = .Continue ∧ stF.errors = st.errors ∧
      st.store.length ≤ stF.store.length ∧
      (∀ p, p ≠ dst → p < st.store.length → stF.store[p]? = st.store[p]?) ∧
      ∃ nodeD', storeGet stF.store dst = some nodeD' ∧ NodeSorted nodeD' ∧
        (∀ j, i ≤ j → ∀ (hj : j < ch.length), ∃ v',
          childFind? (nodeD'.children.getD []) (ch[j]).1 = some v' ∧
          (∀ s, (ch[j]).2 = .scalar s → v' = .scalar s) ∧
          (∀ (g : Nat) (t : MTree),
            readValP (fun p => !(p == dst)) g st.store (ch[j]).2 = some t →
            ∃ G, readValP (fun _ => true) G stF.store v' = some t)) ∧
        (∀ k, k ∉ (ch.drop i).map Prod.fst →
          childFind? (nodeD'.children.getD []) k =
            childFind? (nodeD.children.getD []) k) := by
  intro f
  induction f with
  | zero =>
    intro i st node nodeD ch r stF _ _ _ _ _ hloop
    simp [interpretMergeLoop, interpAt, interpNone] at hloop
  | succ f ih =>
    intro i st node nodeD ch r stF hsrc hch hsort hdst hsortD hloop
    rw [interpretMergeLoop_succ] at hloop
    simp only [hsrc, hch] at hloop
    cases hpair : ch[i]? with
    | none =>
      simp only [hpair] at hloop
      cases hloop
      refine ⟨rfl, rfl, le_refl _, fun p _ _ => rfl, nodeD, hdst, hsortD,
        ?_, fun k _ => rfl⟩
      intro j hij hj
      have hlen : ch.length ≤ i := List.getElem?_eq_none_iff.mp hpair
      omega
    | some pair =>
      simp only [hpair] at hloop
      cases hcopy : mValueCopy f st.store pair.2 with
      | none => simp only [hcopy] at hloop; cases hloop
      | some res =>
        obtain ⟨store1, w⟩ := res
        simp only [hcopy] at hloop
        have hplen : i < ch.length := (List.getElem?_eq_some_iff.mp hpair).1
        have hpe : ch[i] = pair := (List.getElem?_eq_some_iff.mp hpair).2
        have hsrclen : src < st.store.length := storeGet_lt hsrc
        have hdstlen : dst < st.store.length := storeGet_lt hdst
        obtain ⟨hlenc, hpresc⟩ := (mValueCopy_extends f).1 _ _ _ _ hcopy
        have hsetlen : (storeArraySet store1 dst pair.1 w).length =
            store1.length := storeArraySet_length _ _ _ _
        have hdst1 : storeGet store1 dst = some nodeD := by
          show store1[dst]? = some nodeD
          rw [hpresc dst hdstlen]
          exact hdst
        have hdst' : storeGet (storeArraySet store1 dst pair.1 w) dst =
            some (mArraySet nodeD pair.1 w) :=
          storeArraySet_get_same _ _ hdst1
        have hsortD' : NodeSorted (mArraySet nodeD pair.1 w) :=
          mArraySet_sorted hsortD
        have hsortc : ch.Pairwise (fun x y => StrLt x.1 y.1) := hsort ch hch
        have hnodup : (ch.map Prod.fst).Nodup := by
          have h0 := sorted_keys_nodup hsort
          unfold nodeKeys at h0
          rw [hch] at h0
          exact h0
        have hframeA : ∀ p, p ≠ dst → p < st.store.length →
            (storeArraySet store1 dst pair.1 w)[p]? = st.store[p]? := by
          intro p hp hlt
          have h1 : storeGet (storeArraySet store1 dst pair.1 w) p =
              storeGet store1 p := storeArraySet_get_ne _ _ _ _ _ hp
          have h2 : (storeArraySet store1 dst pair.1 w)[p]? = store1[p]? := h1
          rw [h2]
          exact hpresc p hlt
        -- the source node and its children after this iteration
        obtain ⟨node2, chrec, hsrc2, hch2, hsortN2, hlenrec, hsuffix⟩ :
            ∃ (node2 : MNode) (chrec : List (String × MVal)),
              storeGet (storeArraySet store1 dst pair.1 w) src = some node2 ∧
              node2.children = some chrec ∧ NodeSorted node2 ∧
              chrec.length = ch.length ∧
              (∀ j, i < j → chrec[j]? = ch[j]?) := by
          by_cases hsd : src = dst
          · have hnodeD : node = nodeD := by
              rw [hsd] at hsrc
              exact Option.some.inj (hsrc.symm.trans hdst)
            have hchD : nodeD.children = some ch := by
              rw [← hnodeD]
              exact hch
            have hset : mArraySet nodeD pair.1 w =
                ⟨nodeD.value, some (ch.set i (pair.1, w))⟩ :=
              mArraySet_existing w hchD hsortc hplen (by rw [hpe])
            refine ⟨mArraySet nodeD pair.1 w, ch.set i (pair.1, w),
              ?_, ?_, hsortD', by simp, ?_⟩
            · rw [hsd]
              exact hdst'
            · rw [hset]
            · intro j hij
              exact List.getElem?_set_ne (by omega)
          · refine ⟨node, ch, ?_, hch, hsort, rfl, fun j _ => rfl⟩
            have h1 : storeGet (storeArraySet store1 dst pair.1 w) src =
                storeGet store1 src := storeArraySet_get_ne _ _ _ _ _ hsd
            rw [h1]
            show store1[src]? = some node
            rw [hpresc src hsrclen]
            exact hsrc
        have hdropeq2 : chrec.drop (i + 1) = ch.drop (i + 1) := by
          apply List.ext_getElem?
          intro m
          rw [List.getElem?_drop, List.getElem?_drop]
          exact hsuffix (i + 1 + m) (by omega)
        obtain ⟨hr, herr, hlen2, hframe2, nodeD2, hget2, hsortD2, hentries2,
            hpres2⟩ :=
          ih (i + 1) {st with store := storeArraySet store1 dst pair.1 w}
            node2 (mArraySet nodeD pair.1 w) chrec r stF hsrc2 hch2 hsortN2
            hdst' hsortD' hloop
        have hlen2' : (storeArraySet store1 dst pair.1 w).length ≤
            stF.store.length := hlen2
        have hframe2' : ∀ p, p ≠ dst →
            p < (storeArraySet store1 dst pair.1 w).length →
            stF.store[p]? = (storeArraySet store1 dst pair.1 w)[p]? := hframe2
        obtain ⟨chS, hchS, hsortS, hfindS⟩ :=
          mArraySet_find nodeD pair.1 w hsortD
        have hchSgd : (mArraySet nodeD pair.1 w).children.getD [] = chS := by
          rw [hchS]
          rfl
        have hdropch : ch.drop i = ch[i] :: ch.drop (i + 1) :=
          (List.getElem_cons_drop ch i hplen).symm
        have hkeynodup : (ch[i]).1 ∉ (ch.drop (i + 1)).map Prod.fst := by
          have h1 : (ch.map Prod.fst).drop i =
              (ch[i]).1 :: (ch.drop (i + 1)).map Prod.fst := by
            rw [← List.map_drop, hdropch, List.map_cons]
          have h2 : ((ch.map Prod.fst.{0, 0}).drop i).Nodup :=
            hnodup.sublist (List.drop_sublist i _)
          rw [h1] at h2
          exact (List.nodup_cons.mp h2).1
        refine ⟨hr, herr, ?_, ?_, nodeD2, hget2, hsortD2, ?_, ?_⟩
        · omega
        · intro p hp hlt
          rw [hframe2' p hp (by omega)]
          exact hframeA p hp hlt
        · intro j hij hj
          rcases Nat.eq_or_lt_of_le hij with hje | hjl
          · -- entry i itself: bound to the copied value w
            subst hje
            refine ⟨w, ?_, ?_, ?_⟩
            · rw [hpres2 _ (by rw [hdropeq2]; exact hkeynodup)]
              rw [hchSgd, hfindS, if_pos (by rw [hpe])]
            · intro s hs
              rw [hpe] at hs
              rw [hs] at hcopy
              cases f with
              | zero => cases hcopy
              | succ f =>
                have h2 : (some (st.store, MVal.scalar s) :
                    Option (Store × MVal)) = some (store1, w) := hcopy
                cases h2
                rfl
            · intro g t hread
              rw [hpe] at hread
              have hreadT : readValP (fun _ => true) g st.store pair.2 =
                  some t :=
                (readP_transport g).1 _ _ st.store st.store _ t
                  (fun p _ _ => ⟨rfl, rfl⟩) hread
              obtain ⟨Ga, hGa⟩ :=
                (mValueCopy_reads f).1 _ _ _ _ hcopy g t hreadT
              have hGa2 : readValP (fun p => decide (st.store.length ≤ p)) Ga
                  (storeArraySet store1 dst pair.1 w) w = some t := by
                refine (readP_transport Ga).1 _ _ store1 _ _ t ?_ hGa
                intro p hdp hlt
                have hple : st.store.length ≤ p := by simpa using hdp
                have hpq : p ≠ dst := by omega
                refine ⟨hdp, ?_⟩
                show storeGet (storeArraySet store1 dst pair.1 w) p =
                  store1[p]?
                rw [storeArraySet_get_ne _ _ _ _ _ hpq]
                rfl
              refine ⟨Ga, ?_⟩
              refine (readP_transport Ga).1 _ _
                (storeArraySet store1 dst pair.1 w) _ _ t ?_ hGa2
              intro p hdp hlt
              have hple : st.store.length ≤ p := by simpa using hdp
              have hpq : p ≠ dst := by omega
              exact ⟨rfl, hframe2' p hpq hlt⟩
          · -- entries after i: by the induction hypothesis
            have hj2 : j < chrec.length := by omega
            have hjeq : chrec[j] = ch[j] := by
              have h1 := hsuffix j (by omega)
              rw [List.getElem?_eq_getElem hj2, List.getElem?_eq_getElem hj]
                at h1
              exact Option.some.inj h1
            obtain ⟨v', hfind', hscalar', htree'⟩ := hentries2 j (by omega) hj2
            rw [hjeq] at hfind' hscalar' htree'
            refine ⟨v', hfind', hscalar', ?_⟩
            intro g t hread
            refine htree' g t ?_
            refine (readP_transport g).1 _ _ st.store _ _ t ?_ hread
            intro p hp hlt
            have hpq : p ≠ dst := by simpa using hp
            exact ⟨hp, hframeA p hpq hlt⟩
        · intro k hk
          rw [hdropch, List.map_cons, List.mem_cons] at hk
          push_neg at hk
          rw [hpres2 k (by rw [hdropeq2]; exact hk.2)]
          rw [hchSgd, hfindS, if_neg (by rw [← hpe]; exact hk.1)]

theorem interpretMerge_succ (f : Nat) (pos : TextPos) (left right : VariableAst)
    (st : InterpreterState) :
    interpretMerge (f + 1) pos left right st =
      match interpretSubscripts f left.subscripts [] st with
      | none => none
      | some (none, st1) => some (.Halt, st1)
      | some (some ls, st1) =>
        match interpretSubscripts f right.subscripts [] st1 with
        | none => none
        | some (none, st2) => some (.Halt, st2)
        | some (some rs, st2) =>
          if left.name.text == right.name.text && commonAgree ls rs then
            some (.Halt, reportError "Cannot merge overlapping variables" pos st2)
          else
            match getOrCreateArrayAtSubscript f left ls.length (some ls) st2 with
            | none => none
            | some (none, st3) => some (.Halt, st3)
            | some (some dst, st3) =>
              match getVariable f right rs.length (some rs) st3 with
              | none => none
              | some (.undef, st4) => some (.Halt, st4)
              | some (.nullv, st4) => some (.Continue, st4)
              | some (.found (.scalar _), st4) => some (.Continue, st4)
              | some (.found (.ptr src), st4) =>
                match storeGet st4.store src with
                | none => some (.Continue, st4)
                | some node =>
                  match node.children with
                  | none => some (.Continue, st4)
                  | some _ => interpretMergeLoop f dst src 0 st4 := rfl

/-- C4 (amended): a Merge whose evaluated source and destination
subscript-value lists overlap (same variable name, element-wise equal on
the common prefix) reports an error and Halts, copying nothing.  When
they do not overlap and the run reaches the copy loop, the command
yields Continue with no error, and the destination ends up binding every
top-level subscript key of the source to a copy of that entry: a scalar
entry copies to the same scalar, and an entry whose value-tree does not
pass through the destination node copies to a value denoting the same
tree (the deep copy of `mValueCopy`); other keys keep their prior
destination binding.  The original claim's unconditional copy branch is
refuted twice by `claim4_counterexample_empty_subscript_merge`: an
empty-string destination subscript value makes the command Halt
silently, and a by-reference alias that places the destination node
inside the source's own entry makes that entry copy as already mutated
by the loop, not as it was before the merge. -/
theorem claim4_merge_overlap_and_copy
    (f : Nat) (pos : TextPos) (left right : VariableAst)
    (st st1 st2 st3 st4 stF : InterpreterState)
    (ls rs : List String) (dst src : Nat) (node nodeD : MNode)
    (ch : List (String × MVal)) (r : CommandResult)
    (hls : interpretSubscripts f left.subscripts [] st = some (some ls, st1))
    (hrs : interpretSubscripts f right.subscripts [] st1 = some (some rs, st2)) :
    ((left.name.text == right.name.text && commonAgree ls rs) = true →
      interpretMerge (f + 1) pos left right st =
        some (.Halt, reportError "Cannot merge overlapping variables" pos st2)) ∧
    ((left.name.text == right.name.text && commonAgree ls rs) = false →
      getOrCreateArrayAtSubscript f left ls.length (some ls) st2 =
        some (some dst, st3) →
      getVariable f right rs.length (some rs) st3 =
        some (.found (.ptr src), st4) →
      storeGet st4.store src = some node →
      node.children = some ch →
      NodeSorted node →
      storeGet st4.store dst = some nodeD →
      NodeSorted nodeD →
      interpretMergeLoop f dst src 0 st4 = some (r, stF) →
      interpretMerge (f + 1) pos left right st = some (.Continue, stF) ∧
        stF.errors = st4.errors ∧
        ∃ nodeD', storeGet stF.store dst = some nodeD' ∧
          (∀ j, ∀ (hj : j < ch.length), ∃ v',
            childFind? (nodeD'.children.getD []) (ch[j]).1 = some v' ∧
            (∀ s, (ch[j]).2 = .scalar s → v' = .scalar s) ∧
            (∀ (g : Nat) (t : MTree),
              readValP (fun p => !(p == dst)) g st4.store (ch[j]).2 = some t →
              ∃ G, readValP (fun _ => true) G stF.store v' = some t)) ∧
          (∀ k, k ∉ ch.map Prod.fst →
            childFind? (nodeD'.children.getD []) k =
              childFind? (nodeD.children.getD []) k)) := by
  constructor
  · intro hover
    rw [interpretMerge_succ]
    simp only [hls, hrs, hover, if_true]
  · intro hover hdest hsrcv hnode hch hsortsrc hdnode hsortdst hloop
    obtain ⟨hr, herr, _, _, nodeD', hget', _, hforall, hpres⟩ :=
      mergeLoop_spec dst src f 0 st4 node nodeD ch r stF
        hnode hch hsortsrc hdnode hsortdst hloop
    subst hr
    refine ⟨?_, herr, nodeD', hget',
      fun j hj => hforall j (Nat.zero_le j) hj, ?_⟩
    · rw [interpretMerge_succ]
      simp only [hls, hrs, hover, Bool.false_eq_true, if_false, hdest, hsrcv,
        hnode, hch]
      exact hloop
    · intro k hk
      exact hpres k (by simpa using hk)

/-- The source array `b`: `b("1") = 2` and `b("2")` an array with base
value `"sv"` and entry `b("2","x") = "y"` (stored at index 1). -/
def c4SrcNode : MNode :=
  ⟨.str "", some [("1", .scalar (.num 2 1)), ("2", .ptr 1)]⟩

def c4SubNode : MNode := ⟨.str "sv", some [("x", .scalar (.str "y"))]⟩

def c4Ch : List (String × MVal) := [("1", .scalar (.num 2 1)), ("2", .ptr 1)]

def c4Ast : TopLevelAst := ⟨[], []⟩

/-- Initial state: `b` bound to the source array. -/
def c4St : InterpreterState :=
  ⟨c4Ast, [], [[("b", .val (.ptr 0))]], [], [], [c4SrcNode, c4SubNode]⟩

/-- Destination variable `a` (no subscripts). -/
def c4Left : VariableAst := .mk tp0 tp0 ⟨tp0, tp0, "a"⟩ []

/-- Source variable `b` (no subscripts). -/
def c4Right : VariableAst := .mk tp0 tp0 ⟨tp0, tp0, "b"⟩ []

/-- Destination variable `a("")` with an empty-string subscript. -/
def c4LeftEmpty : VariableAst :=
  .mk tp0 tp0 ⟨tp0, tp0, "a"⟩ [.stringLit tp0 tp0 ""]

/-- Overlapping pair for the error branch: `x(1)` and `x`. -/
def c4LeftX : VariableAst :=
  .mk tp0 tp0 ⟨tp0, tp0, "x"⟩ [.numberLit tp0 tp0 1 1]

def c4RightX : VariableAst := .mk tp0 tp0 ⟨tp0, tp0, "x"⟩ []

/-- The state after `getOrCreateArrayAtSubscript` created `a`'s array
at store index 2. -/
def c4St3 : InterpreterState :=
  ⟨c4Ast, [],
    [[("b", .val (.ptr 0)), ("a", .val (.ptr 2))]], [], [],
    [c4SrcNode, c4SubNode, ⟨.str "", none⟩]⟩

/-- The final state of the copy loop of `merge a = b`. -/
def c4StF : InterpreterState :=
  match interpretMergeLoop 31 2 0 0 c4St3 with
  | some (_, s) => s
  | none => c4St3

/-- Aliasing scenario: `x` is a by-reference alias of `a` (the same
node), so the destination path `x("2")` is the node stored inside `a`'s
own entry `"2"`. -/
def c4AliasNodeA : MNode :=
  ⟨.str "", some [("1", .scalar (.str "s1")), ("2", .ptr 1)]⟩

def c4AliasSt : InterpreterState :=
  ⟨c4Ast, [], [[("a", .val (.ptr 0)), ("x", EnvEntry.ref 0 "a")]], [], [],
    [c4AliasNodeA, ⟨.str "q", none⟩]⟩

def c4AliasLeft : VariableAst :=
  .mk tp0 tp0 ⟨tp0, tp0, "x"⟩ [.stringLit tp0 tp0 "2"]

def c4AliasRight : VariableAst := .mk tp0 tp0 ⟨tp0, tp0, "a"⟩ []

/-- The state after `merge x("2") = a` in the aliasing scenario. -/
def c4AliasStF : InterpreterState :=
  match interpretMerge 32 tp0 c4AliasLeft c4AliasRight c4AliasSt with
  | some (_, s) => s
  | none => c4AliasSt

/-- C4 counterexample, refuting the original copy branch twice.  First,
`merge` from `b` into destination path `a("")`: the empty-string
subscript value trips the falsy key test inside
`getOrCreateArrayAtSubscript`, so the command Halts with no error
recorded and copies nothing (the freshly created destination node stays
childless).  Second, `merge x("2") = a` where `x` is a by-reference
alias of `a`: the destination node is `a`'s own entry `"2"`, whose value
denoted the tree `node "q" []` before the merge; the loop's first
iteration writes into that node, and the second iteration then copies
the already-mutated node, so the destination's entry `"2"` ends up
denoting `node "q" [("1", leaf "s1")]` — not a copy of the source's
original entry. -/
theorem claim4_counterexample_empty_subscript_merge :
    ((interpretMerge 32 tp0 c4LeftEmpty c4Right c4St).map
        (fun r => (r.1, r.2.errors)) = some (.Halt, []) ∧
      (match interpretMerge 32 tp0 c4LeftEmpty c4Right c4St with
        | some (_, s) => storeGet s.store 2
        | none => none) = some ⟨.str "", none⟩) ∧
    (interpretMerge 32 tp0 c4AliasLeft c4AliasRight c4AliasSt =
        some (.Continue, c4AliasStF) ∧
      readValP (fun _ => true) 3 c4AliasSt.store (.ptr 1) =
        some (.node (.str "q") []) ∧
      (match storeGet c4AliasStF.store 1 with
        | some nd => childFind? (nd.children.getD []) "2"
        | none => none) = some (.ptr 2) ∧
      readValP (fun _ => true) 3 c4AliasStF.store (.ptr 2) =
        some (.node (.str "q") [("1", .leaf (.str "s1"))])) :=
  ⟨⟨rfl, rfl⟩, rfl, rfl, rfl, rfl⟩

theorem claim4_witness :
    (interpretMerge 32 tp0 c4LeftX c4RightX c4St =
      some (.Halt,
        reportError "Cannot merge overlapping variables" tp0 c4St)) ∧
    (interpretMerge 32 tp0 c4Left c4Right c4St = some (.Continue, c4StF) ∧
      c4StF.errors = c4St3.errors ∧
      ∃ nodeD', storeGet c4StF.store 2 = some nodeD' ∧
        (∀ j, ∀ (hj : j < c4Ch.length), ∃ v',
          childFind? (nodeD'.children.getD []) (c4Ch[j]).1 = some v' ∧
          (∀ s, (c4Ch[j]).2 = .scalar s → v' = .scalar s) ∧
          (∀ (g : Nat) (t : MTree),
            readValP (fun p => !(p == 2)) g c4St3.store (c4Ch[j]).2 = some t →
            ∃ G, readValP (fun _ => true) G c4StF.store v' = some t)) ∧
        (∀ k, k ∉ c4Ch.map Prod.fst →
          childFind? (nodeD'.children.getD []) k =
            childFind? (((⟨.str "", none⟩ : MNode)).children.getD []) k)) ∧
    (readValP (fun p => !(p == 2)) 4 c4St3.store (.ptr 1) =
      some (.node (.str "sv") [("x", .leaf (.str "y"))])) :=
  ⟨(claim4_merge_overlap_and_copy 31 tp0 c4LeftX c4RightX c4St c4St c4St c4St
      c4St c4St ["1"] [] 0 0 c4SrcNode c4SrcNode [] .Halt rfl rfl).1 rfl,
    (claim4_merge_overlap_and_copy 31 tp0 c4Left c4Right c4St c4St c4St c4St3
      c4St3 c4StF [] [] 2 0 c4SrcNode ⟨.str "", none⟩ c4Ch .Continue rfl
      rfl).2 rfl rfl rfl rfl rfl
      (by intro c hc; cases hc; decide) rfl
      (by intro c hc; cases hc) rfl,
    rfl⟩

/-! ## Tokenizer

Modelled from the spec: the repository's `tokenizer.ts` holds only two
older snapshots (neither produces operator/comment/colon tokens or token
positions, which `parser.ts` requires), so the tokenizer is modelled
from spec section 4.1, with positions carrying the token index as the
column per section 6 ("column: number (token index, not true character
column)") — the `no indent` test expecting column 2 pins this down. -/

inductive TokenKind where
  | LeadingWhitespace
  | TrailingWhitespace
  | Space
  | Identifier
  | Number
  | String
  | LeftParen
  | RightParen
  | Comma
  | Caret
  | Dollar
  | Hash
  | Dot
  | Plus
  | Minus
  | Asterisk
  | ForwardSlash
  | Underscore
  | ExclamationPoint
  | Ampersand
  | Equals
  | LessThan
  | GreaterThan
  | SingleQuote
  | Colon
  | Comment
deriving DecidableEq, Repr

/-- A token: kind, position range (line, token index), and the payload
fields used by the identifier / number / string kinds. -/
structure Token where
  kind : TokenKind
  startPos : TextPos
  endPos : TextPos
  text : String
  numVal : Int × Int
  strVal : String
deriving DecidableEq, Repr

def mkTok (k : TokenKind) (y i : Nat) : Token := ⟨k, ⟨y, i⟩, ⟨y, i⟩, "", (0, 1), ""⟩

def mkIdentTok (y i : Nat) (t : String) : Token :=
  ⟨.Identifier, ⟨y, i⟩, ⟨y, i⟩, t, (0, 1), ""⟩

def mkNumTok (y i : Nat) (p : Int × Int) : Token :=
  ⟨.Number, ⟨y, i⟩, ⟨y, i⟩, "", p, ""⟩

def mkStrTok (y i : Nat) (v : String) : Token :=
  ⟨.String, ⟨y, i⟩, ⟨y, i⟩, "", (0, 1), v⟩

def isAlphaChar (c : Char) : Bool :=
  (65 ≤ c.val.toNat && c.val.toNat ≤ 90) || (97 ≤ c.val.toNat && c.val.toNat ≤ 122)

def isAlphaNumChar (c : Char) : Bool := isAlphaChar c || isDigitChar c

def digitsVal (l : List Char) : Nat := l.foldl (fun a c => a * 10 + digitVal c) 0

/-- String-literal scan after the opening quote: a doubled `""` is an
escaped literal quote; returns the value, the rest of the line, and
whether the closing quote was found. -/
def scanStringLit : List Char → List Char → String × List Char × Bool
  | [], acc => (String.mk acc.reverse, [], false)
  | '"' :: '"' :: cs, acc => scanStringLit cs ('"' :: acc)
  | '"' :: cs, acc => (String.mk acc.reverse, cs, true)
  | c :: cs, acc => scanStringLit cs (c :: acc)

/-- The single-character punctuation and operator kinds. -/
def punctKind (c : Char) : Option TokenKind :=
  match c with
  | '(' => some .LeftParen
  | ')' => some .RightParen
  | ',' => some .Comma
  | '^' => some .Caret
  | '$' => some .Dollar
  | '#' => some .Hash
  | '.' => some .Dot
  | '+' => some .Plus
  | '-' => some .Minus
  | '*' => some .Asterisk
  | '/' => some .ForwardSlash
  | '_' => some .Underscore
  | '!' => some .ExclamationPoint
  | '&' => some .Ampersand
  | '=' => some .Equals
  | '<' => some .LessThan
  | '>' => some .GreaterThan
  | '\'' => some .SingleQuote
  | ':' => some .Colon
  | _ => none

/-- Left-to-right scan of one (already trimmed) line: identifiers are an
alphabetic character followed by alphanumerics, numbers are a digit run
with an optional fractional part, `;` starts a comment running to line
end, an unknown character is reported and skipped.  Fuel is the line
length plus one (every step consumes at least one character). -/
def scanTokens : Nat → List Char → Nat → Nat → List Token × List MError
  | 0, _, _, _ => ([], [])
  | _ + 1, [], _, _ => ([], [])
  | fuel + 1, c :: cs, y, idx =>
    if isAlphaChar c then
      let rest := cs.takeWhile isAlphaNumChar
      let tok := mkIdentTok y idx (String.mk (c :: rest))
      let (toks, errs) := scanTokens fuel (cs.drop rest.length) y (idx + 1)
      (tok :: toks, errs)
    else if isDigitChar c then
      let intPart := (c :: cs).takeWhile isDigitChar
      let rest := (c :: cs).drop intPart.length
      let scanned : (Int × Int) × List Char :=
        match rest with
        | '.' :: d :: _ =>
          if isDigitChar d then
            let fracPart := (rest.drop 1).takeWhile isDigitChar
            ((((digitsVal intPart * 10 ^ fracPart.length + digitsVal fracPart : Nat) :
                Int), (10 : Int) ^ fracPart.length),
              (rest.drop 1).drop fracPart.length)
          else ((((digitsVal intPart : Nat) : Int), (1 : Int)), rest)
        | _ => ((((digitsVal intPart : Nat) : Int), (1 : Int)), rest)
      let tok := mkNumTok y idx scanned.1
      let (toks, errs) := scanTokens fuel scanned.2 y (idx + 1)
      (tok :: toks, errs)
    else if c = '"' then
      let scanned := scanStringLit cs []
      let tok := mkStrTok y idx scanned.1
      let (toks, errs) := scanTokens fuel scanned.2.1 y (idx + 1)
      if scanned.2.2 then (tok :: toks, errs)
      else (tok :: toks, ⟨"Unterminated string", y, idx⟩ :: errs)
    else if c = ' ' then
      let (toks, errs) := scanTokens fuel cs y (idx + 1)
      (mkTok .Space y idx :: toks, errs)
    else if c = ';' then
      ([mkTok .Comment y idx], [])
    else
      match punctKind c with
      | some k =>
        let (toks, errs) := scanTokens fuel cs y (idx + 1)
        (mkTok k y idx :: toks, errs)
      | none =>
        let (toks, errs) := scanTokens fuel cs y idx
        (toks, ⟨"Unexpected character " ++ String.mk [c], y, idx⟩ :: errs)

/-- One line: trim trailing whitespace, emit a LeadingWhitespace token
for a non-empty leading run, scan, and close with the TrailingWhitespace
sentinel. -/
def tokenizeLine (s : String) (y : Nat) : List Token × List MError :=
  let cs := (s.data.reverse.dropWhile isSpaceChar).reverse
  let lead := cs.takeWhile isSpaceChar
  let rest := cs.drop lead.length
  let bootstrap : List Token × Nat :=
    if lead.length > 0 then ([mkTok .LeadingWhitespace y 0], 1) else ([], 0)
  let (toks, errs) := scanTokens (rest.length + 1) rest y bootstrap.2
  (bootstrap.1 ++ toks ++ [mkTok .TrailingWhitespace y (bootstrap.2 + toks.length)],
    errs)

/-- Split on `\r?\n`. -/
def splitLinesGo : List Char → List Char → List String
  | [], cur => [String.mk cur.reverse]
  | '\r' :: '\n' :: cs, cur => String.mk cur.reverse :: splitLinesGo cs []
  | '\n' :: cs, cur => String.mk cur.reverse :: splitLinesGo cs []
  | c :: cs, cur => splitLinesGo cs (c :: cur)

def splitSourceLines (s : String) : List String := splitLinesGo s.data []

abbrev TokenLines := List (List Token)

/-- `tokenize(source) -> (tokenizedLines, errors)` (spec section 4.1). -/
def tokenize (script : String) : TokenLines × List MError :=
  let lines := splitSourceLines script
  let step := fun (acc : TokenLines × List MError) (p : String × Nat) =>
    let r := tokenizeLine p.1 p.2
    (acc.1 ++ [r.1], acc.2 ++ r.2)
  (lines.zip (List.range lines.length)).foldl step ([], [])

/-! ## AST position accessors used by the parser -/

def VariableAst.endPos : VariableAst → TextPos
  | .mk _ e _ _ => e

def CallAst.endPos : CallAst → TextPos
  | .mk _ e _ _ => e

def ExtractAst.endPos : ExtractAst → TextPos
  | .mk _ e _ => e

def ExpressionAst.startPos : ExpressionAst → TextPos
  | .variableNode v => v.startPos
  | .numberLit s _ _ _ => s
  | .stringLit s _ _ => s
  | .call c => c.startPos
  | .unaryOp s _ _ _ => s
  | .binaryOp s _ _ _ _ _ => s
  | .orderBuiltin s _ _ => s
  | .lengthBuiltin s _ _ => s
  | .extractBuiltin e => e.startPos
  | .selectBuiltin s _ _ => s

def ExpressionAst.endPos : ExpressionAst → TextPos
  | .variableNode v => v.endPos
  | .numberLit _ e _ _ => e
  | .stringLit _ e _ => e
  | .call c => c.endPos
  | .unaryOp _ e _ _ => e
  | .binaryOp _ e _ _ _ _ => e
  | .orderBuiltin _ e _ => e
  | .lengthBuiltin _ e _ => e
  | .extractBuiltin e => e.endPos
  | .selectBuiltin _ e _ => e

def CommandBodyAst.endPos : CommandBodyAst → TextPos
  | .comment _ e => e
  | .write _ e _ => e
  | .quit _ e _ => e
  | .doBlock _ e _ => e
  | .ifCmd _ e _ _ => e
  | .elseCmd _ e _ => e
  | .forCmd _ e _ _ => e
  | .set _ e _ => e
  | .newCmd _ e _ => e
  | .kill _ e _ => e
  | .merge _ e _ _ => e
  | .halt _ e => e
  | .callCmd c => c.endPos

/-- Case-insensitive lowering of ASCII letters. -/
def lowerChar (c : Char) : Char :=
  if 65 ≤ c.val.toNat && c.val.toNat ≤ 90 then Char.ofNat (c.val.toNat + 32) else c

def lowerStr (s : String) : String := String.mk (s.data.map lowerChar)

def prefixGo : List Char → List Char → Bool
  | [], _ => true
  | _ :: _, [] => false
  | a :: as_, b :: bs => a = b && prefixGo as_ bs

/-- Is `p` a prefix of `s`?  (The `"write".startsWith(name)` command and
builtin abbreviation dispatch.) -/
def isPrefixOfStr (p s : String) : Bool :=
  prefixGo p.data s.data
/-! ## Parser (`parser.ts` lines 1-1303, the newest snapshot in the file)

Translated from the recursive-descent parser.  Like the interpreter, the
mutually recursive productions are a fuel-indexed family (`parseAt`);
the outer `none` is fuel exhaustion, the inner `none` is the JavaScript
`undefined` of a failed production.  Version-skew bridges to the
interpreter's syntax tree are noted where they occur: the snapshot's
`Builtin` node (Order/Length only, incompatible with the interpreter's
four builtin node kinds) is replaced by builtin parsing modelled from
spec section 4.2 ($Order/$Length/$Extract/$Select by case-insensitive
prefix match), Kill arguments (bare identifiers here) are wrapped as
subscript-free variables, and Set targets are always plain variables
(extract-target assignment comes from the newer parser missing from the
repository's files). -/

structure PState where
  line : Nat
  column : Nat
  nextUnparsedLine : Nat
  indentationLevel : Nat
  errors : List MError
deriving Repr

/-- `getToken`: out-of-range access (which would crash in JavaScript) is
unreachable — every line ends with the never-advancing sentinel — and
yields a sentinel token. -/
def getTokenP (input : TokenLines) (st : PState) : Token :=
  match input[st.line]? with
  | some toks =>
    match toks[st.column]? with
    | some t => t
    | none => mkTok .TrailingWhitespace st.line st.column
  | none => mkTok .TrailingWhitespace st.line st.column

/-- `nextToken`: advances past anything but the trailing sentinel. -/
def nextTokenP (input : TokenLines) (st : PState) : Token × PState :=
  let t := getTokenP input st
  if t.kind = .TrailingWhitespace then (t, st)
  else (t, {st with column := st.column + 1})

/-- `matchToken`. -/
def matchTokenP (input : TokenLines) (st : PState) (k : TokenKind) :
    Option Token × PState :=
  let t := getTokenP input st
  if t.kind = k then
    let r := nextTokenP input st
    (some r.1, r.2)
  else (none, st)

/-- `getWhitespace`. -/
def getWhitespaceP (input : TokenLines) (st : PState) : Bool :=
  let k := (getTokenP input st).kind
  k = .Space || k = .TrailingWhitespace || k = .LeadingWhitespace

/-- `matchWhitespace`. -/
def matchWhitespaceP (input : TokenLines) (st : PState) : Bool × PState :=
  if getWhitespaceP input st then (true, (nextTokenP input st).2)
  else (false, st)

/-- `reportError` (parser). -/
def reportErrorP (message : String) (input : TokenLines) (st : PState) : PState :=
  let t := getTokenP input st
  {st with errors := st.errors ++ [⟨message, t.startPos.line, t.startPos.column⟩]}

/-- `reportErrorAt` (parser). -/
def reportErrorAtP (message : String) (t : Token) (st : PState) : PState :=
  {st with errors := st.errors ++ [⟨message, t.startPos.line, t.startPos.column⟩]}

def jumpToLineP (l : Nat) (st : PState) : PState :=
  {st with column := 0, line := l, nextUnparsedLine := l + 1}

def moveToNextUnparsedLineP (st : PState) : PState :=
  jumpToLineP st.nextUnparsedLine st

/-- The dot-indentation check inside `parseBlock` (lines 702-712):
`some b` reports whether the block ended, `none` is the hard error of a
dot without a following space. -/
def matchDots (input : TokenLines) : Nat → PState → Option Bool × PState
  | 0, st => (some false, st)
  | i + 1, st =>
    match matchTokenP input st .Dot with
    | (none, st1) => (some true, st1)
    | (some _, st1) =>
      match matchTokenP input st1 .Space with
      | (none, st2) => (none, reportErrorP "Expected space after dot" input st2)
      | (some _, st2) => matchDots input i st2

/-- The parser productions at a fixed fuel level. -/
structure ParseFns where
  parseArgsF : TokenLines → PState → Option (Option (List CallArgAst) × PState)
  parseArgsLoopF : TokenLines → List CallArgAst → PState →
    Option (Option (List CallArgAst) × PState)
  parseSubscriptsF : TokenLines → PState →
    Option (Option (List ExpressionAst) × PState)
  parseSubscriptsLoopF : TokenLines → List ExpressionAst → PState →
    Option (Option (List ExpressionAst) × PState)
  parseCallF : TokenLines → PState → Option (Option CallAst × PState)
  parseVariableF : TokenLines → PState → Option (Option VariableAst × PState)
  parseBuiltinF : TokenLines → PState → Option (Option ExpressionAst × PState)
  parseSelectArgsLoopF : TokenLines → List SelectArgAst → PState →
    Option (Option (List SelectArgAst) × PState)
  parsePrimaryF : TokenLines → PState → Option (Option ExpressionAst × PState)
  parseUnaryOpF : TokenLines → PState → Option (Option ExpressionAst × PState)
  parseExpressionF : TokenLines → PState → Option (Option ExpressionAst × PState)
  parseExpressionLoopF : TokenLines → ExpressionAst → PState →
    Option (Option ExpressionAst × PState)
  parseBlockF : TokenLines → Bool → PState →
    Option (Option (List CommandAst) × PState)
  parseBlockLoopF : TokenLines → Bool → List CommandAst → PState →
    Option (Option (List CommandAst) × PState)
  parseWriteF : TokenLines → PState → Option (Option CommandBodyAst × PState)
  parseWriteLoopF : TokenLines → List WriteArgAst → PState →
    Option (Option (List WriteArgAst) × PState)
  parseQuitF : TokenLines → PState → Option (Option CommandBodyAst × PState)
  parseDoF : TokenLines → PState → Option (Option CommandBodyAst × PState)
  parseTrailingCommandsF : TokenLines → List CommandAst → PState →
    Option (Option (List CommandAst) × PState)
  parseIfF : TokenLines → PState → Option (Option CommandBodyAst × PState)
  parseIfCondLoopF : TokenLines → List ExpressionAst → PState →
    Option (Option (List ExpressionAst) × PState)
  parseElseF : TokenLines → PState → Option (Option CommandBodyAst × PState)
  parseForArgumentF : TokenLines → PState → Option (Option ForArgAst × PState)
  parseForExprLoopF : TokenLines → Nat → List ExpressionAst → PState →
    Option (Option (List ExpressionAst) × PState)
  parseForF : TokenLines → PState → Option (Option CommandBodyAst × PState)
  parseSetF : TokenLines → PState → Option (Option CommandBodyAst × PState)
  parseSetLoopF : TokenLines → List SetArgAst → PState →
    Option (Option (List SetArgAst) × PState)
  parseIdentifierListF : TokenLines → PState →
    Option (Option (List IdentifierAst) × PState)
  parseExpressionListF : TokenLines → PState →
    Option (Option (List ExpressionAst) × PState)
  parseNewF : TokenLines → PState → Option (Option CommandBodyAst × PState)
  parseKillF : TokenLines → PState → Option (Option CommandBodyAst × PState)
  parseCommandF : TokenLines → PState → Option (Option CommandAst × PState)
  parseTagF : TokenLines → PState →
    Option (Option (Option (List String)) × PState)
  parseTagParamsLoopF : TokenLines → Nat → List String → PState →
    Option (List String × PState)
  parseTopLevelF : TokenLines → PState → Option (Option TopLevelAst × PState)
  parseTopLevelLoopF : TokenLines → List (String × Tag) → List CommandAst →
    PState → Option (Option TopLevelAst × PState)

/-- The exhausted-fuel family. -/
def parseNone : ParseFns where
  parseArgsF := fun _ _ => none
  parseArgsLoopF := fun _ _ _ => none
  parseSubscriptsF := fun _ _ => none
  parseSubscriptsLoopF := fun _ _ _ => none
  parseCallF := fun _ _ => none
  parseVariableF := fun _ _ => none
  parseBuiltinF := fun _ _ => none
  parseSelectArgsLoopF := fun _ _ _ => none
  parsePrimaryF := fun _ _ => none
  parseUnaryOpF := fun _ _ => none
  parseExpressionF := fun _ _ => none
  parseExpressionLoopF := fun _ _ _ => none
  parseBlockF := fun _ _ _ => none
  parseBlockLoopF := fun _ _ _ _ => none
  parseWriteF := fun _ _ => none
  parseWriteLoopF := fun _ _ _ => none
  parseQuitF := fun _ _ => none
  parseDoF := fun _ _ => none
  parseTrailingCommandsF := fun _ _ _ => none
  parseIfF := fun _ _ => none
  parseIfCondLoopF := fun _ _ _ => none
  parseElseF := fun _ _ => none
  parseForArgumentF := fun _ _ => none
  parseForExprLoopF := fun _ _ _ _ => none
  parseForF := fun _ _ => none
  parseSetF := fun _ _ => none
  parseSetLoopF := fun _ _ _ => none
  parseIdentifierListF := fun _ _ => none
  parseExpressionListF := fun _ _ => none
  parseNewF := fun _ _ => none
  parseKillF := fun _ _ => none
  parseCommandF := fun _ _ => none
  parseTagF := fun _ _ => none
  parseTagParamsLoopF := fun _ _ _ _ => none
  parseTopLevelF := fun _ _ => none
  parseTopLevelLoopF := fun _ _ _ _ => none

/-- One fuel level of the parser; each field is the corresponding
`parser.ts` function's body with every call through the next-lower
family `I`. -/
def parseStep (I : ParseFns) : ParseFns where
  parseArgsF := fun input st =>
    match matchTokenP input st .LeftParen with
    | (none, st1) => some (some [], st1)
    | (some _, st1) =>
      match I.parseArgsLoopF input [] st1 with
      | none => none
      | some (none, st2) => some (none, st2)
      | some (some args, st2) =>
        match matchTokenP input st2 .RightParen with
        | (none, st3) =>
          some (none, reportErrorP "Unterminated argument list" input st3)
        | (some _, st3) => some (some args, st3)
  parseArgsLoopF := fun input args st =>
    if (getTokenP input st).kind = .RightParen then some (some args, st)
    else
      match matchTokenP input st .Dot with
      | (some dot, st1) =>
        match matchTokenP input st1 .Identifier with
        | (none, st2) =>
          some (none,
            reportErrorP "Expected variable name to reference" input st2)
        | (some name, st2) =>
          let arg := CallArgAst.reference dot.startPos name.endPos
            ⟨name.startPos, name.endPos, name.text⟩
          match matchTokenP input st2 .Comma with
          | (none, st3) => some (some (args ++ [arg]), st3)
          | (some _, st3) => I.parseArgsLoopF input (args ++ [arg]) st3
      | (none, st1) =>
        match I.parseExpressionF input st1 with
        | none => none
        | some (none, st2) => some (some args, st2)
        | some (some e, st2) =>
          match matchTokenP input st2 .Comma with
          | (none, st3) => some (some (args ++ [.expr e]), st3)
          | (some _, st3) => I.parseArgsLoopF input (args ++ [.expr e]) st3
  parseSubscriptsF := fun input st =>
    match matchTokenP input st .LeftParen with
    | (none, st1) => some (some [], st1)
    | (some _, st1) =>
      match I.parseSubscriptsLoopF input [] st1 with
      | none => none
      | some (none, st2) => some (none, st2)
      | some (some args, st2) =>
        match matchTokenP input st2 .RightParen with
        | (none, st3) =>
          some (none, reportErrorP "Unterminated subscript list" input st3)
        | (some _, st3) => some (some args, st3)
  parseSubscriptsLoopF := fun input args st =>
    if (getTokenP input st).kind = .RightParen then some (some args, st)
    else
      match I.parseExpressionF input st with
      | none => none
      | some (none, st1) => some (some args, st1)
      | some (some e, st1) =>
        match matchTokenP input st1 .Comma with
        | (none, st2) => some (some (args ++ [e]), st2)
        | (some _, st2) => I.parseSubscriptsLoopF input (args ++ [e]) st2
  parseCallF := fun input st =>
    let nameToken := getTokenP input st
    if nameToken.kind = .Identifier then
      let st1 := (nextTokenP input st).2
      match I.parseArgsF input st1 with
      | none => none
      | some (none, st2) => some (none, st2)
      | some (some args, st2) =>
        let lastToken := getTokenP input st2
        some (some (.mk nameToken.startPos lastToken.endPos
          ⟨nameToken.startPos, nameToken.endPos, nameToken.text⟩ args), st2)
    else some (none, reportErrorP "Expected an identifier" input st)
  parseVariableF := fun input st =>
    match matchTokenP input st .Identifier with
    | (none, st1) =>
      some (none,
        reportErrorP "Expected variable to start with an identifier" input st1)
    | (some firstToken, st1) =>
      match I.parseSubscriptsF input st1 with
      | none => none
      | some (none, st2) => some (none, st2)
      | some (some subscripts, st2) =>
        let lastToken := getTokenP input st2
        some (some (.mk firstToken.startPos lastToken.endPos
          ⟨firstToken.startPos, firstToken.endPos, firstToken.text⟩
          subscripts), st2)
  parseBuiltinF := fun input st =>
    match matchTokenP input st .Identifier with
    | (none, st1) => some (none, reportErrorP "Expected builtin name" input st1)
    | (some builtinName, st1) =>
      match matchTokenP input st1 .LeftParen with
      | (none, st2) =>
        some (none,
          reportErrorP "Expected argument list after builtin name" input st2)
      | (some _, st2) =>
        let lower := lowerStr builtinName.text
        if isPrefixOfStr lower "order" then
          match I.parseVariableF input st2 with
          | none => none
          | some (none, st3) => some (none, st3)
          | some (some v, st3) =>
            match matchTokenP input st3 .RightParen with
            | (none, st4) =>
              some (none, reportErrorP "Unterminated argument list" input st4)
            | (some _, st4) =>
              some (some (.orderBuiltin builtinName.startPos builtinName.endPos v),
                st4)
        else if isPrefixOfStr lower "length" then
          match I.parseExpressionF input st2 with
          | none => none
          | some (none, st3) => some (none, st3)
          | some (some e, st3) =>
            match matchTokenP input st3 .RightParen with
            | (none, st4) =>
              some (none, reportErrorP "Unterminated argument list" input st4)
            | (some _, st4) =>
              some (some (.lengthBuiltin builtinName.startPos builtinName.endPos e),
                st4)
        else if isPrefixOfStr lower "extract" then
          match I.parseExpressionListF input st2 with
          | none => none
          | some (none, st3) => some (none, st3)
          | some (some args, st3) =>
            match matchTokenP input st3 .RightParen with
            | (none, st4) =>
              some (none, reportErrorP "Unterminated argument list" input st4)
            | (some _, st4) =>
              some (some (.extractBuiltin
                (.mk builtinName.startPos builtinName.endPos args)), st4)
        else if isPrefixOfStr lower "select" then
          match I.parseSelectArgsLoopF input [] st2 with
          | none => none
          | some (none, st3) => some (none, st3)
          | some (some args, st3) =>
            match matchTokenP input st3 .RightParen with
            | (none, st4) =>
              some (none, reportErrorP "Unterminated argument list" input st4)
            | (some _, st4) =>
              some (some (.selectBuiltin builtinName.startPos builtinName.endPos
                args), st4)
        else some (none, reportErrorAtP "Unrecognized builtin" builtinName st2)
  parseSelectArgsLoopF := fun input args st =>
    match I.parseExpressionF input st with
    | none => none
    | some (none, st1) => some (none, st1)
    | some (some condition, st1) =>
      match matchTokenP input st1 .Colon with
      | (none, st2) =>
        some (none,
          reportErrorP "Expected colon after select condition" input st2)
      | (some _, st2) =>
        match I.parseExpressionF input st2 with
        | none => none
        | some (none, st3) => some (none, st3)
        | some (some value, st3) =>
          let args' := args ++ [SelectArgAst.mk condition value]
          match matchTokenP input st3 .Comma with
          | (none, st4) => some (some args', st4)
          | (some _, st4) => I.parseSelectArgsLoopF input args' st4
  parsePrimaryF := fun input st =>
    let firstToken := getTokenP input st
    if firstToken.kind = .Dollar then
      let st1 := (nextTokenP input st).2
      match matchTokenP input st1 .Dollar with
      | (none, st2) => I.parseBuiltinF input st2
      | (some _, st2) =>
        match I.parseCallF input st2 with
        | none => none
        | some (none, st3) => some (none, st3)
        | some (some c, st3) => some (some (.call c), st3)
    else
      match firstToken.kind with
      | .String =>
        let st1 := (nextTokenP input st).2
        some (some (.stringLit firstToken.startPos firstToken.endPos
          firstToken.strVal), st1)
      | .Number =>
        let st1 := (nextTokenP input st).2
        some (some (.numberLit firstToken.startPos firstToken.endPos
          firstToken.numVal.1 firstToken.numVal.2), st1)
      | .Identifier =>
        match I.parseVariableF input st with
        | none => none
        | some (none, st1) => some (none, st1)
        | some (some v, st1) => some (some (.variableNode v), st1)
      | .LeftParen =>
        let st1 := (nextTokenP input st).2
        match I.parseExpressionF input st1 with
        | none => none
        | some (none, st2) => some (none, st2)
        | some (some e, st2) =>
          match matchTokenP input st2 .RightParen with
          | (none, st3) =>
            some (none, reportErrorP "Unterminated parenthesis" input st3)
          | (some _, st3) => some (some e, st3)
      | _ => some (none, reportErrorP "Expected an expression" input st)
  parseUnaryOpF := fun input st =>
    let token := getTokenP input st
    let op : Option UnaryOp :=
      match token.kind with
      | .SingleQuote => some .Not
      | .Minus => some .Minus
      | .Plus => some .Plus
      | _ => none
    match op with
    | none => I.parsePrimaryF input st
    | some op =>
      let st1 := (nextTokenP input st).2
      match I.parsePrimaryF input st1 with
      | none => none
      | some (none, st2) => some (none, st2)
      | some (some right, st2) =>
        some (some (.unaryOp token.startPos right.endPos op right), st2)
  parseExpressionF := fun input st =>
    match I.parseUnaryOpF input st with
    | none => none
    | some (none, st1) => some (none, st1)
    | some (some left, st1) => I.parseExpressionLoopF input left st1
  parseExpressionLoopF := fun input left st =>
    let mtch := matchTokenP input st .SingleQuote
    let isNegated := mtch.1.isSome
    let st1 := mtch.2
    let token := getTokenP input st1
    let cmpOp : Option BinaryOp :=
      match token.kind with
      | .ExclamationPoint => some .Or
      | .Ampersand => some .And
      | .Equals => some .Equals
      | .LessThan => some .LessThan
      | .GreaterThan => some .GreaterThan
      | _ => none
    let op : Option BinaryOp :=
      match cmpOp with
      | some o => some o
      | none =>
        if isNegated then none
        else
          match token.kind with
          | .Plus => some .Add
          | .Minus => some .Subtract
          | .Asterisk => some .Multiply
          | .ForwardSlash => some .Divide
          | .Underscore => some .Concatenate
          | _ => none
    match op with
    | none => some (some left, st1)
    | some op =>
      let st2 := (nextTokenP input st1).2
      match I.parseUnaryOpF input st2 with
      | none => none
      | some (none, st3) => some (none, st3)
      | some (some right, st3) =>
        I.parseExpressionLoopF input
          (.binaryOp left.startPos right.endPos op isNegated left right) st3
  parseBlockF := fun input startOnNextLine st =>
    I.parseBlockLoopF input startOnNextLine [] st
  parseBlockLoopF := fun input startOnNextLine commands st =>
    if st.line < input.length &&
        (startOnNextLine || (getTokenP input st).kind = .TrailingWhitespace) then
      let st1 := moveToNextUnparsedLineP st
      if input.length ≤ st1.line then some (some commands, st1)
      else
        let startColumn := st1.column
        match matchTokenP input st1 .LeadingWhitespace with
        | (none, st2) =>
          some (some commands, {st2 with column := startColumn})
        | (some _, st2) =>
          match matchDots input st2.indentationLevel st2 with
          | (none, st3) => some (none, st3)
          | (some true, st3) =>
            some (some commands, {st3 with column := startColumn})
          | (some false, st3) => I.parseBlockLoopF input false commands st3
    else
      match I.parseCommandF input st with
      | none => none
      | some (none, st1) => some (none, st1)
      | some (some c, st1) =>
        I.parseBlockLoopF input startOnNextLine (commands ++ [c]) st1
  parseWriteF := fun input st =>
    let firstToken := getTokenP input st
    match I.parseWriteLoopF input [] st with
    | none => none
    | some (none, st1) => some (none, st1)
    | some (some args, st1) =>
      let lastToken := getTokenP input st1
      some (some (.write firstToken.startPos lastToken.endPos args), st1)
  parseWriteLoopF := fun input args st =>
    match matchWhitespaceP input st with
    | (true, st1) => some (some args, st1)
    | (false, st1) =>
      let token := getTokenP input st1
      match token.kind with
      | .Hash =>
        let st2 := (nextTokenP input st1).2
        let args' := args ++ [WriteArgAst.hashFormatter token.startPos token.endPos]
        match matchTokenP input st2 .Comma with
        | (none, st3) => some (some args', st3)
        | (some _, st3) => I.parseWriteLoopF input args' st3
      | .ExclamationPoint =>
        let st2 := (nextTokenP input st1).2
        let args' := args ++
          [WriteArgAst.exclamationPointFormatter token.startPos token.endPos]
        match matchTokenP input st2 .Comma with
        | (none, st3) => some (some args', st3)
        | (some _, st3) => I.parseWriteLoopF input args' st3
      | _ =>
        match I.parseExpressionF input st1 with
        | none => none
        | some (none, st2) => some (none, st2)
        | some (some e, st2) =>
          let args' := args ++ [WriteArgAst.expr e]
          match matchTokenP input st2 .Comma with
          | (none, st3) => some (some args', st3)
          | (some _, st3) => I.parseWriteLoopF input args' st3
  parseQuitF := fun input st =>
    let firstToken := getTokenP input st
    if getWhitespaceP input st then
      some (some (.quit firstToken.startPos firstToken.endPos none), st)
    else
      match I.parseExpressionF input st with
      | none => none
      | some (none, st1) => some (none, st1)
      | some (some returnValue, st1) =>
        let lastToken := getTokenP input st1
        some (some (.quit firstToken.startPos lastToken.endPos
          (some returnValue)), st1)
  parseDoF := fun input st =>
    if getWhitespaceP input st then
      let firstToken := getTokenP input st
      let startLine := st.line
      let startColumn := st.column
      let stUp := {st with indentationLevel := st.indentationLevel + 1}
      match I.parseBlockF input true stUp with
      | none => none
      | some (res, stb) =>
        let stDown := {stb with indentationLevel := stb.indentationLevel - 1}
        match res with
        | none => some (none, stDown)
        | some block =>
          let st1 := {stDown with nextUnparsedLine := stDown.line, line := startLine, column := startColumn}
          let lastToken := getTokenP input st1
          some (some (.doBlock firstToken.startPos lastToken.endPos block), st1)
    else
      match I.parseCallF input st with
      | none => none
      | some (none, st1) => some (none, st1)
      | some (some c, st1) => some (some (.callCmd c), st1)
  parseTrailingCommandsF := fun input children st =>
    match matchWhitespaceP input st with
    | (true, st1) => some (some children, st1)
    | (false, st1) =>
      match I.parseCommandF input st1 with
      | none => none
      | some (none, st2) => some (none, st2)
      | some (some c, st2) =>
        I.parseTrailingCommandsF input (children ++ [c]) st2
  parseIfF := fun input st =>
    let firstToken := getTokenP input st
    match I.parseIfCondLoopF input [] st with
    | none => none
    | some (none, st1) => some (none, st1)
    | some (some conditions, st1) =>
      match I.parseTrailingCommandsF input [] st1 with
      | none => none
      | some (none, st2) => some (none, st2)
      | some (some children, st2) =>
        let lastToken := getTokenP input st2
        some (some (.ifCmd firstToken.startPos lastToken.endPos conditions
          children), st2)
  parseIfCondLoopF := fun input conditions st =>
    match matchWhitespaceP input st with
    | (true, st1) => some (some conditions, st1)
    | (false, st1) =>
      match I.parseExpressionF input st1 with
      | none => none
      | some (none, st2) => some (none, st2)
      | some (some e, st2) =>
        let conditions' := conditions ++ [e]
        match matchTokenP input st2 .Comma with
        | (some _, st3) => I.parseIfCondLoopF input conditions' st3
        | (none, st3) =>
          match matchWhitespaceP input st3 with
          | (false, st4) =>
            some (none,
              reportErrorP "Expected space after if conditions" input st4)
          | (true, st4) => some (some conditions', st4)
  parseElseF := fun input st =>
    match matchWhitespaceP input st with
    | (false, st1) =>
      some (none,
        reportErrorP "Expected no arguments for else command" input st1)
    | (true, st1) =>
      let firstToken := getTokenP input st1
      match I.parseTrailingCommandsF input [] st1 with
      | none => none
      | some (none, st2) => some (none, st2)
      | some (some children, st2) =>
        let lastToken := getTokenP input st2
        some (some (.elseCmd firstToken.startPos lastToken.endPos children), st2)
  parseForArgumentF := fun input st =>
    match I.parseVariableF input st with
    | none => none
    | some (none, st1) => some (none, st1)
    | some (some v, st1) =>
      match matchTokenP input st1 .Equals with
      | (none, st2) =>
        some (none,
          reportErrorP "Expected equals after for loop variable" input st2)
      | (some _, st2) =>
        match I.parseForExprLoopF input 0 [] st2 with
        | none => none
        | some (none, st3) => some (none, st3)
        | some (some expressions, st3) =>
          let lastToken := getTokenP input st3
          some (some (.mk v.startPos lastToken.endPos v expressions), st3)
  parseForExprLoopF := fun input i acc st =>
    match I.parseExpressionF input st with
    | none => none
    | some (none, st1) => some (none, st1)
    | some (some part, st1) =>
      let acc' := acc ++ [part]
      if i < 2 then
        match matchTokenP input st1 .Colon with
        | (none, st2) => some (some acc', st2)
        | (some _, st2) => I.parseForExprLoopF input (i + 1) acc' st2
      else some (some acc', st1)
  parseForF := fun input st =>
    let firstToken := getTokenP input st
    match matchWhitespaceP input st with
    | (true, st1) =>
      match I.parseTrailingCommandsF input [] st1 with
      | none => none
      | some (none, st2) => some (none, st2)
      | some (some children, st2) =>
        let lastToken := getTokenP input st2
        some (some (.forCmd firstToken.startPos lastToken.endPos none children),
          st2)
    | (false, st1) =>
      match I.parseForArgumentF input st1 with
      | none => none
      | some (arg, st2) =>
        match matchWhitespaceP input st2 with
        | (false, st3) =>
          some (none,
            reportErrorP "Expected space after for loop argument" input st3)
        | (true, st3) =>
          match I.parseTrailingCommandsF input [] st3 with
          | none => none
          | some (none, st4) => some (none, st4)
          | some (some children, st4) =>
            let lastToken := getTokenP input st4
            some (some (.forCmd firstToken.startPos lastToken.endPos arg
              children), st4)
  parseSetF := fun input st =>
    let firstToken := getTokenP input st
    match I.parseSetLoopF input [] st with
    | none => none
    | some (none, st1) => some (none, st1)
    | some (some args, st1) =>
      let lastToken := getTokenP input st1
      some (some (.set firstToken.startPos lastToken.endPos args), st1)
  parseSetLoopF := fun input args st =>
    match matchWhitespaceP input st with
    | (true, st1) => some (some args, st1)
    | (false, st1) =>
      match I.parseVariableF input st1 with
      | none => none
      | some (none, st2) => some (none, st2)
      | some (some v, st2) =>
        match matchTokenP input st2 .Equals with
        | (none, st3) =>
          some (none,
            reportErrorP "Expected equals after identifier in set command"
              input st3)
        | (some _, st3) =>
          match I.parseExpressionF input st3 with
          | none => none
          | some (none, st4) => some (none, st4)
          | some (some e, st4) =>
            let args' := args ++ [SetArgAst.mk v.startPos e.endPos
              (.varTarget v) e]
            match matchTokenP input st4 .Comma with
            | (none, st5) => some (some args', st5)
            | (some _, st5) => I.parseSetLoopF input args' st5
  parseIdentifierListF := fun input st =>
    match matchWhitespaceP input st with
    | (true, st1) => some (some [], st1)
    | (false, st1) =>
      match matchTokenP input st1 .Identifier with
      | (none, st2) => some (none, st2)
      | (some token, st2) =>
        let idents := [(⟨token.startPos, token.endPos, token.text⟩ : IdentifierAst)]
        match matchTokenP input st2 .Comma with
        | (none, st3) => some (some idents, st3)
        | (some _, st3) =>
          match I.parseIdentifierListF input st3 with
          | none => none
          | some (none, st4) => some (none, st4)
          | some (some rest, st4) => some (some (idents ++ rest), st4)
  parseExpressionListF := fun input st =>
    match matchWhitespaceP input st with
    | (true, st1) => some (some [], st1)
    | (false, st1) =>
      match I.parseExpressionF input st1 with
      | none => none
      | some (none, st2) => some (none, st2)
      | some (some e, st2) =>
        match matchTokenP input st2 .Comma with
        | (none, st3) => some (some [e], st3)
        | (some _, st3) =>
          match I.parseExpressionListF input st3 with
          | none => none
          | some (none, st4) => some (none, st4)
          | some (some rest, st4) => some (some (e :: rest), st4)
  parseNewF := fun input st =>
    let firstToken := getTokenP input st
    match I.parseIdentifierListF input st with
    | none => none
    | some (none, st1) => some (none, st1)
    | some (some args, st1) =>
      let lastToken := getTokenP input st1
      some (some (.newCmd firstToken.startPos lastToken.endPos args), st1)
  parseKillF := fun input st =>
    let firstToken := getTokenP input st
    match I.parseIdentifierListF input st with
    | none => none
    | some (none, st1) => some (none, st1)
    | some (some args, st1) =>
      let lastToken := getTokenP input st1
      some (some (.kill firstToken.startPos lastToken.endPos
        (args.map (fun id => VariableAst.mk id.startPos id.endPos id []))), st1)
  parseCommandF := fun input st =>
    match matchTokenP input st .Comment with
    | (some commentToken, st1) =>
      some (some (.mk commentToken.startPos commentToken.endPos none
        (.comment commentToken.startPos commentToken.endPos)), st1)
    | (none, st1) =>
      match matchTokenP input st1 .Identifier with
      | (none, st2) =>
        some (none, reportErrorP "Expected command name" input st2)
      | (some nameToken, st2) =>
        let afterCond := fun (condition : Option ExpressionAst) (st3 : PState) =>
          match matchWhitespaceP input st3 with
          | (false, st4) =>
            some (none,
              reportErrorP "Expected space between command and arguments"
                input st4)
          | (true, st4) =>
            let lower := lowerStr nameToken.text
            let bodyRes : Option (Option CommandBodyAst × PState) :=
              if isPrefixOfStr lower "write" then I.parseWriteF input st4
              else if isPrefixOfStr lower "quit" then I.parseQuitF input st4
              else if isPrefixOfStr lower "do" then I.parseDoF input st4
              else if isPrefixOfStr lower "if" then I.parseIfF input st4
              else if isPrefixOfStr lower "else" then I.parseElseF input st4
              else if isPrefixOfStr lower "for" then I.parseForF input st4
              else if isPrefixOfStr lower "set" then I.parseSetF input st4
              else if isPrefixOfStr lower "new" then I.parseNewF input st4
              else if isPrefixOfStr lower "kill" then I.parseKillF input st4
              else
                some (none,
                  reportErrorAtP "Unrecognized command name" nameToken st4)
            match bodyRes with
            | none => none
            | some (none, st5) => some (none, st5)
            | some (some body, st5) =>
              match matchWhitespaceP input st5 with
              | (false, st6) =>
                some (none,
                  reportErrorP
                    "Expected space between arguments and next commands"
                    input st6)
              | (true, st6) =>
                some (some (.mk nameToken.startPos body.endPos condition body),
                  st6)
        match matchTokenP input st2 .Colon with
        | (none, st3) => afterCond none st3
        | (some _, st3) =>
          match I.parseExpressionF input st3 with
          | none => none
          | some (none, st4) => some (none, st4)
          | some (some e, st4) => afterCond (some e) st4
  parseTagF := fun input st =>
    if (getTokenP input st).kind = .LeftParen then
      let st1 := (nextTokenP input st).2
      match I.parseTagParamsLoopF input 0 [] st1 with
      | none => none
      | some (params, st2) =>
        match matchTokenP input st2 .RightParen with
        | (none, st3) =>
          some (none, reportErrorP "Unterminated parameter list" input st3)
        | (some _, st3) =>
          match matchWhitespaceP input st3 with
          | (false, st4) =>
            some (none, reportErrorP "Expected space after tag name" input st4)
          | (true, st4) => some (some (some params), st4)
    else
      match matchWhitespaceP input st with
      | (false, st1) =>
        some (none, reportErrorP "Expected space after tag name" input st1)
      | (true, st1) => some (some none, st1)
  parseTagParamsLoopF := fun input i params st =>
    match matchTokenP input st .Identifier with
    | (none, st1) =>
      if 0 < i then
        some (params, reportErrorP "Expected parameter name" input st1)
      else some (params, st1)
    | (some paramToken, st1) =>
      let params' := params ++ [paramToken.text]
      match matchTokenP input st1 .Comma with
      | (none, st2) => some (params', st2)
      | (some _, st2) => I.parseTagParamsLoopF input (i + 1) params' st2
  parseTopLevelF := fun input st => I.parseTopLevelLoopF input [] [] st
  parseTopLevelLoopF := fun input tags children st =>
    if input.length ≤ st.line then some (some ⟨tags, children⟩, st)
    else
      let firstToken := getTokenP input st
      let headRes : Option (Option (List (String × Tag)) × PState) :=
        if firstToken.kind = .Identifier then
          let st1 := (nextTokenP input st).2
          match I.parseTagF input st1 with
          | none => none
          | some (none, st2) => some (none, st2)
          | some (some params, st2) =>
            let tags' :=
              match tagsFind tags firstToken.text with
              | some _ => tags
              | none => tags ++ [(firstToken.text, ⟨children.length, params⟩)]
            some (some tags', st2)
        else
          match matchWhitespaceP input st with
          | (false, st1) =>
            some (none, reportErrorP "Expected leading space" input st1)
          | (true, st1) => some (some tags, st1)
      match headRes with
      | none => none
      | some (none, st1) => some (none, st1)
      | some (some tags', st1) =>
        match I.parseBlockF input false st1 with
        | none => none
        | some (none, st2) => some (none, st2)
        | some (some block, st2) =>
          I.parseTopLevelLoopF input tags' (children ++ block) st2

/-- The parser family at each fuel level. -/
def parseAt : Nat → ParseFns
  | 0 => parseNone
  | fuel + 1 => parseStep (parseAt fuel)

/-- `parseExpression` (`parser.ts` lines 597-676): one precedence level,
strictly left-to-right, with the optional `'` negation modifier. -/
def parseExpression (fuel : Nat) (input : TokenLines) (st : PState) :
    Option (Option ExpressionAst × PState) :=
  (parseAt fuel).parseExpressionF input st

/-- `parseCommand` (`parser.ts` lines 1119-1200). -/
def parseCommand (fuel : Nat) (input : TokenLines) (st : PState) :
    Option (Option CommandAst × PState) :=
  (parseAt fuel).parseCommandF input st

/-- `parseTopLevel` (`parser.ts` lines 1242-1290). -/
def parseTopLevel (fuel : Nat) (input : TokenLines) (st : PState) :
    Option (Option TopLevelAst × PState) :=
  (parseAt fuel).parseTopLevelF input st

/-- `parse` (`parser.ts` lines 1292-1303). -/
def parse (fuel : Nat) (input : TokenLines) :
    Option (Option TopLevelAst × List MError) :=
  match parseTopLevel fuel input ⟨0, 0, 1, 0, []⟩ with
  | none => none
  | some (ast, st) => some (ast, st.errors)

/-- `evaluate` (`evaluate.ts` lines 5-25): tokenize, abort on lexical
errors, parse, abort on parse errors, else interpret.  (The optional
externs table of the newer snapshot is not modelled; no caller here
passes one.) -/
def evaluate (fuel : Nat) (script : String) : Option (String × List MError) :=
  let tok := tokenize script
  if tok.2.length > 0 then some ("", tok.2)
  else
    match parse fuel tok.1 with
    | none => none
    | some (astOpt, perrs) =>
      if perrs.length > 0 then some ("", perrs)
      else
        match astOpt with
        | none => some ("", perrs)
        | some ast => interpret fuel ast

/-- The expression `3+4*3` as the cited parser builds it: addition first,
multiplication applied to the result — strictly left-to-right. -/
def c9Add : ExpressionAst :=
  .binaryOp ⟨0, 3⟩ ⟨0, 5⟩ .Add false
    (.numberLit ⟨0, 3⟩ ⟨0, 3⟩ 3 1) (.numberLit ⟨0, 5⟩ ⟨0, 5⟩ 4 1)

def c9Mult : ExpressionAst :=
  .binaryOp ⟨0, 3⟩ ⟨0, 7⟩ .Multiply false c9Add (.numberLit ⟨0, 7⟩ ⟨0, 7⟩ 3 1)

def c9ExpectedCmd : CommandAst :=
  .mk ⟨0, 1⟩ ⟨0, 8⟩ none (.write ⟨0, 3⟩ ⟨0, 8⟩ [.expr c9Mult])

/-- C9: the full pipeline on `" w 3+4*3"` writes `21` with no errors,
because the single-precedence-level `parseExpression` parses the input
as `(3+4)*3` (second conjunct: the parse tree applies Multiply to the
Add node), and `interpretBinaryOp` then evaluates `7*3 = 21`. -/
theorem claim9_pipeline_left_to_right :
    evaluate 64 " w 3+4*3" = some ("21", []) ∧
      parse 64 (tokenize " w 3+4*3").1 =
        some (some ⟨[], [c9ExpectedCmd]⟩, []) := ⟨rfl, rfl⟩

end MLive
